import Mathlib

set_option autoImplicit false

/-!
The msequencer RPC dispatch core.

A shallow embedding of the request path of `msequencer/server`:
the wire codec (`json_codec.go`), the dispatcher (`handelr.go`) and the
request processor (`processor/porcesser.go`), together with the typed errors
of `msequencer/errors`.

Conventions of the embedding.

* A Go `interface{}` or `reflect.Value` is a `Value`; the nil interface is `Value.nil`.
* A Go `map[string]T` is an association list read with `GoMap.get`.
* `encoding/json`, `fmt` and `strconv` are not part of the repository. What the
  code needs from them is collected in `JsonLib`, `server.CodecLib` and
  `server.HexFmt`; the way `json.Unmarshal` fills a prefilled `[]interface{}` is
  written out in `Unmarshal`.
* A registered method is a function on an explicit world state `W`; every
  `method.Func.Call` is recorded in the `calls` log of the returned `Step`.
* A Go panic is the outcome `Outcome.panicked`.
-/

/-! ## Go values and types -/

/-- The kinds of `reflect.Kind`. -/
inductive reflect.Kind
  | Invalid | Bool
  | Int | Int8 | Int16 | Int32 | Int64
  | Uint | Uint8 | Uint16 | Uint32 | Uint64 | Uintptr
  | Float32 | Float64 | Complex64 | Complex128
  | Array | Chan | Func | Interface | Map | Ptr | Slice | String | Struct | RawPointer
  deriving DecidableEq

/-- A `reflect.Type`: a type that is not an unnamed pointer type, described by its
name, package path, kind and whether it implements `error`; or the pointer type to
another type. -/
inductive GoType
  | base (name pkgPath : String) (kind : reflect.Kind) (isError : Bool)
  | ptr (elem : GoType)
  deriving DecidableEq

/-- The method `Kind()` of `reflect.Type`. -/
def GoType.Kind : GoType → reflect.Kind
  | .base _ _ k _ => k
  | .ptr _ => .Ptr

/-- The bytes of a `json.RawMessage` (or of any `[]byte`). -/
abbrev RawMessage := List Nat

/-! ## msequencer/errors -/

namespace errors

/-- The constant `ServiceMethodSeparator`, a one-character string. -/
def ServiceMethodSeparator : Char := '_'

def specified_InvalidMessageError : Int := -32700
def specified_CallbackError : Int := -32000
def specified_ShutdownError : Int := -32000
def specified_InvalidRequestError : Int := -32600 - 0
def specified_MethodNotFoundError : Int := -32600 - 1
def specified_InvalidParamsError : Int := -32600 - 2

end errors

/-- The values of the interface `RPCError` that the dispatch core handles: the six
core error structs of `errors.go`, and any other implementation of the interface,
given by what its `Code()` and `Error()` methods return. -/
inductive RPCError
  | InvalidRequestError (Message : String)
  | MethodNotFoundError (Service Method : String)
  | InvalidParamsError (Message : String)
  | InvalidMessageError (Message : String)
  | CallbackError (Message : String)
  | ShutdownError
  | other (code : Int) (message : String)
  deriving DecidableEq

/-- The method `Code()`. -/
def RPCError.Code : RPCError → Int
  | .InvalidRequestError _ => errors.specified_InvalidRequestError
  | .MethodNotFoundError _ _ => errors.specified_MethodNotFoundError
  | .InvalidParamsError _ => errors.specified_InvalidParamsError
  | .InvalidMessageError _ => errors.specified_InvalidMessageError
  | .CallbackError _ => errors.specified_CallbackError
  | .ShutdownError => errors.specified_ShutdownError
  | .other c _ => c

/-- The method `Error()`. -/
def RPCError.Error : RPCError → String
  | .InvalidRequestError m => m
  | .MethodNotFoundError s m =>
      "The method " ++ s ++ String.singleton errors.ServiceMethodSeparator ++ m ++
        " does not exist/is not available"
  | .InvalidParamsError m => m
  | .InvalidMessageError m => m
  | .CallbackError m => m
  | .ShutdownError => "Server is shutting down"
  | .other _ m => m

/-- A non-nil value of the Go interface `error`: one that also implements
`RPCError`, or one that only has `Error()`. -/
inductive GoErr
  | rpc (e : RPCError)
  | plain (msg : String)
  deriving DecidableEq

/-- The kinds of the reference values that have no constructor of their own in `Value`. -/
inductive RefKind
  | Chan | Func | Map | Slice
  deriving DecidableEq

/-- The kinds of the values that are neither scalars nor references. -/
inductive PlainKind
  | Float32 | Float64 | Complex64 | Complex128 | Array | Struct
  deriving DecidableEq

/-- The `reflect.Kind` of a `RefKind`. -/
def RefKind.toKind : RefKind → reflect.Kind
  | .Chan => .Chan
  | .Func => .Func
  | .Map => .Map
  | .Slice => .Slice

/-- The `reflect.Kind` of a `PlainKind`. -/
def PlainKind.toKind : PlainKind → reflect.Kind
  | .Float32 => .Float32
  | .Float64 => .Float64
  | .Complex64 => .Complex64
  | .Complex128 => .Complex128
  | .Array => .Array
  | .Struct => .Struct

/-- A Go value as seen through `interface{}` or `reflect.Value`. -/
inductive Value
  /-- the nil interface -/
  | nil
  | str (s : String)
  /-- a value of the string type `processor.ID` -/
  | subID (s : String)
  | int (i : Int)
  | uint (n : Nat)
  | bool (b : Bool)
  /-- the nil value of a pointer, channel, function, map, interface or slice type -/
  | nilRef (t : GoType)
  /-- a non-nil pointer to a variable that holds `v` -/
  | ptr (v : Value)
  /-- a `json.RawMessage` -/
  | rawMessage (m : RawMessage)
  /-- any other non-nil channel, function, map or slice -/
  | ref (k : RefKind) (tag : String)
  /-- a non-nil value of an interface type other than `error`, with its dynamic value -/
  | iface (dyn : Value)
  /-- a non-nil `error` -/
  | err (e : GoErr)
  /-- a `common.Address`, by the 40 hex digits of its `String()` -/
  | address (body : String)
  /-- a `common.Hash`, by the 64 hex digits of its `String()` -/
  | hash (body : String)
  /-- a `context.Context` -/
  | context (n : Nat)
  /-- any other value (float, complex, array, struct) -/
  | other (k : PlainKind) (typeName : String) (repr : String)
  deriving DecidableEq

/-- The method `Kind()` of `reflect.Value`, for a value returned by `Func.Call`.
The signed kinds are represented by `Kind.Int` and the unsigned ones by `Kind.Uint`. -/
def Value.Kind : Value → reflect.Kind
  | .nil => .Interface
  | .str _ => .String
  | .subID _ => .String
  | .int _ => .Int
  | .uint _ => .Uint
  | .bool _ => .Bool
  | .nilRef t => t.Kind
  | .ptr _ => .Ptr
  | .rawMessage _ => .Slice
  | .ref k _ => k.toKind
  | .iface _ => .Interface
  | .err _ => .Interface
  | .address _ => .Array
  | .hash _ => .Array
  | .context _ => .Interface
  | .other k _ _ => k.toKind

/-- Whether `IsNil()` is defined on a value of this kind; on the other kinds it panics. -/
def nillable : reflect.Kind → Bool
  | .Chan | .Func | .Interface | .Map | .Ptr | .Slice | .RawPointer => true
  | _ => false

/-- The method `IsNil()` of `reflect.Value`, on a value of a nillable kind. -/
def Value.IsNil : Value → Bool
  | .nil => true
  | .nilRef _ => true
  | _ => false

/-- The method `Interface()` of `reflect.Value`: the value as an `interface{}`. A nil
value of an interface type becomes the nil interface; a non-nil one its dynamic value. -/
def Value.Interface : Value → Value
  | .nilRef t => if t.Kind = reflect.Kind.Interface then .nil else .nilRef t
  | .iface d => d
  | v => v

/-- The method `String()` of a `reflect.Value` of kind `String`. -/
def Value.getString : Value → String
  | .str s => s
  | .subID s => s
  | _ => ""

/-- The method `Int()` of a `reflect.Value` of a signed integer kind. -/
def Value.getInt : Value → Int
  | .int i => i
  | _ => 0

/-- The method `Uint()` of a `reflect.Value` of an unsigned integer kind. -/
def Value.getUint : Value → Nat
  | .uint n => n
  | _ => 0

/-- The method `Bool()` of a `reflect.Value` of kind `Bool`. -/
def Value.getBool : Value → Bool
  | .bool b => b
  | _ => false

/-- The method `Elem()` of a `reflect.Value` that holds a pointer. -/
def Value.Elem : Value → Value
  | .ptr v => v
  | v => v

/-- The method `Name()` of `reflect.Type`; an unnamed pointer type has the empty name. -/
def GoType.Name : GoType → String
  | .base n _ _ _ => n
  | .ptr _ => ""

/-- The method `PkgPath()` of `reflect.Type`. -/
def GoType.PkgPath : GoType → String
  | .base _ p _ _ => p
  | .ptr _ => ""

/-- The import path of package `processor`. -/
def processorPkg : String := "github.com/ethereum/go-ethereum/msequencer/server/processor"

/-- The import path of go-ethereum's package `common`. -/
def commonPkg : String := "github.com/ethereum/go-ethereum/common"

/-- The variable `IDType` of `utils.go`: the type `processor.ID`. -/
def IDType : GoType := .base "ID" processorPkg .String false

/-- The function `reflect.Zero`: the zero value of a type. -/
def reflect.Zero (t : GoType) : Value :=
  match t.Kind with
  | .Invalid => .nil
  | .Bool => .bool false
  | .Int | .Int8 | .Int16 | .Int32 | .Int64 => .int 0
  | .Uint | .Uint8 | .Uint16 | .Uint32 | .Uint64 | .Uintptr => .uint 0
  | .String => if t = IDType then .subID "" else .str ""
  | .Chan | .Func | .Interface | .Map | .Ptr | .Slice | .RawPointer => .nilRef t
  | .Float32 => .other .Float32 t.Name "0"
  | .Float64 => .other .Float64 t.Name "0"
  | .Complex64 => .other .Complex64 t.Name "0"
  | .Complex128 => .other .Complex128 t.Name "0"
  | .Struct => .other .Struct t.Name "0"
  | .Array =>
      if t.Name = "Address" ∧ t.PkgPath = commonPkg then .address (String.mk (List.replicate 40 '0'))
      else if t.Name = "Hash" ∧ t.PkgPath = commonPkg then .hash (String.mk (List.replicate 64 '0'))
      else .other .Array t.Name "0"

/-- A Go `map[string]T`, newest binding first. -/
abbrev GoMap (α : Type) := List (String × α)

/-- The map read `m[k]` with its `ok` flag. -/
def GoMap.get {α : Type} (m : GoMap α) (k : String) : Option α :=
  List.lookup k m

/-! ## encoding/json -/

/-- A JSON text as `encoding/json` scans it. -/
inductive Json
  | null
  | bool (b : Bool)
  | num (lit : String)
  | str (s : String)
  | arr (elems : List Json)
  | obj (members : List (String × Json))

/-- An element of the `[]interface{}` that `parsePositionalArguments` hands to
`json.Unmarshal`: the nil interface, the pointer `reflect.New(t)` with the value it
points to, or a value that the decoder itself put there. -/
inductive Slot
  | nil
  | new (t : GoType) (v : Value)
  | any (v : Value)
  deriving DecidableEq

/-- What the code uses of `encoding/json`: `parse` is the scanner (`none` for a text
that is not valid JSON), `decode t e` stores a JSON value other than null into a fresh
variable of type `t`, `decodeAny` stores one into an empty `interface{}`, and `errText` is
the text of the error that `Unmarshal` reports when it fails. -/
structure JsonLib where
  parse : RawMessage → Option Json
  decode : GoType → Json → Option Value
  decodeAny : Json → Option Value
  errText : RawMessage → List Slot → String

/-- How `json.Unmarshal` stores one array element into one element of the slice. JSON
null sets the slice element to the nil interface, unless it holds a pointer to a pointer,
in which case the inner pointer is set to nil; any other JSON value is decoded into the
variable that the element points to; an element that is the nil interface receives the
generic decoding. -/
def decodeElem (lib : JsonLib) (p : Slot) (e : Json) : Option Slot :=
  match p, e with
  | .new t _, .null => some (if t.Kind = reflect.Kind.Ptr then .new t (reflect.Zero t) else .nil)
  | .new t _, e => (lib.decode t e).map (Slot.new t)
  | _, .null => some .nil
  | _, e => (lib.decodeAny e).map Slot.any

/-- How `json.Unmarshal` stores a JSON array into the slice: element by element, the
slice growing by nil interfaces when the array is longer and being cut to the length of
the array when it is shorter. The result is `none` when some element fails to decode. -/
def fillSlots (lib : JsonLib) : List Slot → List Json → Option (List Slot)
  | _, [] => some []
  | [], e :: es =>
      match decodeElem lib .nil e, fillSlots lib [] es with
      | some s, some r => some (s :: r)
      | _, _ => none
  | p :: ps, e :: es =>
      match decodeElem lib p e, fillSlots lib ps es with
      | some s, some r => some (s :: r)
      | _, _ => none

/-- The call `json.Unmarshal(args, &params)` for `params` of type `[]interface{}`: a text
that is not JSON is an error, JSON null sets the slice to nil, an array is stored by
`fillSlots`, and any other JSON value is a type error. -/
def Unmarshal (lib : JsonLib) (args : RawMessage) (params : List Slot) :
    Except String (List Slot) :=
  match lib.parse args with
  | none => .error (lib.errText args params)
  | some .null => .ok []
  | some (.arr es) =>
      match fillSlots lib params es with
      | some r => .ok r
      | none => .error (lib.errText args params)
  | some _ => .error (lib.errText args params)

/-! ## msequencer/server/common -/

/-- The struct `RPCRequest`. -/
structure RPCRequest where
  Service : String
  Method : String
  ID : Value
  IsPubSub : Bool := false
  Params : Value := .nil
  Ctx : Value := .nil
  deriving DecidableEq

/-- The struct `RPCResponse`. -/
structure RPCResponse where
  ID : Value
  Reply : Value
  Error : Option RPCError
  IsPubSub : Bool := false
  IsUnsub : Bool := false
  deriving DecidableEq

/-! ## Execution -/

/-- How a Go call ends: it returns a value or it panics. -/
inductive Outcome (α : Type)
  | returned (a : α)
  | panicked (reason : String)

/-- The effect of running a piece of the dispatcher: how it ended, the world it leaves,
and the calls of registered methods it made (method name and argument list), oldest
first. -/
structure Step (W α : Type) where
  outcome : Outcome α
  world : W
  calls : List (String × List Value)

/-! ## msequencer/server/processor -/

namespace processor

/-- The part of `reflect.Method` that the processor uses: the name, and `Func.Call` as
a function of the world and of the argument list. -/
structure Method (W : Type) where
  Name : String
  Func : W → List Value → List Value × W

/-- The struct `callback`. -/
structure callback (W : Type) where
  rcvr : Value
  method : Method W
  argTypes : List GoType
  hasCtx : Bool
  errPos : Int
  isSubscribe : Bool

/-- The struct `service` (its field `rcvr` is never set and is left out). -/
structure service (W : Type) where
  name : String
  typ : GoType
  callbacks : GoMap (callback W)
  subscriptions : GoMap (callback W)

/-- The type `serviceRegistry`. -/
abbrev serviceRegistry (W : Type) := GoMap (service W)

/-- The struct `serverRequest`; a nil `args` is the empty list. -/
structure serverRequest (W : Type) where
  id : Value
  svcname : String := ""
  rcvr : Value := .nil
  callb : Option (callback W) := none
  args : List Value := []
  isUnsubscribe : Bool := false
  err : Option RPCError := none

/-- The struct `JsonRpcProcessorImpl`, reduced to the service table that request
processing reads. -/
structure JsonRpcProcessorImpl (W : Type) where
  services : serviceRegistry W

/-- The function `strconv.FormatInt(i, 10)`. -/
def FormatInt (i : Int) : String := toString i

/-- The function `strconv.FormatUint(n, 10)`. -/
def FormatUint (n : Nat) : String := toString n

/-- The method `String()` of `common.Address` and of `common.Hash`: the hex digits
after the characters "0x". -/
def hexString (body : String) : String := "0x" ++ body

/-- The function `isEmpty`. -/
def isEmpty (v : Value) : Bool :=
  match v.Kind with
  | .String => v.getString == ""
  | .Ptr | .Chan | .Func | .Map | .Interface | .Slice => v.IsNil
  | .Int | .Int8 | .Int16 | .Int32 | .Int64 => FormatInt v.getInt == "0"
  | .Uint | .Uint8 | .Uint16 | .Uint32 | .Uint64 | .Uintptr => FormatUint v.getUint == "0"
  | .Bool => v.getBool == false
  | _ =>
      match v.Interface with
      | .address body => (hexString body).length == 0
      | .hash body => (hexString body).length == 0
      | _ => true

/-- The method `CreateResponse` of the processor. -/
def CreateResponse (id : Value) (reply : Value) : RPCResponse :=
  match reply with
  | .subID _ => { ID := id, Reply := reply, Error := none, IsPubSub := true }
  | _ => { ID := id, Reply := reply, Error := none, IsPubSub := false }

/-- The method `CreateErrorResponse` of the processor. -/
def CreateErrorResponse (id : Value) (err : RPCError) : RPCResponse :=
  { ID := id, Reply := .nil, Error := some err }

/-- The method `CreateErrorResponseWithInfo` of the processor. -/
def CreateErrorResponseWithInfo (id : Value) (err : RPCError) (info : Value) : RPCResponse :=
  { ID := id, Reply := info, Error := some err }

/-- The function `fmt.Sprintf` on the format of the argument-count error of `handle`. -/
def expectsMsg (svcname name : String) (want got : Nat) : String :=
  svcname ++ "_" ++ name ++ " expects " ++ toString want ++ " parameters, got " ++ toString got

/-- The argument list that `handle` builds for `Func.Call`: the receiver, the context
when the method takes one, and the parsed arguments. -/
def callArguments {W : Type} (ctx : Value) (callb : callback W) (args : List Value) :
    List Value :=
  let arguments := [callb.rcvr]
  let arguments := if callb.hasCtx then arguments ++ [ctx] else arguments
  if args.length > 0 then arguments ++ args else arguments

/-- The part of `handle` that follows `Func.Call`: the response for the values that the
method returned. An id passed as `&req.id` is a pointer to the id. -/
def replyOutcome (id : Value) (errPos : Int) (reply : List Value) : Outcome RPCResponse :=
  match reply with
  | [] => .returned (CreateResponse id .nil)
  | r0 :: _ =>
    if errPos ≥ 0 then
      match reply.get? errPos.toNat with
      | none => .panicked "index out of range"
      | some r =>
        if !nillable r.Kind then
          .panicked "reflect: call of reflect.Value.IsNil on a value that cannot be nil"
        else if !r.IsNil then
          match r.Interface with
          | .err (.rpc e) =>
            if !isEmpty r0 then .returned (CreateErrorResponseWithInfo (.ptr id) e r0.Interface)
            else .returned (CreateErrorResponse (.ptr id) e)
          | _ => .panicked "interface conversion: the error is not a code.RPCError"
        else .returned (CreateResponse id r0.Interface)
    else .returned (CreateResponse id r0.Interface)

/-- The method `handle`. Its second result, the activation function, is nil on every
path and is left out. -/
def handle {W : Type} (ctx : Value) (req : serverRequest W) (w : W) : Step W RPCResponse :=
  match req.err with
  | some e => ⟨.returned (CreateErrorResponse (.ptr req.id) e), w, []⟩
  | none =>
    match req.callb with
    | none => ⟨.panicked "invalid memory address or nil pointer dereference", w, []⟩
    | some callb =>
      if req.args.length ≠ callb.argTypes.length then
        let errMsg := expectsMsg req.svcname callb.method.Name callb.argTypes.length req.args.length
        ⟨.returned (CreateErrorResponse (.ptr req.id) (.InvalidParamsError errMsg)), w, []⟩
      else
        let arguments := callArguments ctx callb req.args
        let out := callb.method.Func w arguments
        ⟨replyOutcome req.id callb.errPos out.1, out.2, [(callb.method.Name, arguments)]⟩

/-- The method `exec`: `handle`, whose activation function is always nil. -/
def exec {W : Type} (ctx : Value) (req : serverRequest W) (w : W) : Step W RPCResponse :=
  handle ctx req w

/-- The final loop of `parsePositionalArguments`, from index `i` on: `ps` are the
remaining elements of `params` and `ts` the remaining declared types. The two lists have
the same length when the loop starts. -/
def argValues : Nat → List Slot → List GoType → Except RPCError (List Value)
  | _, [], _ => .ok []
  | _, _ :: _, [] => .ok []
  | i, p :: ps, t :: ts =>
    if p = Slot.nil ∧ t.Kind ≠ reflect.Kind.Ptr then
      .error (.InvalidParamsError ("invalid or missing value for params[" ++ toString i ++ "]"))
    else
      match argValues (i + 1) ps ts with
      | .error e => .error e
      | .ok rest =>
        match p with
        | .nil => .ok (reflect.Zero t :: rest)
        | .new _ v => .ok (v :: rest)
        | .any v => .ok (v.Elem :: rest)

/-- The first loop of `parsePositionalArguments`: for every declared type `t` the
pointer `reflect.New(t)` to a fresh zero value. -/
def newParams (callbackArgs : List GoType) : List Slot :=
  callbackArgs.map (fun t => Slot.new t (reflect.Zero t))

/-- The method `parsePositionalArguments`. -/
def parsePositionalArguments (lib : JsonLib) (args : RawMessage) (callbackArgs : List GoType) :
    Except RPCError (List Value) :=
  let params := newParams callbackArgs
  match Unmarshal lib args params with
  | .error msg => .error (.InvalidParamsError msg)
  | .ok params =>
    if params.length > callbackArgs.length then
      .error (.InvalidParamsError
        ("too many params, want " ++ toString callbackArgs.length ++ " got " ++
          toString params.length))
    else
      let params := params ++ List.replicate (callbackArgs.length - params.length) Slot.nil
      argValues 0 params callbackArgs

/-- The method `parseRequestArguments`. -/
def parseRequestArguments (lib : JsonLib) (argTypes : List GoType) (params : Value) :
    Except RPCError (List Value) :=
  match params with
  | .rawMessage args => parsePositionalArguments lib args argTypes
  | _ => .error (.InvalidParamsError "Invalid params supplied")

/-- The method `checkRequestParams`. -/
def checkRequestParams {W : Type} (lib : JsonLib) (jrpi : JsonRpcProcessorImpl W)
    (req : RPCRequest) : serverRequest W :=
  match jrpi.services.get req.Service with
  | none => { id := req.ID, err := some (.MethodNotFoundError req.Service req.Method) }
  | some svc =>
    if req.IsPubSub then
      { id := req.ID, err := some (.MethodNotFoundError req.Service req.Method) }
    else
      match svc.callbacks.get req.Method with
      | some callb =>
        if req.Params ≠ Value.nil ∧ callb.argTypes.length > 0 then
          match parseRequestArguments lib callb.argTypes req.Params with
          | .ok args => { id := req.ID, svcname := svc.name, callb := some callb, args := args }
          | .error err =>
            { id := req.ID, svcname := svc.name, callb := some callb,
              err := some (.InvalidParamsError err.Error) }
        else { id := req.ID, svcname := svc.name, callb := some callb }
      | none => { id := req.ID, err := some (.MethodNotFoundError req.Service req.Method) }

/-- The method `ProcessRequest` of `JsonRpcProcessorImpl` (and of `Processor`, which
forwards to it). -/
def ProcessRequest {W : Type} (lib : JsonLib) (jrpi : JsonRpcProcessorImpl W)
    (request : RPCRequest) (w : W) : Step W RPCResponse :=
  let sr := checkRequestParams lib jrpi request
  exec request.Ctx sr w

end processor

/-! ## msequencer/server -/

namespace server

/-- The constant `JSONRPCVersion`. -/
def JSONRPCVersion : String := "2.0"

/-- The struct `JSONRequest`; a field that is absent from the message is empty. -/
structure JSONRequest where
  Method : String
  Version : String
  ID : RawMessage
  Payload : RawMessage
  deriving DecidableEq

/-- The struct `JSONResponse`; a field that is not set is the nil interface. -/
structure JSONResponse where
  Version : String
  ID : Value
  Code : Int
  Message : String
  Result : Value := .nil
  Info : Value := .nil
  deriving DecidableEq

/-- What `json_codec.go` uses and the repository does not define: the function
`isHexNum` applied to the dynamic type of a reply, and `fmt.Sprintf` with the verb that
prints a value in hexadecimal with a leading 0x. -/
structure HexFmt where
  isHexNum : Value → Bool
  sprintfHex : Value → String

/-- What the codec uses of `encoding/json` and `strconv` when it reads a message:
`unmarshalRequest` is `json.Unmarshal` into a `JSONRequest`, `unmarshalBatch` the same
into a slice of them, `parseFloatOk` says whether `strconv.ParseFloat` accepts the
bytes, and `unmarshalStringOk` whether `json.Unmarshal` into a string does. -/
structure CodecLib where
  unmarshalRequest : RawMessage → Except String JSONRequest
  unmarshalBatch : RawMessage → Except String (List JSONRequest)
  parseFloatOk : RawMessage → Bool
  unmarshalStringOk : RawMessage → Bool

/-- The function `strings.Split` for a separator of one character. -/
def Split (s : String) (sep : Char) : List String :=
  (s.data.splitOn sep).map String.mk

/-- The function `checkReqID`; the result is the text of the error, if any. -/
def checkReqID (lib : CodecLib) (reqID : RawMessage) : Option String :=
  if reqID.length = 0 then some "missing request id"
  else if lib.parseFloatOk reqID then none
  else if lib.unmarshalStringOk reqID then none
  else some "invalid request id"

/-- The function `parseRequest`. The id of a request is the pointer `&in.ID`. -/
def parseRequest (lib : CodecLib) (incomingMsg : RawMessage) (_options : Nat) :
    List RPCRequest × Bool × Option RPCError :=
  match lib.unmarshalRequest incomingMsg with
  | .error msg => ([], false, some (.InvalidMessageError msg))
  | .ok req =>
    match checkReqID lib req.ID with
    | some msg => ([], false, some (.InvalidMessageError msg))
    | none =>
      let elems := Split req.Method errors.ServiceMethodSeparator
      match elems with
      | [e0, e1] =>
        if req.Payload.length = 0 then
          ([{ Service := e0, Method := e1, ID := .ptr (.rawMessage req.ID) }], false, none)
        else
          ([{ Service := e0, Method := e1, ID := .ptr (.rawMessage req.ID),
              Params := .rawMessage req.Payload }], false, none)
      | _ => ([], false, some (.MethodNotFoundError req.Method ""))

/-- The method `CreateResponse` of the codec. -/
def CreateResponse (hex : HexFmt) (id : Value) (reply : Value) : JSONResponse :=
  if hex.isHexNum reply then
    { Version := JSONRPCVersion, ID := id, Code := 0, Message := "SUCCESS",
      Result := .str (hex.sprintfHex reply) }
  else
    { Version := JSONRPCVersion, ID := id, Code := 0, Message := "SUCCESS", Result := reply }

/-- The method `CreateErrorResponse` of the codec. -/
def CreateErrorResponse (id : Value) (err : RPCError) : JSONResponse :=
  { Version := JSONRPCVersion, ID := id, Code := err.Code, Message := err.Error }

/-- The method `CreateErrorResponseWithInfo` of the codec. -/
def CreateErrorResponseWithInfo (id : Value) (err : RPCError) (info : Value) : JSONResponse :=
  { Version := JSONRPCVersion, ID := id, Code := err.Code, Message := err.Error, Info := info }

/-- A value handed to the method `Write` of the codec: one envelope, or a slice of them. -/
inductive Written
  | one (r : JSONResponse)
  | many (rs : List JSONResponse)
  deriving DecidableEq

/-- The state of a `jsonCodecImpl` that the dispatcher can observe: the values passed to
`Write` so far, oldest first, whether `Close` was called, and which values the encoder
or the stream refuses. -/
structure jsonCodecImpl where
  written : List Written
  closed : Bool
  refuses : Written → Bool

/-- The method `Write`: whether it returned an error, and the codec afterwards. -/
def jsonCodecImpl.Write (c : jsonCodecImpl) (res : Written) : Bool × jsonCodecImpl :=
  (c.refuses res, { c with written := c.written ++ [res] })

/-- The method `Close`. -/
def jsonCodecImpl.Close (c : jsonCodecImpl) : jsonCodecImpl :=
  { c with closed := true }

/-- The struct `HttpHandler`, reduced to the run flag and the processor. -/
structure HttpHandler (W : Type) where
  run : Int
  processor : processor.JsonRpcProcessorImpl W

/-- The method `handleChannelReq`. The result of `ProcessRequest` is never nil and is
always a `*RPCResponse`, so the two `CallbackError` branches are not reachable. -/
def handleChannelReq {W : Type} (hex : HexFmt) (lib : JsonLib) (s : HttpHandler W)
    (req : RPCRequest) (w : W) : Step W JSONResponse :=
  let st := processor.ProcessRequest lib s.processor req w
  match st.outcome with
  | .panicked reason => ⟨.panicked reason, st.world, st.calls⟩
  | .returned response =>
    match response.Error with
    | some e =>
      if response.Reply = Value.nil then
        ⟨.returned (CreateErrorResponse response.ID e), st.world, st.calls⟩
      else
        ⟨.returned (CreateErrorResponseWithInfo response.ID e response.Reply), st.world, st.calls⟩
    | none =>
      if response.Reply ≠ Value.nil then
        ⟨.returned (CreateResponse hex response.ID response.Reply), st.world, st.calls⟩
      else ⟨.returned (CreateResponse hex response.ID .nil), st.world, st.calls⟩

/-- The loop of `handleReqs`: each request gets the context and is handled in turn; a
panic ends the loop. -/
def handleLoop {W : Type} (hex : HexFmt) (lib : JsonLib) (s : HttpHandler W) (ctx : Value) :
    List RPCRequest → W → Step W (List JSONResponse)
  | [], w => ⟨.returned [], w, []⟩
  | req :: rest, w =>
    let st := handleChannelReq hex lib s { req with Ctx := ctx } w
    match st.outcome with
    | .panicked reason => ⟨.panicked reason, st.world, st.calls⟩
    | .returned r =>
      let st2 := handleLoop hex lib s ctx rest st.world
      match st2.outcome with
      | .panicked reason => ⟨.panicked reason, st2.world, st.calls ++ st2.calls⟩
      | .returned rs => ⟨.returned (r :: rs), st2.world, st.calls ++ st2.calls⟩

/-- The two branches that write in `handleReqs`: the codec after `Write`, closed when
the write returned an error. -/
def writeOrClose (codec : jsonCodecImpl) (res : Written) : jsonCodecImpl :=
  let out := codec.Write res
  if out.1 then out.2.Close else out.2

/-- The method `handleReqs`: the codec after the write. The slice `response` has one
element for each request. -/
def handleReqs {W : Type} (hex : HexFmt) (lib : JsonLib) (s : HttpHandler W) (ctx : Value)
    (codec : jsonCodecImpl) (reqs : List RPCRequest) (w : W) : Step W jsonCodecImpl :=
  let number := reqs.length
  let st := handleLoop hex lib s ctx reqs w
  match st.outcome with
  | .panicked reason => ⟨.panicked reason, st.world, st.calls⟩
  | .returned response =>
    if number = 1 then
      match response with
      | r :: _ => ⟨.returned (writeOrClose codec (.one r)), st.world, st.calls⟩
      | [] => ⟨.panicked "index out of range", st.world, st.calls⟩
    else ⟨.returned (writeOrClose codec (.many response)), st.world, st.calls⟩

end server

/-- What `encoding/json` writes for an id: a pointer is encoded as the value it points
to. -/
def wireID : Value → Value
  | .ptr v => wireID v
  | v => v

/-! ## A registry and a library table for the examples -/

namespace demo

/-- The bytes of an ASCII text. -/
def bytes (s : String) : RawMessage := s.data.map Char.toNat

/-- The type `string`. -/
def stringT : GoType := .base "string" "" .String false

/-- The type `error`. -/
def errorT : GoType := .base "error" "" .Interface true

/-- The type `hexutil.Bytes`. -/
def bytesT : GoType := .base "Bytes" "github.com/ethereum/go-ethereum/common/hexutil" .Slice false

/-- The scanner of `encoding/json` on the texts of the examples; a text outside the
table is treated as malformed. -/
def parse (bs : RawMessage) : Option Json :=
  if bs = bytes "null" then some .null
  else if bs = bytes "[]" then some (.arr [])
  else if bs = bytes "[null]" then some (.arr [.null])
  else if bs = bytes "[null,\"a\"]" then some (.arr [.null, .str "a"])
  else if bs = bytes "[\"a\"]" then some (.arr [.str "a"])
  else if bs = bytes "[\"a\",\"b\"]" then some (.arr [.str "a", .str "b"])
  else if bs = bytes "[\"0x00\"]" then some (.arr [.str "0x00"])
  else none

/-- The decoder of `encoding/json` for the types of the examples: a JSON string is
stored into a `string` and into a `hexutil.Bytes` (which requires the leading 0x), a
value for a pointer type is stored into a fresh variable, and nothing else decodes. -/
def decode : GoType → Json → Option Value
  | .base "string" "" .String false, .str s => some (.str s)
  | .base "Bytes" "github.com/ethereum/go-ethereum/common/hexutil" .Slice false, .str s =>
      if s.data.take 2 = ['0', 'x'] then some (.ref .Slice s) else none
  | .ptr t, e => (decode t e).map Value.ptr
  | _, _ => none

/-- The decoder of `encoding/json` for an empty interface. -/
def decodeAny : Json → Option Value
  | .null => some .nil
  | .bool b => some (.bool b)
  | .num lit => some (.other .Float64 "float64" lit)
  | .str s => some (.str s)
  | .arr _ => some (.ref .Slice "[]interface")
  | .obj _ => some (.ref .Map "map[string]interface")

/-- The library table of the examples. -/
def lib : JsonLib :=
  { parse := parse, decode := decode, decodeAny := decodeAny,
    errText := fun _ _ => "json: cannot unmarshal" }

/-- No reply is of a hex-number type. -/
def hex : server.HexFmt := { isHexNum := fun _ => false, sprintfHex := fun _ => "" }

/-- The world of the examples: the transaction pool, oldest entry first. -/
abbrev World := List String

/-- The error of `types.Transaction.UnmarshalBinary` on the inputs of the examples:
the one-byte input 0x00 is a typed transaction that is too short. -/
def txDecodeError (input : String) : Option String :=
  if input = "0x00" then some "typed transaction too short" else none

/-- The method `SendRawTransaction` of `api.Transaction`: a plain `error` and the reply
"fail" when the input does not decode, else the input is pushed to the pool. -/
def SendRawTransaction : processor.Method World :=
  { Name := "SendRawTransaction",
    Func := fun w args =>
      match args with
      | [_, .ref .Slice input] =>
        match txDecodeError input with
        | some msg => ([.str "fail", .err (.plain msg)], w)
        | none => ([.str "success", .nilRef errorT], w ++ [input])
      | _ => ([.str "fail", .err (.plain "bad call")], w) }

/-- The callback that `suitableCallbacks` builds for `SendRawTransaction`. -/
def sendRawTransaction : processor.callback World :=
  { rcvr := .ptr (.other .Struct "Transaction" ""), method := SendRawTransaction,
    argTypes := [bytesT], hasCtx := false, errPos := 1, isSubscribe := false }

/-- A method `Greet(name *string) string`, whose only parameter is optional. -/
def Greet : processor.Method World :=
  { Name := "Greet",
    Func := fun w args =>
      match args with
      | [_, .ptr (.str s)] => ([.str ("hello " ++ s)], w)
      | _ => ([.str "hello"], w) }

/-- The callback for `Greet`. -/
def greet : processor.callback World :=
  { rcvr := .ptr (.other .Struct "Test" ""), method := Greet,
    argTypes := [.ptr stringT], hasCtx := false, errPos := -1, isSubscribe := false }

/-- A method `Ping() string` without parameters. -/
def Ping : processor.Method World :=
  { Name := "Ping", Func := fun w _ => ([.str "pong"], w) }

/-- The callback for `Ping`. -/
def ping : processor.callback World :=
  { rcvr := .ptr (.other .Struct "Test" ""), method := Ping,
    argTypes := [], hasCtx := false, errPos := -1, isSubscribe := false }

/-- A method `Name(s string) string` with one required parameter. -/
def Name : processor.Method World :=
  { Name := "Name", Func := fun w _ => ([.str "name"], w) }

/-- The callback for `Name`. -/
def name : processor.callback World :=
  { rcvr := .ptr (.other .Struct "Test" ""), method := Name,
    argTypes := [stringT], hasCtx := false, errPos := -1, isSubscribe := false }

/-- The service `test` of the examples. -/
def testService : processor.service World :=
  { name := "test", typ := .ptr (.base "Test" "api" .Struct false),
    callbacks := [("greet", greet), ("ping", ping), ("name", name)],
    subscriptions := [] }

/-- A processor with the service `tx` of the repository and a service `test`. -/
def jrpi : processor.JsonRpcProcessorImpl World :=
  { services :=
      [("tx", { name := "tx", typ := .ptr (.base "Transaction" "api" .Struct false),
                callbacks := [("sendRawTransaction", sendRawTransaction)],
                subscriptions := [] }),
       ("test", testService)] }

/-- The handler of the examples. -/
def handler : server.HttpHandler World := { run := 1, processor := jrpi }

/-- The message of the example of the specification: method unknownsvc_foo, id 2. -/
def msgUnknown : RawMessage := bytes "\x7b\"method\":\"unknownsvc_foo\",\"id\":2\x7d"

/-- A message for tx_sendRawTransaction with id 1 and the params ["0x00"]. -/
def msgSend : RawMessage :=
  bytes "\x7b\"method\":\"tx_sendRawTransaction\",\"id\":1,\"params\":[\"0x00\"]\x7d"

/-- The codec library on the messages of the examples: the two messages decode into
their fields, the ids 1 and 2 are numbers, and nothing else is accepted. -/
def clib : server.CodecLib :=
  { unmarshalRequest := fun bs =>
      if bs = msgUnknown then
        .ok { Method := "unknownsvc_foo", Version := "", ID := bytes "2", Payload := [] }
      else if bs = msgSend then
        .ok { Method := "tx_sendRawTransaction", Version := "", ID := bytes "1",
              Payload := bytes "[\"0x00\"]" }
      else .error "invalid character",
    unmarshalBatch := fun _ => .error "invalid character",
    parseFloatOk := fun bs => bs = bytes "1" ∨ bs = bytes "2",
    unmarshalStringOk := fun _ => false }

/-- A codec that has written nothing, is open and accepts every write. -/
def codec : server.jsonCodecImpl := { written := [], closed := false, refuses := fun _ => false }

/-- A request for test_ping with id 3 and no params. -/
def reqPing : RPCRequest :=
  { Service := "test", Method := "ping", ID := .ptr (.rawMessage (bytes "3")) }

/-- A request for test_greet with id 4 that has no params field. -/
def reqGreet : RPCRequest :=
  { Service := "test", Method := "greet", ID := .ptr (.rawMessage (bytes "4")) }

/-- The request of the message `msgSend`: tx_sendRawTransaction with the params
["0x00"]. -/
def reqSend : RPCRequest :=
  { Service := "tx", Method := "sendRawTransaction", ID := .ptr (.rawMessage (bytes "1")),
    Params := .rawMessage (bytes "[\"0x00\"]") }

/-- A request for test_greet with id 5 and the empty params array. -/
def reqGreetEmpty : RPCRequest :=
  { Service := "test", Method := "greet", ID := .ptr (.rawMessage (bytes "5")),
    Params := .rawMessage (bytes "[]") }

/-- A request for test_ping with id 6 and the params ["a"]. -/
def reqPingOne : RPCRequest :=
  { Service := "test", Method := "ping", ID := .ptr (.rawMessage (bytes "6")),
    Params := .rawMessage (bytes "[\"a\"]") }

/-- A request for test_name with id 7 and the params ["a","b"]. -/
def reqNameTwo : RPCRequest :=
  { Service := "test", Method := "name", ID := .ptr (.rawMessage (bytes "7")),
    Params := .rawMessage (bytes "[\"a\",\"b\"]") }

/-- A request for test_name with id 8 and the params [null]. -/
def reqNameNull : RPCRequest :=
  { Service := "test", Method := "name", ID := .ptr (.rawMessage (bytes "8")),
    Params := .rawMessage (bytes "[null]") }

/-- A request for test_name with id 9 and the params [null,"a"]. -/
def reqNameNullMore : RPCRequest :=
  { Service := "test", Method := "name", ID := .ptr (.rawMessage (bytes "9")),
    Params := .rawMessage (bytes "[null,\"a\"]") }

/-- The request of the example of the specification: method unknownsvc_foo, id 2. -/
def reqUnknown : RPCRequest :=
  { Service := "unknownsvc", Method := "foo", ID := .ptr (.rawMessage (bytes "2")) }

end demo

/-! ## msequencer/server: reading a batch -/

namespace server

/-- The function `isBatch`. -/
def isBatch : RawMessage → Bool
  | [] => false
  | c :: rest =>
    if c = 0x20 ∨ c = 0x09 ∨ c = 0x0a ∨ c = 0x0d then isBatch rest
    else c == 0x5b

/-- The request that `parseRequest` and `parseBatchRequest` build from a decoded item and
the two segments of its method string. -/
def toRPCRequest (r : JSONRequest) (e0 e1 : String) : RPCRequest :=
  if r.Payload.length = 0 then
    { Service := e0, Method := e1, ID := .ptr (.rawMessage r.ID), Params := .nil }
  else
    { Service := e0, Method := e1, ID := .ptr (.rawMessage r.ID),
      Params := .rawMessage r.Payload }

/-- The loop of `parseBatchRequest` over the decoded items: the requests, or the batch
flag and the error of the first item that is rejected. -/
def parseBatchItems (lib : CodecLib) : List JSONRequest → Except (Bool × RPCError) (List RPCRequest)
  | [] => .ok []
  | r :: rest =>
    match checkReqID lib r.ID with
    | some msg => .error (false, .InvalidMessageError msg)
    | none =>
      match Split r.Method errors.ServiceMethodSeparator with
      | [e0, e1] =>
        match parseBatchItems lib rest with
        | .ok requests => .ok (toRPCRequest r e0 e1 :: requests)
        | .error e => .error e
      | _ => .error (true, .MethodNotFoundError r.Method "")

/-- The function `parseBatchRequest`. -/
def parseBatchRequest (lib : CodecLib) (incomingMsg : RawMessage) :
    List RPCRequest × Bool × Option RPCError :=
  match lib.unmarshalBatch incomingMsg with
  | .error msg => ([], false, some (.InvalidMessageError msg))
  | .ok items =>
    match parseBatchItems lib items with
    | .ok requests => (requests, true, none)
    | .error e => ([], e.1, some e.2)

end server

namespace demo

/-- A message without id: method tx_sendRawTransaction only. -/
def msgNoId : RawMessage := bytes "\x7b\"method\":\"tx_sendRawTransaction\"\x7d"

/-- A message whose method string foo has no separator, with id 1. -/
def msgBadMethod : RawMessage := bytes "\x7b\"method\":\"foo\",\"id\":1\x7d"

/-- A message for test_ping whose id is the number 1e999. -/
def msgBigId : RawMessage := bytes "\x7b\"method\":\"test_ping\",\"id\":1e999\x7d"

/-- The item test_ping with id 1. -/
def itemPing : server.JSONRequest :=
  { Method := "test_ping", Version := "", ID := bytes "1", Payload := [] }

/-- The item tx_sendRawTransaction with id 2 and the params ["0x00"]. -/
def itemSend : server.JSONRequest :=
  { Method := "tx_sendRawTransaction", Version := "", ID := bytes "2",
    Payload := bytes "[\"0x00\"]" }

/-- The item test_ping whose id is the empty object. -/
def itemObjectId : server.JSONRequest :=
  { Method := "test_ping", Version := "", ID := bytes "\x7b\x7d", Payload := [] }

/-- The item whose method string foo has no separator, with id 2. -/
def itemBadMethod : server.JSONRequest :=
  { Method := "foo", Version := "", ID := bytes "2", Payload := [] }

/-- The batch of test_ping and tx_sendRawTransaction. -/
def msgBatch : RawMessage :=
  bytes ("[\x7b\"method\":\"test_ping\",\"id\":1\x7d," ++
    "\x7b\"method\":\"tx_sendRawTransaction\",\"id\":2,\"params\":[\"0x00\"]\x7d]")

/-- The batch of test_ping with id 1 and test_ping with an object as id. -/
def msgBatchObjectId : RawMessage :=
  bytes ("[\x7b\"method\":\"test_ping\",\"id\":1\x7d," ++
    "\x7b\"method\":\"test_ping\",\"id\":\x7b\x7d\x7d]")

/-- The batch of test_ping with id 1 and the method string foo with id 2. -/
def msgBatchBadMethod : RawMessage :=
  bytes ("[\x7b\"method\":\"test_ping\",\"id\":1\x7d," ++
    "\x7b\"method\":\"foo\",\"id\":2\x7d]")

/-- The codec library on the messages above. `strconv.ParseFloat` accepts the texts 1
and 2; it reports a range error for 1e999, which is larger than every float64, and a
syntax error for the object. `json.Unmarshal` into a string accepts a JSON string and
null, and neither a number nor an object. -/
def clibMore : server.CodecLib :=
  { unmarshalRequest := fun bs =>
      if bs = msgNoId then
        .ok { Method := "tx_sendRawTransaction", Version := "", ID := [], Payload := [] }
      else if bs = msgBadMethod then
        .ok { Method := "foo", Version := "", ID := bytes "1", Payload := [] }
      else if bs = msgBigId then
        .ok { Method := "test_ping", Version := "", ID := bytes "1e999", Payload := [] }
      else .error "invalid character",
    unmarshalBatch := fun bs =>
      if bs = msgBatch then .ok [itemPing, itemSend]
      else if bs = msgBatchObjectId then .ok [itemPing, itemObjectId]
      else if bs = msgBatchBadMethod then .ok [itemPing, itemBadMethod]
      else .error "invalid character",
    parseFloatOk := fun bs => bs = bytes "1" ∨ bs = bytes "2",
    unmarshalStringOk := fun bs => bs = bytes "\"abc\"" ∨ bs = bytes "null" }

end demo

/-! ## Requests that fail resolution -/

/-- A request fails resolution when `checkRequestParams` reports an error for it (the
service or the method is unknown, or the params do not parse), or when the number of its
parsed arguments is not the number of declared parameters, which `handle` rejects before
it calls the method. -/
def processor.resolutionFails {W : Type} (lib : JsonLib) (jrpi : processor.JsonRpcProcessorImpl W)
    (req : RPCRequest) : Bool :=
  let sr := processor.checkRequestParams lib jrpi req
  sr.err.isSome ||
    match sr.callb with
    | some callb => sr.args.length != callb.argTypes.length
    | none => false

namespace demo

/-- A method `Push(s string) string` that appends its argument to the pool. -/
def Push : processor.Method World :=
  { Name := "Push",
    Func := fun w args =>
      match args with
      | [_, .str s] => ([.str "ok"], w ++ [s])
      | _ => ([.str "ok"], w) }

/-- The callback for `Push`. -/
def push : processor.callback World :=
  { rcvr := .ptr (.other .Struct "Pool" ""), method := Push,
    argTypes := [stringT], hasCtx := false, errPos := -1, isSubscribe := false }

/-- A method `Size() int` that returns the number of entries of the pool. -/
def Size : processor.Method World :=
  { Name := "Size", Func := fun w _ => ([.int w.length], w) }

/-- The callback for `Size`. -/
def size : processor.callback World :=
  { rcvr := .ptr (.other .Struct "Pool" ""), method := Size,
    argTypes := [], hasCtx := false, errPos := -1, isSubscribe := false }

/-- A handler whose only service, pool, has the callbacks push and size. -/
def poolHandler : server.HttpHandler World :=
  { run := 1,
    processor :=
      { services :=
          [("pool", { name := "pool", typ := .ptr (.base "Pool" "api" .Struct false),
                      callbacks := [("push", push), ("size", size)],
                      subscriptions := [] })] } }

/-- A request for pool_push with id 1 and the params ["a"]. -/
def reqPush : RPCRequest :=
  { Service := "pool", Method := "push", ID := .ptr (.rawMessage (bytes "1")),
    Params := .rawMessage (bytes "[\"a\"]") }

/-- A request for pool_size with id 2. -/
def reqSize : RPCRequest :=
  { Service := "pool", Method := "size", ID := .ptr (.rawMessage (bytes "2")) }

end demo

/-! ## msequencer/server/processor: the service registry -/

/-- What the registry uses of package `unicode`. -/
structure Unicode where
  IsUpper : Char → Bool
  ToLower : Char → Char

/-- The map write `m[k] = v`. -/
def GoMap.set {α : Type} (m : GoMap α) (k : String) (v : α) : GoMap α :=
  (k, v) :: m.filter (fun p => p.1 != k)

namespace scommon

def ErrNoApis : GoErr := .plain "no api service will be registered"
def ErrNoServiceName : GoErr := .plain "no service name"
def ErrNotExported : GoErr := .plain "not exported receiver"
def ErrNoSuitable : GoErr := .plain "no suitable methods/subscriptions to expose"
def ErrInvalidReply : GoErr := .plain "invalid subscription reply"

end scommon

namespace processor

/-- The variable `contextType`: the interface `context.Context`. -/
def contextType : GoType := .base "Context" "context" .Interface false

/-- The variable `errorType`: the interface `error`. -/
def errorType : GoType := .base "error" "" .Interface true

/-- The function `isExported`. The empty name decodes to the rune error U+FFFD, which is
not an upper-case letter. -/
def isExported (u : Unicode) (name : String) : Bool :=
  match name.data with
  | [] => false
  | c :: _ => u.IsUpper c

/-- The function `formatName`. -/
def formatName (u : Unicode) (name : String) : String :=
  match name.data with
  | [] => name
  | c :: cs => String.mk (u.ToLower c :: cs)

/-- The loop that replaces a type by its element type as long as its kind is `Ptr`. The
model has no named pointer types, so the loop ends at the first type that is not built
with `ptr`. -/
def derefType : GoType → GoType
  | .ptr e => derefType e
  | t => t

/-- The function `isContextType`. -/
def isContextType (t : GoType) : Bool :=
  derefType t == contextType

/-- The function `isErrorType`; `Implements(errorType)` is the flag of the type. -/
def isErrorType (t : GoType) : Bool :=
  match derefType t with
  | .base _ _ _ isError => isError
  | .ptr _ => false

/-- The function `isIDType`. -/
def isIDType (t : GoType) : Bool :=
  derefType t == IDType

/-- The function `isExportedOrBuiltinType`. -/
def isExportedOrBuiltinType (u : Unicode) (t : GoType) : Bool :=
  isExported u (derefType t).Name || (derefType t).PkgPath == ""

/-- The type of a method as `reflect` shows it: the parameter types, the receiver
first, and the result types. -/
structure FuncType where
  In : List GoType
  Out : List GoType
  deriving DecidableEq

/-- A `reflect.Method` of a receiver type: the name and `Func` that dispatch uses, the
package path (empty for an exported method) and the type. -/
structure RMethod (W : Type) extends Method W where
  PkgPath : String
  mtype : FuncType

/-- The function `isPubSub`. -/
def isPubSub (methodType : FuncType) : Bool :=
  if methodType.In.length < 2 ∨ methodType.Out.length ≠ 2 then false
  else
    match methodType.In, methodType.Out with
    | _ :: in1 :: _, [out0, out1] => isContextType in1 && isIDType out0 && isErrorType out1
    | _, _ => false

/-- The loop of `suitableCallbacks` that looks for the first result of an error type:
its index, counted from `i`, or -1. -/
def errorPos : List GoType → Int → Int
  | [], _ => -1
  | t :: ts, i => if isErrorType t then i else errorPos ts (i + 1)

/-- What one round of the loop of `suitableCallbacks` does with a method: it skips it,
or stores its callback under a name among the subscriptions or among the callbacks. -/
inductive Classified (W : Type)
  | skipped
  | subscription (mname : String) (h : callback W)
  | plain (mname : String) (h : callback W)

/-- One round of the loop of `suitableCallbacks`. -/
def classify {W : Type} (u : Unicode) (rcvr : Value) (method : RMethod W) : Classified W :=
  let mtype := method.mtype
  let mname := formatName u method.Name
  if method.PkgPath ≠ "" then .skipped
  else
    let isSubscribe := isPubSub mtype
    let numIn := mtype.In.length
    let hasCtx := decide (numIn ≥ 2) && (mtype.In[1]? == some contextType)
    let firstArg := if hasCtx then 2 else 1
    let argTypes := mtype.In.drop firstArg
    if isSubscribe then
      if argTypes.all (isExportedOrBuiltinType u) then
        .subscription mname
          { rcvr := rcvr, method := method.toMethod, argTypes := argTypes, hasCtx := hasCtx,
            errPos := -1, isSubscribe := true }
      else .skipped
    else if !argTypes.all (isExportedOrBuiltinType u) then .skipped
    else if !mtype.Out.all (isExportedOrBuiltinType u) then .skipped
    else
      let errPos := errorPos mtype.Out 0
      if errPos ≥ 0 ∧ errPos ≠ (mtype.Out.length : Int) - 1 then .skipped
      else
        let h : callback W :=
          { rcvr := rcvr, method := method.toMethod, argTypes := argTypes, hasCtx := hasCtx,
            errPos := errPos, isSubscribe := false }
        match mtype.Out.length with
        | 0 => .plain mname h
        | 1 => .plain mname h
        | 2 => if errPos = -1 then .skipped else .plain mname h
        | _ => .skipped

/-- The function `suitableCallbacks`; `methods` are the methods `typ.Method(m)` of the
receiver type in the order of their index. -/
def suitableCallbacks {W : Type} (u : Unicode) (rcvr : Value) (methods : List (RMethod W)) :
    GoMap (callback W) × GoMap (callback W) :=
  methods.foldl
    (fun acc method =>
      match classify u rcvr method with
      | .skipped => acc
      | .subscription mname h => (acc.1, acc.2.set mname h)
      | .plain mname h => (acc.1.set mname h, acc.2))
    ([], [])

/-- A receiver object: its type `reflect.TypeOf(rcvr)`, its value `reflect.ValueOf(rcvr)`
and the methods of its type. -/
structure Receiver (W : Type) where
  typ : GoType
  val : Value
  methods : List (RMethod W)

/-- The struct `api.API`. -/
structure API (W : Type) where
  Svcname : String
  Version : String
  Service : Receiver W
  Public : Bool

/-- The type of `reflect.Indirect(rcvrVal)`: the element type of a pointer, any other
type itself. -/
def indirectType : GoType → GoType
  | .ptr e => e
  | t => t

/-- Whether `reflect.Indirect(rcvrVal)` is the zero `reflect.Value`, on which the method
`Type()` panics. It is for the nil interface, for which `reflect.ValueOf` returns the zero
value, and for a nil pointer, whose `Elem()` is the zero value. -/
def indirectInvalid (rcvrVal : Value) : Bool :=
  match rcvrVal with
  | .nil => true
  | .nilRef t => decide (t.Kind = reflect.Kind.Ptr)
  | _ => false

/-- The method `registerAPIService`: the error it returns, or its panic, and the
processor afterwards. The name of the type of `reflect.Indirect(rcvrVal)` is read from
the type of the receiver when that value is valid, and the call of `Type()` panics when
it is not. A service that is already registered is updated in place. -/
def registerAPIService {W : Type} (u : Unicode) (jrpi : JsonRpcProcessorImpl W)
    (svcname : String) (rcvr : Receiver W) :
    Outcome (Option GoErr) × JsonRpcProcessorImpl W :=
  if svcname = "" then (.returned (some scommon.ErrNoServiceName), jrpi)
  else if indirectInvalid rcvr.val then
    (.panicked "reflect: call of reflect.Value.Type on zero Value", jrpi)
  else if !isExported u (indirectType rcvr.typ).Name then
    (.returned (some scommon.ErrNotExported), jrpi)
  else
    let found := suitableCallbacks u rcvr.val rcvr.methods
    let callbacks := found.1
    let subscriptions := found.2
    if callbacks.length = 0 ∧ subscriptions.length = 0 then
      (.returned (some scommon.ErrNoSuitable), jrpi)
    else
      match jrpi.services.get svcname with
      | some regsvc =>
        let merged : service W :=
          { regsvc with
            callbacks := callbacks.foldl
              (fun acc m => acc.set (formatName u m.2.method.Name) m.2) regsvc.callbacks,
            subscriptions := subscriptions.foldl
              (fun acc m => acc.set (formatName u m.2.method.Name) m.2) regsvc.subscriptions }
        (.returned none, { jrpi with services := jrpi.services.set svcname merged })
      | none =>
        let svc : service W :=
          { name := svcname, typ := rcvr.typ, callbacks := callbacks,
            subscriptions := subscriptions }
        (.returned none, { jrpi with services := jrpi.services.set svcname svc })

/-- The loop of `registerAllAPIService` over the apis; the order of the list is the
order in which the run iterates the map. A value of the map is a pointer to an `API`,
`none` being the nil pointer, whose field `Svcname` cannot be read. -/
def registerLoop {W : Type} (u : Unicode) :
    List (String × Option (API W)) → JsonRpcProcessorImpl W →
      Outcome (Option GoErr) × JsonRpcProcessorImpl W
  | [], jrpi => (.returned none, jrpi)
  | (_, none) :: _, jrpi =>
    (.panicked "invalid memory address or nil pointer dereference", jrpi)
  | (_, some api) :: rest, jrpi =>
    match registerAPIService u jrpi api.Svcname api.Service with
    | (.returned none, jrpi2) => registerLoop u rest jrpi2
    | (.returned (some err), jrpi2) => (.returned (some err), jrpi2)
    | (.panicked reason, jrpi2) => (.panicked reason, jrpi2)

/-- The method `registerAllAPIService`; the field `apis` of the processor is the
argument `apis`, and a nil map is the empty list. -/
def registerAllAPIService {W : Type} (u : Unicode) (apis : GoMap (Option (API W)))
    (jrpi : JsonRpcProcessorImpl W) : Outcome (Option GoErr) × JsonRpcProcessorImpl W :=
  if apis.length = 0 then (.returned (some scommon.ErrNoApis), jrpi)
  else registerLoop u apis jrpi

end processor

namespace demo

/-- The tables of package `unicode` on the ASCII letters. -/
def ascii : Unicode := { IsUpper := Char.isUpper, ToLower := Char.toLower }

/-- The import path of package `api`. -/
def apiPkg : String := "github.com/ethereum/go-ethereum/msequencer/api"

/-- The type `api.Transaction`. -/
def transactionT : GoType := .base "Transaction" apiPkg .Struct false

/-- The type `common.Hash`. -/
def hashT : GoType := .base "Hash" commonPkg .Array false

/-- The method `NewBlock` of `api.Transaction` when no execution engine answers: the
pool is emptied and the reply is "fail" with the error of the client. -/
def NewBlock : processor.RMethod World :=
  { Name := "NewBlock",
    Func := fun _ _ => ([.str "fail", .err (.plain "connection refused")], []),
    PkgPath := "",
    mtype := { In := [.ptr transactionT, hashT], Out := [stringT, errorT] } }

/-- The method `SendRawTransaction` with its type. -/
def SendRawTransactionDecl : processor.RMethod World :=
  { SendRawTransaction with
    PkgPath := "",
    mtype := { In := [.ptr transactionT, bytesT], Out := [stringT, errorT] } }

/-- The receiver `api.NewTransaction()`; its type has the exported methods `NewBlock`
and `SendRawTransaction`. -/
def txReceiver : processor.Receiver World :=
  { typ := .ptr transactionT, val := .ptr (.other .Struct "Transaction" ""),
    methods := [NewBlock, SendRawTransactionDecl] }

/-- The api `tx` of `GetApis`. -/
def txApi : processor.API World :=
  { Svcname := "tx", Version := "1.0", Service := txReceiver, Public := true }

/-- A receiver whose type `counter` is not exported. -/
def hiddenReceiver : processor.Receiver World :=
  { typ := .ptr (.base "counter" apiPkg .Struct false),
    val := .ptr (.other .Struct "counter" ""), methods := [] }

/-- A receiver of the exported type `Empty`, which has no method. -/
def emptyReceiver : processor.Receiver World :=
  { typ := .ptr (.base "Empty" apiPkg .Struct false),
    val := .ptr (.other .Struct "Empty" ""), methods := [] }

/-- The nil pointer of type `*api.Transaction` as a receiver; the methods are those of
the type. -/
def nilTxReceiver : processor.Receiver World :=
  { typ := .ptr transactionT, val := .nilRef (.ptr transactionT),
    methods := [NewBlock, SendRawTransactionDecl] }

/-- A processor without services. -/
def emptyJrpi : processor.JsonRpcProcessorImpl World := { services := [] }

end demo

/-! ## msequencer/errors: every error type and its code -/

namespace errors

def custom_InvalidTokenError : Int := -32097
def custom_UnauthorizedError : Int := -32098
def custom_CertError : Int := -32099

def custom_DBNotFoundError : Int := -32001 - 0
def custom_OutofBalanceError : Int := -32001 - 1
def custom_SignatureInvalidError : Int := -32001 - 2
def custom_ContractDeployError : Int := -32001 - 3
def custom_ContractInvokeError : Int := -32001 - 4
def custom_SystemTooBusyError : Int := -32001 - 5
def custom_RepeatedTxError : Int := -32001 - 6
def custom_ContractPermissionError : Int := -32001 - 7
def custom_AccountNotExistError : Int := -32001 - 8
def custom_NamespaceNotFoundError : Int := -32001 - 9
def custom_NoBlockGeneratedError : Int := -32001 - 10
def custom_SubNotExistError : Int := -32001 - 11
def custom_SnapshotError : Int := -32001 - 12
def custom_APINotFoundError : Int := -32001 - 13

/-- The error types of `errors.go`, in the order of the file. A value of the
enumeration stands for the struct type; the fields of the struct play no part in
`Code()`. -/
inductive ErrorKind
  | InvalidRequestError
  | MethodNotFoundError
  | InvalidParamsError
  | InvalidMessageError
  | CallbackError
  | ShutdownError
  | DBNotFoundError
  | OutOfBalanceError
  | SignatureInvalidError
  | ContractDeployError
  | ContractInvokeError
  | SystemTooBusyError
  | RepeatedTxError
  | ContractPermissionError
  | AccountNotExistError
  | NamespaceNotFound
  | NoBlockGeneratedError
  | InvalidTokenError
  | SubNotExistError
  | SnapshotErr
  | UnauthorizedError
  | CertError
  | APINotFoundError
  deriving DecidableEq, Fintype

/-- The method `Code()` of each error type. -/
def ErrorKind.Code : ErrorKind → Int
  | .InvalidRequestError => specified_InvalidRequestError
  | .MethodNotFoundError => specified_MethodNotFoundError
  | .InvalidParamsError => specified_InvalidParamsError
  | .InvalidMessageError => specified_InvalidMessageError
  | .CallbackError => specified_CallbackError
  | .ShutdownError => specified_ShutdownError
  | .DBNotFoundError => custom_DBNotFoundError
  | .OutOfBalanceError => custom_OutofBalanceError
  | .SignatureInvalidError => custom_SignatureInvalidError
  | .ContractDeployError => custom_ContractDeployError
  | .ContractInvokeError => custom_ContractInvokeError
  | .SystemTooBusyError => custom_SystemTooBusyError
  | .RepeatedTxError => custom_RepeatedTxError
  | .ContractPermissionError => custom_ContractPermissionError
  | .AccountNotExistError => custom_AccountNotExistError
  | .NamespaceNotFound => custom_NamespaceNotFoundError
  | .NoBlockGeneratedError => custom_NoBlockGeneratedError
  | .InvalidTokenError => custom_InvalidTokenError
  | .SubNotExistError => custom_SubNotExistError
  | .SnapshotErr => custom_SnapshotError
  | .UnauthorizedError => custom_UnauthorizedError
  | .CertError => custom_CertError
  | .APINotFoundError => custom_APINotFoundError

end errors

/-- The error type of a value of `RPCError` that is one of the six core structs. -/
def RPCError.kind : RPCError → Option errors.ErrorKind
  | .InvalidRequestError _ => some .InvalidRequestError
  | .MethodNotFoundError _ _ => some .MethodNotFoundError
  | .InvalidParamsError _ => some .InvalidParamsError
  | .InvalidMessageError _ => some .InvalidMessageError
  | .CallbackError _ => some .CallbackError
  | .ShutdownError => some .ShutdownError
  | .other _ _ => none

/-! ## msequencer/errors/errorcode: the table of registered codes -/

namespace errorcode

/-- The variable `_codes`, a `map[int]string`, as an association list. -/
abbrev Codes := List (Int × String)

/-- The map read `_codes[c]`: the message, or `none` when the key is absent. -/
def Codes.get (codes : Codes) (c : Int) : Option String :=
  codes.lookup c

/-- The map write `_codes[c] = message`. -/
def Codes.set (codes : Codes) (c : Int) (message : String) : Codes :=
  (c, message) :: codes.filter (fun p => p.1 != c)

/-- The function `New`: the code it returns or the value it panics with, and `_codes`
afterwards. The verb `%d` prints the decimal digits of the code, with a minus sign for
a negative one. -/
def New (codes : Codes) (c : Int) (message : String) : Outcome Int × Codes :=
  match codes.get c with
  | some _ => (.panicked ("error code: " ++ toString c ++ " already exist"), codes)
  | none => (.returned c, codes.set c message)

/-- The struct `customError`. -/
structure customError where
  code : Int
  message : String
  deriving DecidableEq

/-- The method `Error()`. -/
def customError.Error (ce : customError) : String := ce.message

/-- The method `Code()`. -/
def customError.Code (ce : customError) : Int := ce.code

/-- The function `NewError`; `sprintf` is `fmt.Sprintf`, and the read of an absent key
gives the empty string. -/
def NewError (sprintf : String → List Value → String) (codes : Codes) (code : Int)
    (format : String) (v : List Value) : customError :=
  let desc := (codes.get code).getD ""
  let err : customError := { code := code, message := desc }
  if format ≠ "" then
    if err.message ≠ "" then { err with message := err.message ++ (": " ++ sprintf format v) }
    else { err with message := sprintf format v }
  else err

end errorcode

namespace demo

/-- What `fmt.Sprintf` returns on the formats of the examples. -/
def sprintf (format : String) (v : List Value) : String :=
  match format, v with
  | "not found transaction %s", [.str s] => "not found transaction " ++ s
  | _, _ => format

/-- The table `_codes` after the first two registrations of `custom_code.go`. -/
def codes : errorcode.Codes := [(-32002, "Out of balance"), (-32001, "DB not found")]

/-- A value of the struct type `api.Transaction`. -/
def transactionValue : Value := .other .Struct "Transaction" "\x7b\x7d"

/-- The zero value of `common.Address`. -/
def zeroAddress : Value := .address "0000000000000000000000000000000000000000"

end demo

/-! ## The descriptors of suitableCallbacks and receivers for the examples -/

namespace processor

/-- The test `numIn >= 2 && mtype.In(1) == contextType` of `suitableCallbacks`, which
sets `hasCtx` and `firstArg`. -/
def leadingContext (mtype : FuncType) : Bool :=
  decide (mtype.In.length ≥ 2) && (mtype.In[1]? == some contextType)

/-- The parameter types `mtype.In(i)` for `firstArg <= i < numIn`: those after the
receiver, and after the context when `leadingContext` holds. -/
def domainArgs (mtype : FuncType) : List GoType :=
  mtype.In.drop (if leadingContext mtype then 2 else 1)

/-- The descriptor `h` that a round of the loop of `suitableCallbacks` stores for a
method among the subscriptions. -/
def subscriptionDescriptor {W : Type} (rcvr : Value) (method : RMethod W) : callback W :=
  { rcvr := rcvr, method := method.toMethod, argTypes := domainArgs method.mtype,
    hasCtx := leadingContext method.mtype, errPos := -1, isSubscribe := true }

/-- The descriptor `h` that a round of the loop of `suitableCallbacks` stores for a
method among the callbacks. -/
def plainDescriptor {W : Type} (rcvr : Value) (method : RMethod W) : callback W :=
  { rcvr := rcvr, method := method.toMethod, argTypes := domainArgs method.mtype,
    hasCtx := leadingContext method.mtype, errPos := errorPos method.mtype.Out 0,
    isSubscribe := false }

end processor

namespace demo

/-- The type `counter` of package `api`, which is not exported. -/
def counterT : GoType := .base "counter" apiPkg .Struct false

/-- A method `Incr()` of `*counter`. -/
def Incr : processor.RMethod World :=
  { Name := "Incr", Func := fun w _ => ([], w), PkgPath := "",
    mtype := { In := [.ptr counterT], Out := [] } }

/-- A receiver of the type `*counter` with the exported method `Incr`. -/
def counterReceiver : processor.Receiver World :=
  { typ := .ptr counterT, val := .ptr (.other .Struct "counter" ""), methods := [Incr] }

/-- The type `Feed` of the examples of subscriptions. -/
def feedT : GoType := .base "Feed" apiPkg .Struct false

/-- The type `filter` of package `api`, which is not exported. -/
def filterT : GoType := .base "filter" apiPkg .Struct false

/-- The value of a receiver of type `*Feed`. -/
def feedValue : Value := .ptr (.other .Struct "Feed" "")

/-- A method `Follow(ctx *context.Context) (ID, error)` of `*Feed`. -/
def Follow : processor.RMethod World :=
  { Name := "Follow", Func := fun w _ => ([.subID "1", .nilRef errorT], w), PkgPath := "",
    mtype := { In := [.ptr feedT, .ptr processor.contextType], Out := [IDType, errorT] } }

/-- A method `Subscribe(ctx context.Context, topic string) (ID, error)` of `*Feed`. -/
def Subscribe : processor.RMethod World :=
  { Name := "Subscribe", Func := fun w _ => ([.subID "2", .nilRef errorT], w), PkgPath := "",
    mtype := { In := [.ptr feedT, processor.contextType, stringT], Out := [IDType, errorT] } }

/-- A method `Watch(ctx context.Context, f filter) (ID, error)` of `*Feed`. -/
def Watch : processor.RMethod World :=
  { Name := "Watch", Func := fun w _ => ([.subID "3", .nilRef errorT], w), PkgPath := "",
    mtype := { In := [.ptr feedT, processor.contextType, filterT], Out := [IDType, errorT] } }

/-- The methods of `*Feed` in the order of their index, which is the order of their
names. -/
def feedMethods : List (processor.RMethod World) := [Follow, Subscribe, Watch]

/-- The letter U+212A KELVIN SIGN: an upper-case letter whose lower case is `k`. -/
def kelvinSign : Char := Char.ofNat 0x212A

/-- The tables of package `unicode` on the ASCII letters and on the Kelvin sign. -/
def letters : Unicode :=
  { IsUpper := fun c => c.isUpper || c == kelvinSign,
    ToLower := fun c => if c == kelvinSign then 'k' else c.toLower }

/-- The type `Ball` of the examples of names that differ in their first letter only. -/
def ballT : GoType := .base "Ball" apiPkg .Struct false

/-- The value of a receiver of type `*Ball`. -/
def ballValue : Value := .ptr (.other .Struct "Ball" "")

/-- A method `Kick() string` of `*Ball`; the first letter of its name is the ASCII
letter K. -/
def Kick : processor.RMethod World :=
  { Name := "Kick", Func := fun w _ => ([.str "ascii"], w), PkgPath := "",
    mtype := { In := [.ptr ballT], Out := [stringT] } }

/-- A method of `*Ball` whose name is the Kelvin sign followed by `ick`, with one
parameter. -/
def KelvinKick : processor.RMethod World :=
  { Name := String.mk [kelvinSign, 'i', 'c', 'k'], Func := fun w _ => ([.str "kelvin"], w),
    PkgPath := "", mtype := { In := [.ptr ballT, stringT], Out := [stringT] } }

/-- The methods of `*Ball` in the order of their index: the ASCII name sorts first. -/
def ballMethods : List (processor.RMethod World) := [Kick, KelvinKick]

/-- A method `Keep(ctx context.Context) (ID, error)` of `*Ball`. -/
def Keep : processor.RMethod World :=
  { Name := "Keep", Func := fun w _ => ([.subID "4", .nilRef errorT], w), PkgPath := "",
    mtype := { In := [.ptr ballT, processor.contextType], Out := [IDType, errorT] } }

/-- A method of `*Ball` whose name is the Kelvin sign followed by `eep`, shaped like
`Keep` with one more parameter. -/
def KelvinKeep : processor.RMethod World :=
  { Name := String.mk [kelvinSign, 'e', 'e', 'p'],
    Func := fun w _ => ([.subID "5", .nilRef errorT], w), PkgPath := "",
    mtype := { In := [.ptr ballT, processor.contextType, stringT],
               Out := [IDType, errorT] } }

end demo

/-! ## msequencer/server: serving a connection -/

namespace server

/-- A call on the set `codecs` of the handler; a codec stands in it by a number, its
address. The package `set` is not among the sources, so the set is represented by the
calls made on it, oldest first. -/
inductive SetCall
  | Add (codec : Nat)
  | Remove (codec : Nat)
  deriving DecidableEq

/-- The method `Stop`: the handler afterwards, and whether `time.AfterFunc` was called
to schedule the closing of the codecs of the set. -/
def Stop {W : Type} (s : HttpHandler W) : HttpHandler W × Bool :=
  if s.run = 1 then ({ s with run := 0 }, true) else (s, false)

/-- The method `ReadRawRequest` of the codec. `next` is what the decoder returns for the
next message of the stream: its bytes, or the text of its error, which is "EOF" at the
end of the stream. -/
def ReadRawRequest (clib : CodecLib) (next : Except String RawMessage) (options : Nat) :
    List RPCRequest × Bool × Option RPCError :=
  match next with
  | .error msg => ([], false, some (.InvalidRequestError msg))
  | .ok incomingMsg =>
    if isBatch incomingMsg then parseBatchRequest clib incomingMsg
    else parseRequest clib incomingMsg options

/-- The method `readRequest`. -/
def readRequest (clib : CodecLib) (next : Except String RawMessage) (options : Nat) :
    List RPCRequest × Bool × Option RPCError :=
  match ReadRawRequest clib next options with
  | (_, batch, some err) => ([], batch, some err)
  | (reqs, batch, none) =>
    if reqs.length = 0 then ([], false, some (.InvalidRequestError "no request found"))
    else (reqs, batch, none)

/-- What happens while `serveRequest` waits in `readRequest`: whether another goroutine
calls `Stop` in the meantime, and what the decoder then returns. -/
structure ReadEvent where
  stop : Bool
  next : Except String RawMessage

/-- An error that `serveRequest` returns: a `ShutdownError`, or the error of the method
`Write` of the codec. -/
inductive ServeError
  | ShutdownError
  | WriteError
  deriving DecidableEq

/-- How the loop of `serveRequest` ends: with a return, with a panic of its own
goroutine, or with a panic of a goroutine that it started. -/
inductive LoopEnd
  | returned (err : Option ServeError)
  | panicked (reason : String)
  | crashed (reason : String)
  deriving DecidableEq

/-- The state when the loop of `serveRequest` ends: the handler, the codec, the events
of the stream that were not read, the world, and the calls of registered methods. -/
structure Looped (W : Type) where
  ending : LoopEnd
  handler : HttpHandler W
  codec : jsonCodecImpl
  pending : List ReadEvent
  world : W
  calls : List (String × List Value)

/-- The branch of `serveRequest` that finds the handler stopped after a read: the value
it hands to `Write`, or `none` when `reqs[0]` is out of range. -/
def shutdownReply (reqs : List RPCRequest) (batch : Bool) : Option Written :=
  if batch then some (.many (reqs.map (fun r => CreateErrorResponse r.ID .ShutdownError)))
  else
    match reqs with
    | r :: _ => some (.one (CreateErrorResponse r.ID .ShutdownError))
    | [] => none

/-- The loop of `serveRequest`. Each round loads the run flag, reads, and loads the flag
again; the stream is the list of events, and an empty list is the end of the stream. A
goroutine that the loop starts for `handleReqs` is run to its end before the next round,
which is one of the schedules. -/
def serveLoop {W : Type} (hex : HexFmt) (lib : JsonLib) (clib : CodecLib) (ctx : Value)
    (singleShot : Bool) (options : Nat) :
    List ReadEvent → HttpHandler W → jsonCodecImpl → W → Looped W
  | [], s, codec, w => ⟨.returned none, s, codec, [], w, []⟩
  | ev :: rest, s, codec, w =>
    if s.run ≠ 1 then ⟨.returned none, s, codec, ev :: rest, w, []⟩
    else
      let s := if ev.stop then (Stop s).1 else s
      match readRequest clib ev.next options with
      | (_, _, some err) =>
        if err.Error ≠ "EOF" then
          ⟨.returned none, s, (codec.Write (.one (CreateErrorResponse .nil err))).2, rest, w, []⟩
        else ⟨.returned none, s, codec, rest, w, []⟩
      | (reqs, batch, none) =>
        if s.run ≠ 1 then
          match shutdownReply reqs batch with
          | some res =>
            let out := codec.Write res
            ⟨.returned (if out.1 then some .WriteError else none), s, out.2, rest, w, []⟩
          | none => ⟨.panicked "index out of range", s, codec, rest, w, []⟩
        else
          let st := handleReqs hex lib s ctx codec reqs w
          match st.outcome with
          | .panicked reason =>
            if singleShot then ⟨.panicked reason, s, codec, rest, st.world, st.calls⟩
            else ⟨.crashed reason, s, codec, rest, st.world, st.calls⟩
          | .returned c =>
            if singleShot then ⟨.returned none, s, c, rest, st.world, st.calls⟩
            else
              let r := serveLoop hex lib clib ctx singleShot options rest s c st.world
              { r with calls := st.calls ++ r.calls }

/-- The state that a call of `serveRequest` leaves: what it returned, or the panic of a
goroutine, the handler, the calls on the set of codecs, the codec, the events that were
not read, the world and the calls of registered methods. -/
structure Served (W : Type) where
  result : Outcome (Option ServeError)
  handler : HttpHandler W
  codecs : List SetCall
  codec : jsonCodecImpl
  pending : List ReadEvent
  world : W
  calls : List (String × List Value)

/-- The method `serveRequest`; `name` is the address of the codec and `codecs` the calls
made so far on the set of the handler. The deferred function recovers a panic of the
loop, after which `serveRequest` returns nil, and removes the codec from the set. -/
def serveRequest {W : Type} (hex : HexFmt) (lib : JsonLib) (clib : CodecLib)
    (s : HttpHandler W) (codecs : List SetCall) (ctx : Value) (name : Nat)
    (codec : jsonCodecImpl) (singleShot : Bool) (options : Nat) (events : List ReadEvent)
    (w : W) : Served W :=
  if s.run ≠ 1 then
    ⟨.returned (some .ShutdownError), s, codecs ++ [.Remove name], codec, events, w, []⟩
  else
    let r := serveLoop hex lib clib ctx singleShot options events s codec w
    match r.ending with
    | .returned err =>
      ⟨.returned err, r.handler, codecs ++ [.Add name, .Remove name], r.codec, r.pending,
        r.world, r.calls⟩
    | .panicked _ =>
      ⟨.returned none, r.handler, codecs ++ [.Add name, .Remove name], r.codec, r.pending,
        r.world, r.calls⟩
    | .crashed reason =>
      ⟨.panicked reason, r.handler, codecs ++ [.Add name], r.codec, r.pending, r.world,
        r.calls⟩

/-- The method `ServeCodec`: `serveRequest` for many requests, after which the codec is
closed. -/
def ServeCodec {W : Type} (hex : HexFmt) (lib : JsonLib) (clib : CodecLib)
    (s : HttpHandler W) (codecs : List SetCall) (ctx : Value) (name : Nat)
    (codec : jsonCodecImpl) (options : Nat) (events : List ReadEvent) (w : W) : Served W :=
  let r := serveRequest hex lib clib s codecs ctx name codec false options events w
  { r with codec := r.codec.Close }

/-- The method `ServeSingleRequest`; `ctx` is the context that `context.WithCancel`
returns. -/
def ServeSingleRequest {W : Type} (hex : HexFmt) (lib : JsonLib) (clib : CodecLib)
    (s : HttpHandler W) (codecs : List SetCall) (ctx : Value) (name : Nat)
    (codec : jsonCodecImpl) (options : Nat) (events : List ReadEvent) (w : W) : Served W :=
  serveRequest hex lib clib s codecs ctx name codec true options events w

end server

/-! ## msequencer/api: the transaction pool -/

namespace api

/-- The struct `TxPool`; an item is a `hexutil.Bytes`. -/
structure TxPool where
  txs : List (List Nat)
  deriving DecidableEq

/-- The function `NewTxPool`. -/
def NewTxPool : TxPool := { txs := [] }

/-- The method `Push`. -/
def TxPool.Push (t : TxPool) (bytes : List Nat) : TxPool :=
  { txs := t.txs ++ [bytes] }

/-- The method `Pop`: what it returns and the pool afterwards. Slicing with a negative
bound panics. -/
def TxPool.Pop (t : TxPool) (n : Int) : Outcome (List (List Nat)) × TxPool :=
  let n := if n > (t.txs.length : Int) then (t.txs.length : Int) else n
  if n < 0 then (.panicked "slice bounds out of range", t)
  else (.returned (t.txs.take n.toNat), { txs := t.txs.drop n.toNat })

end api

/-! ## msequencer/errors/errorcode: the codes registered at initialization -/

namespace errorcode

/-- The calls of `New` in `common_code.go`, in the order of the file. -/
def commonCodes : List (Int × String) :=
  [(-32700, "Invalid JSON message"),
   (-32000, "Internal server error"),
   (-32600, "Invalid request"),
   (-32601, "Method not found"),
   (-32602, "Invalid params")]

/-- The calls of `New` in `custom_code.go`, in the order of the file. -/
def customCodes : List (Int × String) :=
  [(-32001, "DB not found"),
   (-32002, "Out of balance"),
   (-32003, "Invalid signature"),
   (-32004, "Deploy contract failed"),
   (-32005, "Invoke contract failed"),
   (-32006, "System is too busy"),
   (-32007, "Repeated transaction"),
   (-32008, "Contract invocation permission not enough"),
   (-32009, "Account dose not exist"),
   (-32010, "The namespace does not exist"),
   (-32011, "There is no block generated"),
   (-32012, "Required subscription does not existed or has expired"),
   (-32013, "The process of snapshot or archive happened error"),
   (-32014, "Failed to unlock local node account"),
   (-32015, "Failed to invoke native contract"),
   (-32016, "Invalid participant node hashes"),
   (-32017, "Unreachable peers"),
   (-32018, "Inconsistent peer"),
   (-32019, "Invalid private transaction with no collection info"),
   (-32020, "ACO service is not available"),
   (-32021, "Deprecated API"),
   (-32022, "contract not exist"),
   (-32097, "Invalid token"),
   (-32098, "Unauthorized, Please check your cert"),
   (-32099, "Cert error")]

/-- A sequence of calls of `New`, as the initialization of the package variables makes
them: the first panic ends it. -/
def registerAll : Codes → List (Int × String) → Outcome Unit × Codes
  | codes, [] => (.returned (), codes)
  | codes, (c, message) :: rest =>
    match New codes c message with
    | (.returned _, codes2) => registerAll codes2 rest
    | (.panicked reason, codes2) => (.panicked reason, codes2)

end errorcode

namespace demo

/-- A handler that was stopped. -/
def stoppedHandler : server.HttpHandler World := { run := 0, processor := jrpi }

/-- The stream on which another goroutine calls `Stop` while the batch of test_ping and
tx_sendRawTransaction arrives. -/
def stopDuringBatch : List server.ReadEvent := [{ stop := true, next := .ok msgBatch }]

/-- The stream on which another goroutine calls `Stop` while the message for
tx_sendRawTransaction arrives. -/
def stopDuringSend : List server.ReadEvent := [{ stop := true, next := .ok msgSend }]

/-- A service whose method `subscribe` is a subscription only. -/
def feedJrpi : processor.JsonRpcProcessorImpl World :=
  { services :=
      [("feed", { name := "feed", typ := .ptr feedT, callbacks := [],
                  subscriptions :=
                    [("subscribe", processor.subscriptionDescriptor feedValue Subscribe)] })] }

/-- A request for feed_subscribe with id 1. -/
def reqSubscribe : RPCRequest :=
  { Service := "feed", Method := "subscribe", ID := .ptr (.rawMessage (bytes "1")) }

end demo

/-! ## Properties of request resolution -/

namespace processor

/-- A request that does not resolve to a callback gets the method-not-found error. -/
theorem checkRequestParams_notFound {W : Type} (lib : JsonLib) (jrpi : JsonRpcProcessorImpl W)
    (req : RPCRequest)
    (h : jrpi.services.get req.Service = none ∨
      ∃ svc, jrpi.services.get req.Service = some svc ∧
        (req.IsPubSub = true ∨ svc.callbacks.get req.Method = none)) :
    checkRequestParams lib jrpi req =
      { id := req.ID, err := some (.MethodNotFoundError req.Service req.Method) } := by
  rcases h with h | ⟨svc, hs, h⟩
  · simp [checkRequestParams, h]
  · rcases h with h | h
    · simp [checkRequestParams, hs, h]
    · by_cases hp : req.IsPubSub = true
      · simp [checkRequestParams, hs, hp]
      · simp [checkRequestParams, hs, hp, h]

/-- C1: for every service table and every request with IsPubSub false whose service is
not registered, or whose method is not among the callbacks of that service,
ProcessRequest calls no method, leaves the world as it was, and returns a response whose
error has code -32601 and the message "The method service_method does not exist/is not
available", with a nil reply. -/
theorem ProcessRequest_method_not_found {W : Type} (lib : JsonLib)
    (jrpi : JsonRpcProcessorImpl W) (req : RPCRequest) (w : W)
    (_hpub : req.IsPubSub = false)
    (h : jrpi.services.get req.Service = none ∨
      ∃ svc, jrpi.services.get req.Service = some svc ∧ svc.callbacks.get req.Method = none) :
    ∃ resp, (ProcessRequest lib jrpi req w).outcome = .returned resp ∧
      (ProcessRequest lib jrpi req w).calls = [] ∧
      (ProcessRequest lib jrpi req w).world = w ∧
      resp.Reply = Value.nil ∧
      ∃ e, resp.Error = some e ∧ e.Code = -32601 ∧
        e.Error = "The method " ++ req.Service ++ "_" ++ req.Method ++
          " does not exist/is not available" := by
  have hc : checkRequestParams lib jrpi req =
      { id := req.ID, err := some (.MethodNotFoundError req.Service req.Method) } := by
    apply checkRequestParams_notFound
    rcases h with h | ⟨svc, hs, h⟩
    · exact Or.inl h
    · exact Or.inr ⟨svc, hs, Or.inr h⟩
  refine ⟨CreateErrorResponse (.ptr req.ID) (.MethodNotFoundError req.Service req.Method),
    ?_, ?_, ?_, rfl, _, rfl, ?_, ?_⟩
  · simp [ProcessRequest, exec, handle, hc]
  · simp [ProcessRequest, exec, handle, hc]
  · simp [ProcessRequest, exec, handle, hc]
  · rfl
  · rfl

end processor

/-- The witness of `ProcessRequest_method_not_found`: the request unknownsvc_foo. -/
theorem ProcessRequest_method_not_found_witness :
    demo.reqUnknown.IsPubSub = false ∧
    demo.jrpi.services.get demo.reqUnknown.Service = none ∧
    ∃ resp, (processor.ProcessRequest demo.lib demo.jrpi demo.reqUnknown []).outcome =
        .returned resp ∧
      (processor.ProcessRequest demo.lib demo.jrpi demo.reqUnknown []).calls = [] ∧
      (processor.ProcessRequest demo.lib demo.jrpi demo.reqUnknown []).world = [] ∧
      resp.Reply = Value.nil ∧
      ∃ e, resp.Error = some e ∧ e.Code = -32601 ∧
        e.Error = "The method " ++ demo.reqUnknown.Service ++ "_" ++ demo.reqUnknown.Method ++
          " does not exist/is not available" :=
  ⟨rfl, rfl,
    processor.ProcessRequest_method_not_found demo.lib demo.jrpi demo.reqUnknown [] rfl
      (Or.inl rfl)⟩

/-! ## The id of a response -/

/-- The processor's success response carries the id it is given. -/
theorem processor.response_keeps_ID (id reply : Value) :
    (processor.CreateResponse id reply).ID = id := by
  cases reply <;> rfl

/-- The codec's success envelope carries the id it is given. -/
theorem server.envelope_keeps_ID (hex : server.HexFmt) (id reply : Value) :
    (server.CreateResponse hex id reply).ID = id := by
  unfold server.CreateResponse
  split <;> rfl

/-- The request that `checkRequestParams` builds carries the id of the raw request. -/
theorem processor.checkRequestParams_id {W : Type} (lib : JsonLib)
    (jrpi : processor.JsonRpcProcessorImpl W) (req : RPCRequest) :
    (processor.checkRequestParams lib jrpi req).id = req.ID := by
  unfold processor.checkRequestParams
  repeat' split
  all_goals rfl

/-- A response built from the values a method returned carries the id of the request,
or a pointer to it. -/
theorem processor.replyOutcome_ID (id : Value) (errPos : Int) (reply : List Value)
    (resp : RPCResponse) (h : processor.replyOutcome id errPos reply = .returned resp) :
    resp.ID = id ∨ resp.ID = .ptr id := by
  unfold processor.replyOutcome at h
  repeat' split at h
  all_goals first
    | (injection h with h; subst h; first
        | exact Or.inl (processor.response_keeps_ID _ _)
        | exact Or.inr rfl)
    | exact absurd h (by simp)

/-- A response of `handle` carries the id of the request, or a pointer to it. -/
theorem processor.handle_ID {W : Type} (ctx : Value) (req : processor.serverRequest W) (w : W)
    (resp : RPCResponse) (h : (processor.handle ctx req w).outcome = .returned resp) :
    resp.ID = req.id ∨ resp.ID = .ptr req.id := by
  unfold processor.handle at h
  repeat' split at h
  · injection h with h; subst h; exact Or.inr rfl
  · exact absurd h (by simp)
  · injection h with h; subst h; exact Or.inr rfl
  · exact processor.replyOutcome_ID _ _ _ _ h

/-- A request that `parseRequest` returns has as id the pointer to the raw id of the
message. -/
theorem server.parseRequest_ID (clib : server.CodecLib) (msg : RawMessage) (options : Nat)
    (req : RPCRequest) (h : server.parseRequest clib msg options = ([req], false, none)) :
    ∃ jr, clib.unmarshalRequest msg = .ok jr ∧ req.ID = .ptr (.rawMessage jr.ID) := by
  unfold server.parseRequest at h
  split at h
  · simp at h
  · rename_i jr hjr
    refine ⟨jr, hjr, ?_⟩
    split at h
    · simp at h
    · simp only at h
      generalize server.Split jr.Method errors.ServiceMethodSeparator = l at h
      rcases l with _ | ⟨a, _ | ⟨b, _ | ⟨c, l⟩⟩⟩
      all_goals simp at h
      split at h
      all_goals simp at h
      all_goals rw [← h]

/-- The envelope of `handleChannelReq` carries the id of the request or a pointer to it,
and `handleChannelReq` returns whenever `ProcessRequest` does. -/
theorem server.handleChannelReq_ID {W : Type} (hex : server.HexFmt) (lib : JsonLib)
    (s : server.HttpHandler W) (req : RPCRequest) (w : W) :
    (∀ env, (server.handleChannelReq hex lib s req w).outcome = .returned env →
      env.ID = req.ID ∨ env.ID = .ptr req.ID) ∧
    ((∃ r, (processor.ProcessRequest lib s.processor req w).outcome = .returned r) →
      ∃ env, (server.handleChannelReq hex lib s req w).outcome = .returned env) := by
  constructor
  · intro env h
    unfold server.handleChannelReq at h
    simp only at h
    split at h
    · exact absurd h (by simp)
    · rename_i response hresp
      have hid : response.ID = req.ID ∨ response.ID = .ptr req.ID := by
        have := processor.handle_ID _ _ _ _ hresp
        rwa [processor.checkRequestParams_id] at this
      repeat' split at h
      all_goals injection h with h; subst h
      all_goals first
        | exact hid
        | (rw [server.envelope_keeps_ID]; exact hid)
  · rintro ⟨r, hr⟩
    unfold server.handleChannelReq
    simp only [hr]
    repeat' split
    all_goals exact ⟨_, rfl⟩

/-- C2: for every single request that parseRequest accepts and every service table, the
envelope that handleChannelReq returns for it carries the id of the request: its ID field
is the id value of the request (on success) or a pointer to it (on an error, with or
without info), which in both cases resolves to the raw id bytes of the message; and
handleChannelReq returns an envelope whenever request processing returns a response. -/
theorem server.handleChannelReq_echoes_id {W : Type} (clib : server.CodecLib)
    (msg : RawMessage) (options : Nat) (req : RPCRequest) (hex : server.HexFmt) (lib : JsonLib)
    (s : server.HttpHandler W) (w : W)
    (hreq : server.parseRequest clib msg options = ([req], false, none)) :
    ∃ jr, clib.unmarshalRequest msg = .ok jr ∧
      (∀ env, (server.handleChannelReq hex lib s req w).outcome = .returned env →
        (env.ID = req.ID ∨ env.ID = .ptr req.ID) ∧ wireID env.ID = .rawMessage jr.ID) ∧
      ((∃ r, (processor.ProcessRequest lib s.processor req w).outcome = .returned r) →
        ∃ env, (server.handleChannelReq hex lib s req w).outcome = .returned env) := by
  obtain ⟨jr, hjr, hid⟩ := server.parseRequest_ID clib msg options req hreq
  refine ⟨jr, hjr, ?_, (server.handleChannelReq_ID hex lib s req w).2⟩
  intro env henv
  have h := (server.handleChannelReq_ID hex lib s req w).1 env henv
  refine ⟨h, ?_⟩
  rcases h with h | h
  · rw [h, hid]; simp [wireID]
  · rw [h, hid]; simp [wireID]

/-- The witness of `handleChannelReq_echoes_id`: the message unknownsvc_foo with id 2. -/
theorem handleChannelReq_echoes_id_witness :
    server.parseRequest demo.clib demo.msgUnknown 1 = ([demo.reqUnknown], false, none) ∧
    ∃ jr, demo.clib.unmarshalRequest demo.msgUnknown = .ok jr ∧
      (∀ env, (server.handleChannelReq demo.hex demo.lib demo.handler demo.reqUnknown
          []).outcome = .returned env →
        (env.ID = demo.reqUnknown.ID ∨ env.ID = .ptr demo.reqUnknown.ID) ∧
          wireID env.ID = .rawMessage jr.ID) ∧
      ((∃ r, (processor.ProcessRequest demo.lib demo.handler.processor demo.reqUnknown
          []).outcome = .returned r) →
        ∃ env, (server.handleChannelReq demo.hex demo.lib demo.handler demo.reqUnknown
          []).outcome = .returned env) :=
  ⟨by decide,
    server.handleChannelReq_echoes_id demo.clib demo.msgUnknown 1 demo.reqUnknown demo.hex
      demo.lib demo.handler [] (by decide)⟩

/-! ## The response to a batch -/

/-- After `handleReqs` wrote a value, the log of the codec ends with that value. -/
theorem server.writeOrClose_written (codec : server.jsonCodecImpl) (res : server.Written) :
    (server.writeOrClose codec res).written = codec.written ++ [res] := by
  unfold server.writeOrClose server.jsonCodecImpl.Write
  simp only
  split <;> rfl

/-- When the first request is answered, the loop goes on with the rest in the world that
the first request left. -/
theorem server.handleLoop_cons_world {W : Type} (hex : server.HexFmt) (lib : JsonLib)
    (s : server.HttpHandler W) (ctx : Value) (req : RPCRequest) (rest : List RPCRequest) (w : W)
    (env : server.JSONResponse)
    (h : (server.handleChannelReq hex lib s { req with Ctx := ctx } w).outcome = .returned env) :
    (server.handleLoop hex lib s ctx (req :: rest) w).world =
      (server.handleLoop hex lib s ctx rest
        (server.handleChannelReq hex lib s { req with Ctx := ctx } w).world).world := by
  simp only [server.handleLoop, h]
  split <;> rfl

/-- When every request of a batch is answered in the world that the requests before it
left, the loop of `handleReqs` returns one envelope for each request, in the order of the
requests. -/
theorem server.handleLoop_envelopes {W : Type} (hex : server.HexFmt) (lib : JsonLib)
    (s : server.HttpHandler W) (ctx : Value) (reqs : List RPCRequest) (w : W)
    (hret : ∀ i req, reqs[i]? = some req →
      ∃ env, (server.handleChannelReq hex lib s { req with Ctx := ctx }
        (server.handleLoop hex lib s ctx (reqs.take i) w).world).outcome = .returned env) :
    ∃ envs, (server.handleLoop hex lib s ctx reqs w).outcome = .returned envs ∧
      envs.length = reqs.length ∧
      ∀ i req, reqs[i]? = some req →
        ∃ env, envs[i]? = some env ∧
          (server.handleChannelReq hex lib s { req with Ctx := ctx }
            (server.handleLoop hex lib s ctx (reqs.take i) w).world).outcome = .returned env := by
  induction reqs generalizing w with
  | nil => exact ⟨[], rfl, rfl, by simp⟩
  | cons r rest ih =>
    obtain ⟨env0, h0⟩ := hret 0 r (by simp)
    simp only [List.take_zero, server.handleLoop] at h0
    have hrest : ∀ i req, rest[i]? = some req →
        ∃ env, (server.handleChannelReq hex lib s { req with Ctx := ctx }
          (server.handleLoop hex lib s ctx (rest.take i)
            (server.handleChannelReq hex lib s { r with Ctx := ctx } w).world).world).outcome =
            .returned env := by
      intro i req hi
      have := hret (i + 1) req (by simpa using hi)
      simpa only [List.take_succ_cons, server.handleLoop_cons_world hex lib s ctx r _ w env0 h0]
        using this
    obtain ⟨envs, he, hl, hall⟩ := ih _ hrest
    refine ⟨env0 :: envs, ?_, by simp [hl], ?_⟩
    · simp only [server.handleLoop, h0, he]
    · intro i req hi
      cases i with
      | zero =>
        simp only [List.getElem?_cons_zero, Option.some.injEq] at hi
        subst hi
        exact ⟨env0, by simp, by simpa only [List.take_zero, server.handleLoop] using h0⟩
      | succ j =>
        obtain ⟨env, h1, h2⟩ := hall j req (by simpa using hi)
        refine ⟨env, by simpa using h1, ?_⟩
        simpa only [List.take_succ_cons, server.handleLoop_cons_world hex lib s ctx r _ w env0 h0]
          using h2

/-- C3, amended: for every batch of N >= 1 requests each of which is answered (its
handling does not panic), handleReqs writes one value to the codec; for N >= 2 that value
is an array of exactly N envelopes, the i-th envelope being the response to the i-th
request in the world left by the requests before it, and for N = 1 it is the single
envelope of the request itself, not an array. -/
theorem server.handleReqs_writes_batch {W : Type} (hex : server.HexFmt) (lib : JsonLib)
    (s : server.HttpHandler W) (ctx : Value) (codec : server.jsonCodecImpl)
    (reqs : List RPCRequest) (w : W) (_hN : 1 ≤ reqs.length)
    (hret : ∀ i req, reqs[i]? = some req →
      ∃ env, (server.handleChannelReq hex lib s { req with Ctx := ctx }
        (server.handleLoop hex lib s ctx (reqs.take i) w).world).outcome = .returned env) :
    ∃ c envs, (server.handleReqs hex lib s ctx codec reqs w).outcome = .returned c ∧
      envs.length = reqs.length ∧
      (∀ i req, reqs[i]? = some req →
        ∃ env, envs[i]? = some env ∧
          (server.handleChannelReq hex lib s { req with Ctx := ctx }
            (server.handleLoop hex lib s ctx (reqs.take i) w).world).outcome = .returned env) ∧
      (2 ≤ reqs.length → c.written = codec.written ++ [.many envs]) ∧
      (reqs.length = 1 → ∃ env, envs = [env] ∧ c.written = codec.written ++ [.one env]) := by
  obtain ⟨envs, he, hl, hall⟩ := server.handleLoop_envelopes hex lib s ctx reqs w hret
  by_cases h1 : reqs.length = 1
  · obtain ⟨env, rfl⟩ : ∃ env, envs = [env] := by
      rcases envs with _ | ⟨e, _ | ⟨e2, l⟩⟩
      · simp [h1] at hl
      · exact ⟨e, rfl⟩
      · simp [h1] at hl
    refine ⟨server.writeOrClose codec (.one env), [env], ?_, hl, hall, ?_, ?_⟩
    · simp only [server.handleReqs, he, h1, if_true]
    · intro h2; omega
    · intro _; exact ⟨env, rfl, server.writeOrClose_written _ _⟩
  · refine ⟨server.writeOrClose codec (.many envs), envs, ?_, hl, hall, ?_, ?_⟩
    · simp only [server.handleReqs, he, h1, if_false]
    · intro _; exact server.writeOrClose_written _ _
    · intro h; exact absurd h h1

/-- The witness of `handleReqs_writes_batch`: the batch of unknownsvc_foo and test_ping. -/
theorem handleReqs_writes_batch_witness :
    ∃ c envs, (server.handleReqs demo.hex demo.lib demo.handler (.context 0) demo.codec
        [demo.reqUnknown, demo.reqPing] []).outcome = .returned c ∧
      envs.length = [demo.reqUnknown, demo.reqPing].length ∧
      (∀ i req, [demo.reqUnknown, demo.reqPing][i]? = some req →
        ∃ env, envs[i]? = some env ∧
          (server.handleChannelReq demo.hex demo.lib demo.handler
            { req with Ctx := Value.context 0 }
            (server.handleLoop demo.hex demo.lib demo.handler (.context 0)
              ([demo.reqUnknown, demo.reqPing].take i) []).world).outcome = .returned env) ∧
      (2 ≤ [demo.reqUnknown, demo.reqPing].length →
        c.written = demo.codec.written ++ [.many envs]) ∧
      ([demo.reqUnknown, demo.reqPing].length = 1 →
        ∃ env, envs = [env] ∧ c.written = demo.codec.written ++ [.one env]) :=
  server.handleReqs_writes_batch demo.hex demo.lib demo.handler (.context 0) demo.codec
    [demo.reqUnknown, demo.reqPing] [] (by decide) (by
      intro i req hi
      rcases i with _ | _ | i
      · simp only [List.getElem?_cons_zero, Option.some.injEq] at hi
        subst hi
        exact ⟨_, rfl⟩
      · simp only [List.getElem?_cons_succ, List.getElem?_cons_zero, Option.some.injEq] at hi
        subst hi
        exact ⟨_, rfl⟩
      · simp at hi)

/-- C3 fails for a batch of one request: what handleReqs writes for the batch that holds
only unknownsvc_foo is the single envelope, and no array. -/
theorem handleReqs_single_not_array :
    ∃ c env, (server.handleReqs demo.hex demo.lib demo.handler (.context 0) demo.codec
        [demo.reqUnknown] []).outcome = .returned c ∧
      c.written = [server.Written.one env] ∧
      ∀ envs, c.written ≠ [server.Written.many envs] :=
  ⟨_, _, rfl, rfl, by intro envs h; cases h⟩

/-! ## Requests without params -/

/-- The request that `checkRequestParams` builds for a registered callback. -/
theorem processor.checkRequestParams_resolved {W : Type} (lib : JsonLib)
    (jrpi : processor.JsonRpcProcessorImpl W) (req : RPCRequest) (svc : processor.service W)
    (callb : processor.callback W)
    (hs : jrpi.services.get req.Service = some svc) (hpub : req.IsPubSub = false)
    (hc : svc.callbacks.get req.Method = some callb) :
    processor.checkRequestParams lib jrpi req =
      if req.Params ≠ Value.nil ∧ callb.argTypes.length > 0 then
        match processor.parseRequestArguments lib callb.argTypes req.Params with
        | .ok args => { id := req.ID, svcname := svc.name, callb := some callb, args := args }
        | .error err =>
          { id := req.ID, svcname := svc.name, callb := some callb,
            err := some (.InvalidParamsError err.Error) }
      else { id := req.ID, svcname := svc.name, callb := some callb } := by
  simp only [processor.checkRequestParams, hs, hpub, hc]
  rfl

/-- C7, amended: for every registered callback with k >= 1 declared parameters, of
pointer type or not, a request that omits the params field is not resolved to zero
values: ProcessRequest answers it with the invalid-params error (code -32602) whose
message is "service_Method expects k parameters, got 0", with a nil reply, and the
method is not invoked. -/
theorem processor.ProcessRequest_params_omitted {W : Type} (lib : JsonLib)
    (jrpi : processor.JsonRpcProcessorImpl W) (req : RPCRequest) (w : W)
    (svc : processor.service W) (callb : processor.callback W)
    (hs : jrpi.services.get req.Service = some svc) (hpub : req.IsPubSub = false)
    (hc : svc.callbacks.get req.Method = some callb)
    (hk : 1 ≤ callb.argTypes.length) (hp : req.Params = Value.nil) :
    ∃ resp e, (processor.ProcessRequest lib jrpi req w).outcome = .returned resp ∧
      resp.Error = some e ∧ e.Code = -32602 ∧
      e.Error = svc.name ++ "_" ++ callb.method.Name ++ " expects " ++
        toString callb.argTypes.length ++ " parameters, got " ++ toString 0 ∧
      resp.Reply = Value.nil ∧
      (processor.ProcessRequest lib jrpi req w).calls = [] ∧
      (processor.ProcessRequest lib jrpi req w).world = w := by
  have hsr := processor.checkRequestParams_resolved lib jrpi req svc callb hs hpub hc
  simp only [hp, ne_eq, not_true_eq_false, false_and, if_false] at hsr
  have hne : ([] : List Value).length ≠ callb.argTypes.length := by
    simp only [List.length_nil]; omega
  refine ⟨processor.CreateErrorResponse (.ptr req.ID) (.InvalidParamsError
      (processor.expectsMsg svc.name callb.method.Name callb.argTypes.length 0)),
    .InvalidParamsError
      (processor.expectsMsg svc.name callb.method.Name callb.argTypes.length 0),
    ?_, rfl, rfl, rfl, rfl, ?_, ?_⟩
  · simp only [processor.ProcessRequest, processor.exec, processor.handle, hsr]
    rw [if_pos hne]
    rfl
  · simp only [processor.ProcessRequest, processor.exec, processor.handle, hsr]
    rw [if_pos hne]
  · simp only [processor.ProcessRequest, processor.exec, processor.handle, hsr]
    rw [if_pos hne]

/-- The witness of `ProcessRequest_params_omitted`: test_greet without params. -/
theorem ProcessRequest_params_omitted_witness :
    ∃ resp e, (processor.ProcessRequest demo.lib demo.jrpi demo.reqGreet []).outcome =
        .returned resp ∧
      resp.Error = some e ∧ e.Code = -32602 ∧
      e.Error = "test" ++ "_" ++ demo.greet.method.Name ++ " expects " ++
        toString demo.greet.argTypes.length ++ " parameters, got " ++ toString 0 ∧
      resp.Reply = Value.nil ∧
      (processor.ProcessRequest demo.lib demo.jrpi demo.reqGreet []).calls = [] ∧
      (processor.ProcessRequest demo.lib demo.jrpi demo.reqGreet []).world = [] :=
  processor.ProcessRequest_params_omitted demo.lib demo.jrpi demo.reqGreet []
    demo.testService demo.greet rfl rfl rfl (by decide) rfl

/-- C7 fails: the only parameter of test_greet is of pointer type, and the request that
omits the params field is answered with an error; nothing is invoked. -/
theorem ProcessRequest_params_omitted_is_error :
    (∀ t ∈ demo.greet.argTypes, t.Kind = reflect.Kind.Ptr) ∧
    1 ≤ demo.greet.argTypes.length ∧
    demo.reqGreet.Params = Value.nil ∧
    (processor.ProcessRequest demo.lib demo.jrpi demo.reqGreet []).outcome =
      .returned { ID := .ptr demo.reqGreet.ID, Reply := .nil,
                  Error := some (.InvalidParamsError "test_Greet expects 1 parameters, got 0") } ∧
    (processor.ProcessRequest demo.lib demo.jrpi demo.reqGreet []).calls = [] := by
  refine ⟨by decide, by decide, rfl, ?_, rfl⟩
  rfl

/-! ## The response to an invoked method -/

/-- C9: for every resolved callback invoked with the right number of arguments, when the
method returns no value, or one value and has no error slot, or a value and a nil error
in the error slot 1, handle returns a success response: its error is nil, its id is the id
of the request, its reply is nil when nothing was returned and the first returned value
otherwise; the method was called once. -/
theorem processor.handle_success {W : Type} (ctx : Value) (req : processor.serverRequest W)
    (w : W) (callb : processor.callback W)
    (herr : req.err = none) (hcallb : req.callb = some callb)
    (hlen : req.args.length = callb.argTypes.length)
    (hshape :
      (callb.method.Func w (processor.callArguments ctx callb req.args)).1 = [] ∨
      (∃ v, (callb.method.Func w (processor.callArguments ctx callb req.args)).1 = [v] ∧
        callb.errPos < 0) ∨
      (∃ v e, (callb.method.Func w (processor.callArguments ctx callb req.args)).1 = [v, e] ∧
        callb.errPos = 1 ∧ nillable e.Kind = true ∧ e.IsNil = true)) :
    ∃ resp, (processor.handle ctx req w).outcome = .returned resp ∧
      resp.Error = none ∧ resp.ID = req.id ∧
      ((callb.method.Func w (processor.callArguments ctx callb req.args)).1 = [] →
        resp.Reply = Value.nil) ∧
      (∀ v rest, (callb.method.Func w (processor.callArguments ctx callb req.args)).1 = v :: rest →
        resp.Reply = v.Interface) ∧
      (processor.handle ctx req w).calls =
        [(callb.method.Name, processor.callArguments ctx callb req.args)] ∧
      (processor.handle ctx req w).world =
        (callb.method.Func w (processor.callArguments ctx callb req.args)).2 := by
  have hh : processor.handle ctx req w =
      ⟨processor.replyOutcome req.id callb.errPos
          (callb.method.Func w (processor.callArguments ctx callb req.args)).1,
        (callb.method.Func w (processor.callArguments ctx callb req.args)).2,
        [(callb.method.Name, processor.callArguments ctx callb req.args)]⟩ := by
    simp only [processor.handle, herr, hcallb, hlen, ne_eq, not_true_eq_false, if_false]
  rw [hh]
  have hcr : ∀ id v, (processor.CreateResponse id v).Error = none ∧
      (processor.CreateResponse id v).ID = id ∧ (processor.CreateResponse id v).Reply = v := by
    intro id v; cases v <;> exact ⟨rfl, rfl, rfl⟩
  rcases hshape with h | ⟨v, h, hpos⟩ | ⟨v, e, h, hpos, hk, hnil⟩
  · refine ⟨processor.CreateResponse req.id .nil, ?_, (hcr _ _).1, (hcr _ _).2.1, ?_, ?_, rfl, rfl⟩
    · simp only [h, processor.replyOutcome]
    · intro _; exact (hcr _ _).2.2
    · intro v rest hv; rw [h] at hv; cases hv
  · refine ⟨processor.CreateResponse req.id v.Interface, ?_, (hcr _ _).1, (hcr _ _).2.1, ?_, ?_,
      rfl, rfl⟩
    · have hn : ¬ callb.errPos ≥ 0 := by omega
      simp only [h, processor.replyOutcome, hn, if_false]
    · intro h0; rw [h] at h0; cases h0
    · intro v2 rest hv; rw [h] at hv; cases hv; exact (hcr _ _).2.2
  · refine ⟨processor.CreateResponse req.id v.Interface, ?_, (hcr _ _).1, (hcr _ _).2.1, ?_, ?_,
      rfl, rfl⟩
    · simp [h, processor.replyOutcome, hpos, hk, hnil]
    · intro h0; rw [h] at h0; cases h0
    · intro v2 rest hv; rw [h] at hv; cases hv; exact (hcr _ _).2.2

/-- The witness of `handle_success`: the method Ping, which returns one value. -/
theorem handle_success_witness :
    ∃ resp, (processor.handle (.context 0)
        ({ id := demo.reqPing.ID, svcname := "test", callb := some demo.ping } :
          processor.serverRequest demo.World) []).outcome = .returned resp ∧
      resp.Error = none ∧ resp.ID = demo.reqPing.ID ∧
      ((demo.ping.method.Func [] (processor.callArguments (.context 0) demo.ping [])).1 = [] →
        resp.Reply = Value.nil) ∧
      (∀ v rest, (demo.ping.method.Func [] (processor.callArguments (.context 0) demo.ping
          [])).1 = v :: rest → resp.Reply = v.Interface) ∧
      (processor.handle (.context 0)
        ({ id := demo.reqPing.ID, svcname := "test", callb := some demo.ping } :
          processor.serverRequest demo.World) []).calls =
        [(demo.ping.method.Name, processor.callArguments (.context 0) demo.ping [])] ∧
      (processor.handle (.context 0)
        ({ id := demo.reqPing.ID, svcname := "test", callb := some demo.ping } :
          processor.serverRequest demo.World) []).world =
        (demo.ping.method.Func [] (processor.callArguments (.context 0) demo.ping [])).2 :=
  processor.handle_success (.context 0)
    { id := demo.reqPing.ID, svcname := "test", callb := some demo.ping } [] demo.ping rfl rfl rfl
    (Or.inr (Or.inl ⟨.str "pong", rfl, by decide⟩))

/-- When the error slot holds an error that implements `RPCError`, `handle` builds the
error response with that error, and attaches the first returned value unless it is
empty. -/
theorem processor.replyOutcome_rpc_error (id v : Value) (e : RPCError) :
    processor.replyOutcome id 1 [v, .err (.rpc e)] =
      .returned (if processor.isEmpty v then processor.CreateErrorResponse (.ptr id) e
        else processor.CreateErrorResponseWithInfo (.ptr id) e v.Interface) := by
  cases hv : processor.isEmpty v <;>
    simp [processor.replyOutcome, nillable, Value.Kind, Value.IsNil, Value.Interface, hv]

/-- When the error slot holds an error that does not implement `RPCError`, the type
assertion of `handle` panics. -/
theorem processor.replyOutcome_plain_error (id v : Value) (msg : String) :
    processor.replyOutcome id 1 [v, .err (.plain msg)] =
      .panicked "interface conversion: the error is not a code.RPCError" := by
  simp [processor.replyOutcome, nillable, Value.Kind, Value.IsNil, Value.Interface]

/-- C8 at the request tx_sendRawTransaction with the params ["0x00"]: the method is
invoked and returns the reply "fail" with a plain error, and handle panics instead of
returning an error response. -/
theorem ProcessRequest_sendRawTransaction_panics :
    demo.sendRawTransaction.errPos = 1 ∧
    demo.SendRawTransaction.Func [] [demo.sendRawTransaction.rcvr, .ref .Slice "0x00"] =
      ([.str "fail", .err (.plain "typed transaction too short")], []) ∧
    (processor.ProcessRequest demo.lib demo.jrpi demo.reqSend []).calls =
      [("SendRawTransaction", [demo.sendRawTransaction.rcvr, .ref .Slice "0x00"])] ∧
    (processor.ProcessRequest demo.lib demo.jrpi demo.reqSend []).outcome =
      .panicked "interface conversion: the error is not a code.RPCError" :=
  ⟨rfl, rfl, rfl, rfl⟩

/-! ## Reading a single request -/

/-- Splitting the name service_method, neither part of which holds the separator, gives
the two parts. -/
theorem server.Split_two (s m : String) (hs : '_' ∉ s.data) (hm : '_' ∉ m.data) :
    server.Split (s ++ "_" ++ m) errors.ServiceMethodSeparator = [s, m] := by
  have hsplit : (['_'].intercalate [s.data, m.data]).splitOn '_' = [s.data, m.data] :=
    List.splitOn_intercalate [s.data, m.data] '_'
    (by
      intro l hl
      simp only [List.mem_cons, List.mem_singleton, List.not_mem_nil, or_false] at hl
      rcases hl with rfl | rfl
      · exact hs
      · exact hm)
    (by simp)
  have hinter : ['_'].intercalate [s.data, m.data] = (s ++ "_" ++ m).data := by
    simp [List.intercalate, String.data_append]
  rw [hinter] at hsplit
  simp only [server.Split, errors.ServiceMethodSeparator, hsplit, List.map_cons, List.map_nil]

/-- C10: for every single request whose id is valid and whose method string is
s ++ "_" ++ m with no "_" inside s or m, parseRequest returns exactly one request with
Service = s, Method = m, the pointer to the raw id as ID, the batch flag false and no
error; its Params are the raw bytes of the params field when that field is present and
not empty, and nil otherwise. -/
theorem server.parseRequest_single (lib : server.CodecLib) (msg : RawMessage) (options : Nat)
    (jr : server.JSONRequest) (s m : String)
    (hjr : lib.unmarshalRequest msg = .ok jr)
    (hid : server.checkReqID lib jr.ID = none)
    (hmeth : jr.Method = s ++ "_" ++ m) (hs : '_' ∉ s.data) (hm : '_' ∉ m.data) :
    server.parseRequest lib msg options =
      ([{ Service := s, Method := m, ID := .ptr (.rawMessage jr.ID), IsPubSub := false,
          Params := if jr.Payload.length = 0 then Value.nil else .rawMessage jr.Payload,
          Ctx := Value.nil }], false, none) := by
  simp only [server.parseRequest, hjr, hid, hmeth, server.Split_two s m hs hm]
  split <;> rfl

/-- The witness of `parseRequest_single`: the message for tx_sendRawTransaction. -/
theorem parseRequest_single_witness :
    server.parseRequest demo.clib demo.msgSend 1 =
      ([{ Service := "tx", Method := "sendRawTransaction",
          ID := .ptr (.rawMessage (demo.bytes "1")), IsPubSub := false,
          Params := if (demo.bytes "[\"0x00\"]").length = 0 then Value.nil
            else .rawMessage (demo.bytes "[\"0x00\"]"),
          Ctx := Value.nil }], false, none) :=
  server.parseRequest_single demo.clib demo.msgSend 1
    { Method := "tx_sendRawTransaction", Version := "", ID := demo.bytes "1",
      Payload := demo.bytes "[\"0x00\"]" }
    "tx" "sendRawTransaction" rfl (by decide) (by decide) (by decide) (by decide)

/-! ## Binding the params to the declared types -/

/-- The slice that `json.Unmarshal` leaves has one element for each element of the JSON
array. -/
theorem fillSlots_length (lib : JsonLib) (ps : List Slot) (es : List Json) (r : List Slot)
    (h : fillSlots lib ps es = some r) : r.length = es.length := by
  induction es generalizing ps r with
  | nil =>
    cases ps <;> simp [fillSlots] at h <;> simp [h]
  | cons e es ih =>
    cases ps with
    | nil =>
      simp only [fillSlots] at h
      split at h
      · rename_i s r2 hs hr
        simp only [Option.some.injEq] at h
        subst h
        simp [ih _ _ hr]
      · simp at h
    | cons p ps =>
      simp only [fillSlots] at h
      split at h
      · rename_i s r2 hs hr
        simp only [Option.some.injEq] at h
        subst h
        simp [ih _ _ hr]
      · simp at h

/-- JSON null at a position whose declared type is not a pointer type leaves the nil
interface in the slice. -/
theorem fillSlots_null (lib : JsonLib) (ps : List Slot) (es : List Json) (r : List Slot)
    (i : Nat) (t : GoType) (v : Value)
    (h : fillSlots lib ps es = some r) (hp : ps[i]? = some (.new t v))
    (he : es[i]? = some .null) (ht : t.Kind ≠ reflect.Kind.Ptr) :
    r[i]? = some Slot.nil := by
  induction es generalizing ps r i with
  | nil => simp at he
  | cons e es ih =>
    cases ps with
    | nil => simp at hp
    | cons p ps =>
      simp only [fillSlots] at h
      split at h
      · rename_i s r2 hs hr
        simp only [Option.some.injEq] at h
        subst h
        cases i with
        | zero =>
          simp only [List.getElem?_cons_zero, Option.some.injEq] at hp he
          subst hp he
          simp only [decodeElem, ht, if_false, Option.some.injEq] at hs
          simp [hs]
        | succ j =>
          simp only [List.getElem?_cons_succ] at hp he ⊢
          exact ih _ _ _ hr hp he
      · simp at h

/-- The final loop of `parsePositionalArguments` fails when some element is the nil
interface and the declared type at its position is not a pointer type. -/
theorem processor.argValues_error (b : Nat) (ps : List Slot) (ts : List GoType) (i : Nat)
    (t : GoType) (hp : ps[i]? = some Slot.nil) (ht : ts[i]? = some t)
    (hk : t.Kind ≠ reflect.Kind.Ptr) :
    ∃ m, processor.argValues b ps ts = .error (.InvalidParamsError m) := by
  induction ps generalizing ts b i with
  | nil => simp at hp
  | cons p ps ih =>
    cases ts with
    | nil => simp at ht
    | cons t0 ts =>
      simp only [processor.argValues]
      split
      · exact ⟨_, rfl⟩
      · rename_i hcond
        cases i with
        | zero =>
          simp only [List.getElem?_cons_zero, Option.some.injEq] at hp ht
          subst hp ht
          exact absurd ⟨rfl, hk⟩ hcond
        | succ j =>
          simp only [List.getElem?_cons_succ] at hp ht
          obtain ⟨m, hm⟩ := ih (b + 1) ts j hp ht
          exact ⟨m, by simp only [hm]⟩

/-- When the params of a request for a registered callback with declared parameters do
not parse, the response is the invalid-params error with the text of the parse error,
and nothing is invoked. -/
theorem processor.ProcessRequest_parse_error {W : Type} (lib : JsonLib)
    (jrpi : processor.JsonRpcProcessorImpl W) (req : RPCRequest) (w : W)
    (svc : processor.service W) (callb : processor.callback W) (args : RawMessage)
    (err : RPCError)
    (hs : jrpi.services.get req.Service = some svc) (hpub : req.IsPubSub = false)
    (hc : svc.callbacks.get req.Method = some callb)
    (hp : req.Params = .rawMessage args) (hk : 1 ≤ callb.argTypes.length)
    (herr : processor.parsePositionalArguments lib args callb.argTypes = .error err) :
    processor.ProcessRequest lib jrpi req w =
      ⟨.returned (processor.CreateErrorResponse (.ptr req.ID) (.InvalidParamsError err.Error)),
        w, []⟩ := by
  have hsr := processor.checkRequestParams_resolved lib jrpi req svc callb hs hpub hc
  have hcond : req.Params ≠ Value.nil ∧ callb.argTypes.length > 0 := by
    rw [hp]; exact ⟨by simp, hk⟩
  rw [if_pos hcond, hp] at hsr
  simp only [processor.parseRequestArguments, herr] at hsr
  simp only [processor.ProcessRequest, processor.exec, processor.handle, hsr]

/-- The arguments fail to bind when the array has more elements than the callback has
parameters, and when it has fewer and a parameter at a missing position is not of pointer
type. -/
theorem processor.parsePositionalArguments_count (lib : JsonLib) (args : RawMessage)
    (ts : List GoType) (es : List Json)
    (hparse : lib.parse args = some (.arr es))
    (hcount : ts.length < es.length ∨
      ∃ i t, es.length ≤ i ∧ ts[i]? = some t ∧ t.Kind ≠ reflect.Kind.Ptr) :
    ∃ m, processor.parsePositionalArguments lib args ts = .error (.InvalidParamsError m) := by
  simp only [processor.parsePositionalArguments, Unmarshal, hparse]
  cases hfill : fillSlots lib (processor.newParams ts) es with
  | none => exact ⟨_, rfl⟩
  | some r =>
    have hlen := fillSlots_length lib _ _ _ hfill
    simp only
    split
    · exact ⟨_, rfl⟩
    · rename_i hle
      rcases hcount with hgt | ⟨i, t, hi, ht, hk⟩
      · omega
      · have hik : i < ts.length := by
          rcases Nat.lt_or_ge i ts.length with h | h
          · exact h
          · rw [List.getElem?_eq_none h] at ht; cases ht
        apply processor.argValues_error 0 _ ts i t _ ht hk
        rw [List.getElem?_append_right (by omega)]
        rw [List.getElem?_replicate]
        simp only [hlen, ite_eq_left_iff, not_lt, reduceCtorEq, imp_false, not_le]
        omega

/-- C4, amended: for every registered callback that declares k >= 1 parameters and every
request whose params array has n elements, when n > k, or when n < k and some parameter
at a position from n to k-1 is not of pointer type, the response is an error with code
-32602 and a nil reply, and the method is not invoked. -/
theorem processor.ProcessRequest_wrong_count {W : Type} (lib : JsonLib)
    (jrpi : processor.JsonRpcProcessorImpl W) (req : RPCRequest) (w : W)
    (svc : processor.service W) (callb : processor.callback W) (args : RawMessage)
    (es : List Json)
    (hs : jrpi.services.get req.Service = some svc) (hpub : req.IsPubSub = false)
    (hc : svc.callbacks.get req.Method = some callb)
    (hp : req.Params = .rawMessage args) (hparse : lib.parse args = some (.arr es))
    (hk : 1 ≤ callb.argTypes.length)
    (hcount : callb.argTypes.length < es.length ∨
      (es.length < callb.argTypes.length ∧
        ∃ i t, es.length ≤ i ∧ callb.argTypes[i]? = some t ∧ t.Kind ≠ reflect.Kind.Ptr)) :
    ∃ resp e, (processor.ProcessRequest lib jrpi req w).outcome = .returned resp ∧
      resp.Error = some e ∧ e.Code = -32602 ∧ resp.Reply = Value.nil ∧
      (processor.ProcessRequest lib jrpi req w).calls = [] ∧
      (processor.ProcessRequest lib jrpi req w).world = w := by
  obtain ⟨m, hm⟩ := processor.parsePositionalArguments_count lib args callb.argTypes es hparse
    (by
      rcases hcount with h | ⟨_, h⟩
      · exact Or.inl h
      · exact Or.inr h)
  rw [processor.ProcessRequest_parse_error lib jrpi req w svc callb args _ hs hpub hc hp hk hm]
  exact ⟨_, _, rfl, rfl, rfl, rfl, rfl, rfl⟩

/-- The witness of `ProcessRequest_wrong_count`: test_name, which declares one parameter,
called with the params ["a","b"]. -/
theorem ProcessRequest_wrong_count_witness :
    ∃ resp e, (processor.ProcessRequest demo.lib demo.jrpi demo.reqNameTwo []).outcome =
        .returned resp ∧
      resp.Error = some e ∧ e.Code = -32602 ∧ resp.Reply = Value.nil ∧
      (processor.ProcessRequest demo.lib demo.jrpi demo.reqNameTwo []).calls = [] ∧
      (processor.ProcessRequest demo.lib demo.jrpi demo.reqNameTwo []).world = [] :=
  processor.ProcessRequest_wrong_count demo.lib demo.jrpi demo.reqNameTwo [] demo.testService
    demo.name (demo.bytes "[\"a\",\"b\"]") [.str "a", .str "b"] rfl rfl rfl rfl rfl
    (by decide) (Or.inl (by decide))

/-- C4 fails in two ways. The callback test_greet declares one parameter, of pointer
type, and the request with the empty params array (0 elements) invokes it with the zero
value and succeeds. The callback test_ping declares no parameter, and the request with
one param invokes it and succeeds. -/
theorem ProcessRequest_wrong_count_invoked :
    (demo.greet.argTypes.length = 1 ∧
      demo.lib.parse (demo.bytes "[]") = some (.arr []) ∧
      (processor.ProcessRequest demo.lib demo.jrpi demo.reqGreetEmpty []).outcome =
        .returned { ID := demo.reqGreetEmpty.ID, Reply := .str "hello", Error := none } ∧
      (processor.ProcessRequest demo.lib demo.jrpi demo.reqGreetEmpty []).calls =
        [("Greet", [demo.greet.rcvr, .nilRef (.ptr demo.stringT)])]) ∧
    (demo.ping.argTypes.length = 0 ∧
      demo.lib.parse (demo.bytes "[\"a\"]") = some (.arr [.str "a"]) ∧
      (processor.ProcessRequest demo.lib demo.jrpi demo.reqPingOne []).outcome =
        .returned { ID := demo.reqPingOne.ID, Reply := .str "pong", Error := none } ∧
      (processor.ProcessRequest demo.lib demo.jrpi demo.reqPingOne []).calls =
        [("Ping", [demo.ping.rcvr])]) :=
  ⟨⟨rfl, rfl, rfl, rfl⟩, ⟨rfl, rfl, rfl, rfl⟩⟩

/-- An element of the slice that held `reflect.New(t)` is the nil interface after
`json.Unmarshal` only when the array holds null at its position and `t` is not a pointer
type. -/
theorem fillSlots_nil_inv (lib : JsonLib) (ts : List GoType) (es : List Json) (r : List Slot)
    (j : Nat) (t : GoType)
    (h : fillSlots lib (processor.newParams ts) es = some r)
    (hr : r[j]? = some Slot.nil) (ht : ts[j]? = some t) :
    es[j]? = some Json.null ∧ t.Kind ≠ reflect.Kind.Ptr := by
  induction es generalizing ts r j with
  | nil =>
    cases ts <;> simp [processor.newParams, fillSlots] at h <;> subst h <;> simp at hr
  | cons e es ih =>
    cases ts with
    | nil => simp at ht
    | cons t0 ts =>
      simp only [processor.newParams, List.map_cons, fillSlots] at h
      split at h
      · rename_i s r2 hs hr2
        simp only [Option.some.injEq] at h
        subst h
        cases j with
        | zero =>
          simp only [List.getElem?_cons_zero, Option.some.injEq] at hr ht
          subst hr ht
          cases e <;> simp only [decodeElem, Option.map_eq_some', Option.some.injEq,
            reduceCtorEq, and_false, exists_false] at hs
          split at hs
          · cases hs
          · rename_i hk
            exact ⟨by simp, hk⟩
        | succ i =>
          simp only [List.getElem?_cons_succ] at hr ht ⊢
          exact ih ts r2 i hr2 hr ht
      · simp at h

/-- The final loop of `parsePositionalArguments` reports the first position that holds
the nil interface while its declared type is not a pointer type. -/
theorem processor.argValues_first_error (b : Nat) (ps : List Slot) (ts : List GoType)
    (i : Nat) (t : GoType)
    (hfirst : ∀ j t2, j < i → ps[j]? = some Slot.nil → ts[j]? = some t2 →
      t2.Kind = reflect.Kind.Ptr)
    (hp : ps[i]? = some Slot.nil) (ht : ts[i]? = some t) (hk : t.Kind ≠ reflect.Kind.Ptr) :
    processor.argValues b ps ts =
      .error (.InvalidParamsError
        ("invalid or missing value for params[" ++ toString (b + i) ++ "]")) := by
  induction ps generalizing ts b i with
  | nil => simp at hp
  | cons p ps ih =>
    cases ts with
    | nil => simp at ht
    | cons t0 ts =>
      cases i with
      | zero =>
        simp only [List.getElem?_cons_zero, Option.some.injEq] at hp ht
        subst hp ht
        simp [processor.argValues, hk]
      | succ j =>
        simp only [List.getElem?_cons_succ] at hp ht
        have hhead : ¬ (p = Slot.nil ∧ t0.Kind ≠ reflect.Kind.Ptr) := by
          rintro ⟨hp0, hk0⟩
          exact hk0 (hfirst 0 t0 (by omega) (by simp [hp0]) (by simp))
        have hrest := ih (b + 1) ts j
          (fun j2 t2 hj hp2 ht2 => hfirst (j2 + 1) t2 (by omega) (by simpa using hp2)
            (by simpa using ht2))
          hp ht
        simp only [processor.argValues]
        rw [if_neg hhead, hrest]
        simp only [Nat.add_assoc, Nat.add_comm 1 j]

/-- The arguments fail to bind when the array holds null at a position whose declared
type is not a pointer type; the error names the first such position when the array is not
longer than the parameter list and `json.Unmarshal` accepts it. -/
theorem processor.parsePositionalArguments_null (lib : JsonLib) (args : RawMessage)
    (ts : List GoType) (es : List Json) (i : Nat) (t : GoType)
    (hparse : lib.parse args = some (.arr es))
    (he : es[i]? = some Json.null) (ht : ts[i]? = some t) (hk : t.Kind ≠ reflect.Kind.Ptr) :
    ∃ m, processor.parsePositionalArguments lib args ts = .error (.InvalidParamsError m) ∧
      (es.length ≤ ts.length →
        (∃ r, Unmarshal lib args (processor.newParams ts) = .ok r) →
        (∀ j t2, j < i → es[j]? = some Json.null → ts[j]? = some t2 →
          t2.Kind = reflect.Kind.Ptr) →
        m = "invalid or missing value for params[" ++ toString i ++ "]") := by
  have hin : i < es.length := by
    rcases Nat.lt_or_ge i es.length with h | h
    · exact h
    · rw [List.getElem?_eq_none h] at he; cases he
  simp only [processor.parsePositionalArguments, Unmarshal, hparse]
  cases hfill : fillSlots lib (processor.newParams ts) es with
  | none =>
    refine ⟨_, rfl, ?_⟩
    rintro _ ⟨r, hr⟩ _
    simp at hr
  | some r =>
    have hlen := fillSlots_length lib _ _ _ hfill
    have hnew : (processor.newParams ts)[i]? = some (Slot.new t (reflect.Zero t)) := by
      simp [processor.newParams, ht]
    have hri : r[i]? = some Slot.nil := fillSlots_null lib _ _ _ i t _ hfill hnew he hk
    simp only
    split
    · refine ⟨_, rfl, ?_⟩
      intro hle _ _
      omega
    · have hpad : (r ++ List.replicate (ts.length - r.length) Slot.nil)[i]? = some Slot.nil := by
        rw [List.getElem?_append_left (by omega)]
        exact hri
      obtain ⟨m, hm⟩ := processor.argValues_error 0 _ ts i t hpad ht hk
      refine ⟨m, hm, ?_⟩
      intro _ _ hfirst
      have h2 := processor.argValues_first_error 0
        (r ++ List.replicate (ts.length - r.length) Slot.nil) ts i t
        (by
          intro j t2 hj hpj htj
          rw [List.getElem?_append_left (by omega)] at hpj
          by_contra hne
          have := fillSlots_nil_inv lib ts es r j t2 hfill hpj htj
          exact hne (hfirst j t2 hj this.1 htj))
        hpad ht hk
      rw [h2] at hm
      simp only [Nat.zero_add, Except.error.injEq, RPCError.InvalidParamsError.injEq] at hm
      exact hm.symm

/-- C5, amended: for every registered callback and every params array in which some
position i holds JSON null while the declared type of parameter i is not a pointer type,
the response is an error with code -32602 and a nil reply, and the method is not invoked.
The message is "invalid or missing value for params[i]" for the first such i when the
array has no more elements than the callback has parameters and json.Unmarshal accepts
it (every other element decodes). -/
theorem processor.ProcessRequest_null_param {W : Type} (lib : JsonLib)
    (jrpi : processor.JsonRpcProcessorImpl W) (req : RPCRequest) (w : W)
    (svc : processor.service W) (callb : processor.callback W) (args : RawMessage)
    (es : List Json) (i : Nat) (t : GoType)
    (hs : jrpi.services.get req.Service = some svc) (hpub : req.IsPubSub = false)
    (hc : svc.callbacks.get req.Method = some callb)
    (hp : req.Params = .rawMessage args) (hparse : lib.parse args = some (.arr es))
    (he : es[i]? = some Json.null) (ht : callb.argTypes[i]? = some t)
    (hk : t.Kind ≠ reflect.Kind.Ptr) :
    ∃ resp e, (processor.ProcessRequest lib jrpi req w).outcome = .returned resp ∧
      resp.Error = some e ∧ e.Code = -32602 ∧ resp.Reply = Value.nil ∧
      (processor.ProcessRequest lib jrpi req w).calls = [] ∧
      (processor.ProcessRequest lib jrpi req w).world = w ∧
      (es.length ≤ callb.argTypes.length →
        (∃ r, Unmarshal lib args (processor.newParams callb.argTypes) = .ok r) →
        (∀ j t2, j < i → es[j]? = some Json.null → callb.argTypes[j]? = some t2 →
          t2.Kind = reflect.Kind.Ptr) →
        e.Error = "invalid or missing value for params[" ++ toString i ++ "]") := by
  obtain ⟨m, hm, hmsg⟩ :=
    processor.parsePositionalArguments_null lib args callb.argTypes es i t hparse he ht hk
  have hk1 : 1 ≤ callb.argTypes.length := by
    rcases Nat.lt_or_ge i callb.argTypes.length with h | h
    · omega
    · rw [List.getElem?_eq_none h] at ht; cases ht
  rw [processor.ProcessRequest_parse_error lib jrpi req w svc callb args _ hs hpub hc hp hk1 hm]
  exact ⟨_, _, rfl, rfl, rfl, rfl, rfl, rfl, hmsg⟩

/-- The witness of `ProcessRequest_null_param`: test_name, whose parameter is a string,
called with the params [null]. -/
theorem ProcessRequest_null_param_witness :
    ∃ resp e, (processor.ProcessRequest demo.lib demo.jrpi demo.reqNameNull []).outcome =
        .returned resp ∧
      resp.Error = some e ∧ e.Code = -32602 ∧ resp.Reply = Value.nil ∧
      (processor.ProcessRequest demo.lib demo.jrpi demo.reqNameNull []).calls = [] ∧
      (processor.ProcessRequest demo.lib demo.jrpi demo.reqNameNull []).world = [] ∧
      (([Json.null] : List Json).length ≤ demo.name.argTypes.length →
        (∃ r, Unmarshal demo.lib (demo.bytes "[null]")
          (processor.newParams demo.name.argTypes) = .ok r) →
        (∀ j t2, j < 0 → ([Json.null] : List Json)[j]? = some Json.null →
          demo.name.argTypes[j]? = some t2 → t2.Kind = reflect.Kind.Ptr) →
        e.Error = "invalid or missing value for params[" ++ toString 0 ++ "]") :=
  processor.ProcessRequest_null_param demo.lib demo.jrpi demo.reqNameNull [] demo.testService
    demo.name (demo.bytes "[null]") [.null] 0 demo.stringT rfl rfl rfl rfl rfl rfl rfl
    (by decide)

/-- C5 fails for the message: the parameter of test_name is a string and the params
[null,"a"] hold null at position 0, but the error is the one for too many params. -/
theorem ProcessRequest_null_param_other_message :
    demo.name.argTypes = [demo.stringT] ∧ demo.stringT.Kind ≠ reflect.Kind.Ptr ∧
    demo.lib.parse (demo.bytes "[null,\"a\"]") = some (.arr [.null, .str "a"]) ∧
    (processor.ProcessRequest demo.lib demo.jrpi demo.reqNameNullMore []).outcome =
      .returned { ID := .ptr demo.reqNameNullMore.ID, Reply := .nil,
                  Error := some (.InvalidParamsError "too many params, want 1 got 2") } ∧
    (RPCError.InvalidParamsError "too many params, want 1 got 2").Error ≠
      "invalid or missing value for params[0]" :=
  ⟨rfl, by decide, rfl, rfl, by decide⟩

/-- When every element of the array decodes into the declared type at its position,
`json.Unmarshal` leaves the pointers to the decoded values. -/
theorem fillSlots_decoded (lib : JsonLib) (ts : List GoType) (es : List Json) (vs : List Value)
    (hn : es.length ≤ ts.length) (hvs : vs.length = es.length)
    (hdec : ∀ (i : Nat) (e : Json) (t : GoType), es[i]? = some e → ts[i]? = some t →
      ∃ v : Value, vs[i]? = some v ∧
        decodeElem lib (.new t (reflect.Zero t)) e = some (.new t v)) :
    fillSlots lib (processor.newParams ts) es = some (List.zipWith Slot.new ts vs) := by
  induction es generalizing ts vs with
  | nil =>
    cases vs with
    | nil => cases ts <;> simp [processor.newParams, fillSlots]
    | cons v vs => simp at hvs
  | cons e es ih =>
    cases ts with
    | nil => simp at hn
    | cons t ts =>
      cases vs with
      | nil => simp at hvs
      | cons v vs =>
        obtain ⟨v0, hv0, hd0⟩ := hdec 0 e t (by simp) (by simp)
        simp only [List.getElem?_cons_zero, Option.some.injEq] at hv0
        subst hv0
        have hrest := ih ts vs (by simpa using hn) (by simpa using hvs)
          (fun i e2 t2 he2 ht2 => by
            have := hdec (i + 1) e2 t2 (by simpa using he2) (by simpa using ht2)
            simpa using this)
        simp only [processor.newParams, List.map_cons, fillSlots, List.zipWith_cons_cons]
        simp only [processor.newParams] at hrest
        rw [hd0, hrest]

/-- The final loop of `parsePositionalArguments` on decoded values followed by nil
interfaces, when every declared type at a nil position is a pointer type. -/
theorem processor.argValues_decoded (b : Nat) (ts : List GoType) (vs : List Value)
    (hvs : vs.length ≤ ts.length)
    (hptr : ∀ t ∈ ts.drop vs.length, t.Kind = reflect.Kind.Ptr) :
    processor.argValues b
        (List.zipWith Slot.new ts vs ++ List.replicate (ts.length - vs.length) Slot.nil) ts =
      .ok (vs ++ (ts.drop vs.length).map reflect.Zero) := by
  induction ts generalizing vs b with
  | nil =>
    cases vs with
    | nil => simp [processor.argValues]
    | cons v vs => simp at hvs
  | cons t ts ih =>
    cases vs with
    | nil =>
      have ht : t.Kind = reflect.Kind.Ptr := hptr t (by simp)
      have hrest := ih (b + 1) [] (by simp) (fun t2 h2 => hptr t2 (by simp at h2 ⊢; simp [h2]))
      simp only [List.zipWith_nil_right, List.nil_append, List.length_nil, Nat.sub_zero,
        List.drop_zero] at hrest ⊢
      simp only [List.length_cons, List.replicate_succ, processor.argValues, ht, ne_eq,
        not_true_eq_false, and_false, if_false, hrest, List.map_cons]
    | cons v vs =>
      have hrest := ih (b + 1) vs (by simpa using hvs)
        (fun t2 h2 => hptr t2 (by simpa using h2))
      simp only [List.zipWith_cons_cons, List.cons_append, List.length_cons,
        Nat.add_sub_add_right, processor.argValues, reduceCtorEq, false_and, if_false,
        List.append_eq, hrest, List.drop_succ_cons]

/-- C6: for every callback with k >= 1 declared parameter types and every params array
of n < k elements that each decode into their declared type, parsePositionalArguments
succeeds if and only if every parameter at positions n..k-1 has a pointer type, and on
success the arguments are the n decoded values followed by the zero values of the
declared types at positions n..k-1. -/
theorem processor.parsePositionalArguments_missing (lib : JsonLib) (args : RawMessage)
    (ts : List GoType) (es : List Json) (vs : List Value)
    (_hk : 1 ≤ ts.length) (hn : es.length < ts.length)
    (hparse : lib.parse args = some (.arr es)) (hvs : vs.length = es.length)
    (hdec : ∀ (i : Nat) (e : Json) (t : GoType), es[i]? = some e → ts[i]? = some t →
      ∃ v : Value, vs[i]? = some v ∧
        decodeElem lib (.new t (reflect.Zero t)) e = some (.new t v)) :
    ((∃ r, processor.parsePositionalArguments lib args ts = .ok r) ↔
      ∀ i t, es.length ≤ i → ts[i]? = some t → t.Kind = reflect.Kind.Ptr) ∧
    (∀ r, processor.parsePositionalArguments lib args ts = .ok r →
      r = vs ++ (ts.drop es.length).map reflect.Zero) := by
  have hfill := fillSlots_decoded lib ts es vs (by omega) hvs hdec
  have hzl : (List.zipWith Slot.new ts vs).length = vs.length := by
    simp only [List.length_zipWith]; omega
  have hppa : processor.parsePositionalArguments lib args ts =
      processor.argValues 0
        (List.zipWith Slot.new ts vs ++ List.replicate (ts.length - vs.length) Slot.nil) ts := by
    simp only [processor.parsePositionalArguments, Unmarshal, hparse, hfill, hzl]
    rw [if_neg (by omega)]
  have hiff : (∀ t ∈ ts.drop vs.length, t.Kind = reflect.Kind.Ptr) ↔
      ∀ i t, es.length ≤ i → ts[i]? = some t → t.Kind = reflect.Kind.Ptr := by
    constructor
    · intro h i t hi ht
      apply h t
      rw [List.mem_iff_getElem?]
      refine ⟨i - vs.length, ?_⟩
      rw [List.getElem?_drop, ← ht]
      congr 1
      omega
    · intro h t ht
      rw [List.mem_iff_getElem?] at ht
      obtain ⟨j, hj⟩ := ht
      rw [List.getElem?_drop] at hj
      exact h (vs.length + j) t (by omega) hj
  refine ⟨⟨?_, ?_⟩, ?_⟩
  · rintro ⟨r, hr⟩
    rw [← hiff]
    by_contra hne
    push_neg at hne
    obtain ⟨t, ht, htk⟩ := hne
    rw [List.mem_iff_getElem?] at ht
    obtain ⟨j, hj⟩ := ht
    rw [List.getElem?_drop] at hj
    have hjlt : vs.length + j < ts.length := by
      rcases Nat.lt_or_ge (vs.length + j) ts.length with h | h
      · exact h
      · rw [List.getElem?_eq_none h] at hj; cases hj
    obtain ⟨m, hm⟩ := processor.argValues_error 0
      (List.zipWith Slot.new ts vs ++ List.replicate (ts.length - vs.length) Slot.nil) ts
      (vs.length + j) t
      (by
        rw [List.getElem?_append_right (by omega), List.getElem?_replicate]
        simp only [hzl, ite_eq_left_iff, not_lt, reduceCtorEq, imp_false, not_le]
        omega)
      hj htk
    rw [hppa, hm] at hr
    cases hr
  · intro h
    rw [← hiff] at h
    exact ⟨_, by rw [hppa, processor.argValues_decoded 0 ts vs (by omega) h]⟩
  · intro r hr
    by_cases h : ∀ t ∈ ts.drop vs.length, t.Kind = reflect.Kind.Ptr
    · rw [hppa, processor.argValues_decoded 0 ts vs (by omega) h] at hr
      simp only [Except.ok.injEq] at hr
      rw [← hr, hvs]
    · exfalso
      push_neg at h
      obtain ⟨t, ht, htk⟩ := h
      rw [List.mem_iff_getElem?] at ht
      obtain ⟨j, hj⟩ := ht
      rw [List.getElem?_drop] at hj
      have hjlt : vs.length + j < ts.length := by
        rcases Nat.lt_or_ge (vs.length + j) ts.length with h | h
        · exact h
        · rw [List.getElem?_eq_none h] at hj; cases hj
      obtain ⟨m, hm⟩ := processor.argValues_error 0
        (List.zipWith Slot.new ts vs ++ List.replicate (ts.length - vs.length) Slot.nil) ts
        (vs.length + j) t
        (by
          rw [List.getElem?_append_right (by omega), List.getElem?_replicate]
          simp only [hzl, ite_eq_left_iff, not_lt, reduceCtorEq, imp_false, not_le]
          omega)
        hj htk
      rw [hppa, hm] at hr
      cases hr

/-- The witness of `parsePositionalArguments_missing`: the declared types string and
*string with the params ["a"]. -/
theorem parsePositionalArguments_missing_witness :
    ((∃ r, processor.parsePositionalArguments demo.lib (demo.bytes "[\"a\"]")
        [demo.stringT, .ptr demo.stringT] = .ok r) ↔
      ∀ i t, [Json.str "a"].length ≤ i → [demo.stringT, GoType.ptr demo.stringT][i]? = some t →
        t.Kind = reflect.Kind.Ptr) ∧
    (∀ r, processor.parsePositionalArguments demo.lib (demo.bytes "[\"a\"]")
        [demo.stringT, .ptr demo.stringT] = .ok r →
      r = [Value.str "a"] ++
        ([demo.stringT, GoType.ptr demo.stringT].drop [Json.str "a"].length).map reflect.Zero) :=
  processor.parsePositionalArguments_missing demo.lib (demo.bytes "[\"a\"]")
    [demo.stringT, .ptr demo.stringT] [.str "a"] [.str "a"] (by decide) (by decide) rfl rfl
    (by
      intro i e t he ht
      cases i with
      | zero =>
        simp only [List.getElem?_cons_zero, Option.some.injEq] at he ht
        subst he ht
        exact ⟨.str "a", rfl, rfl⟩
      | succ j => simp at he)

/-! ## Malformed method strings and ids -/

/-- Splitting on a predicate gives one more segment than there are separators. -/
theorem length_splitOnP_filter {α : Type} (p : α → Bool) (l : List α) :
    (l.splitOnP p).length = (l.filter p).length + 1 := by
  induction l with
  | nil => simp
  | cons x xs ih =>
    rw [List.splitOnP_cons]
    by_cases h : p x = true
    · simp [h, ih]
    · simp [h, ih]

/-- The function `strings.Split` returns one more segment than the string has
separators. -/
theorem server.Split_length (s : String) (c : Char) :
    (server.Split s c).length = s.data.count c + 1 := by
  simp only [server.Split, List.length_map, List.splitOn, length_splitOnP_filter, List.count,
    List.countP_eq_length_filter]

/-- C11, amended: for every single request with a valid id whose method string does not
hold exactly one separator "_" (none, or two or more), parseRequest returns no request,
the batch flag false and a method-not-found error (code -32601) whose Service field is
the malformed method string and whose Method field is the empty string, so that its
message is "The method " ++ method ++ "_ does not exist/is not available". -/
theorem server.parseRequest_malformed_method (lib : server.CodecLib) (msg : RawMessage)
    (options : Nat) (jr : server.JSONRequest)
    (hjr : lib.unmarshalRequest msg = .ok jr)
    (hid : server.checkReqID lib jr.ID = none)
    (hsep : jr.Method.data.count '_' ≠ 1) :
    server.parseRequest lib msg options =
        ([], false, some (.MethodNotFoundError jr.Method "")) ∧
      (RPCError.MethodNotFoundError jr.Method "").Code = -32601 ∧
      (RPCError.MethodNotFoundError jr.Method "").Error =
        "The method " ++ jr.Method ++ "_" ++ " does not exist/is not available" := by
  refine ⟨?_, rfl, ?_⟩
  · have hlen : (server.Split jr.Method errors.ServiceMethodSeparator).length ≠ 2 := by
      rw [server.Split_length]
      simp only [errors.ServiceMethodSeparator]
      omega
    simp only [server.parseRequest, hjr, hid]
    generalize server.Split jr.Method errors.ServiceMethodSeparator = l at hlen
    rcases l with _ | ⟨a, _ | ⟨b, _ | ⟨c, l⟩⟩⟩
    · rfl
    · rfl
    · exact absurd rfl hlen
    · rfl
  · simp only [RPCError.Error, errors.ServiceMethodSeparator]
    apply String.ext
    simp [String.data_append, String.singleton]

/-- The witness of `parseRequest_malformed_method`: the method string foo. -/
theorem parseRequest_malformed_method_witness :
    server.parseRequest demo.clibMore demo.msgBadMethod 1 =
        ([], false, some (.MethodNotFoundError "foo" "")) ∧
      (RPCError.MethodNotFoundError "foo" "").Code = -32601 ∧
      (RPCError.MethodNotFoundError "foo" "").Error =
        "The method " ++ "foo" ++ "_" ++ " does not exist/is not available" :=
  server.parseRequest_malformed_method demo.clibMore demo.msgBadMethod 1
    { Method := "foo", Version := "", ID := demo.bytes "1", Payload := [] }
    rfl (by decide) (by decide)

/-- C11 fails for the Method field: for the method string foo the error that
parseRequest returns has the Service field foo and the empty Method field, and is not the
error whose two fields are foo. -/
theorem parseRequest_malformed_method_field :
    server.parseRequest demo.clibMore demo.msgBadMethod 1 =
        ([], false, some (.MethodNotFoundError "foo" "")) ∧
      server.parseRequest demo.clibMore demo.msgBadMethod 1 ≠
        ([], false, some (.MethodNotFoundError "foo" "foo")) := by
  decide

/-- The function `checkReqID` accepts exactly the ids that are not empty and that
`strconv.ParseFloat` or `json.Unmarshal` into a string accepts. -/
theorem server.checkReqID_eq (lib : server.CodecLib) (reqID : RawMessage) :
    server.checkReqID lib reqID =
      if reqID = [] then some "missing request id"
      else if lib.parseFloatOk reqID = true ∨ lib.unmarshalStringOk reqID = true then none
      else some "invalid request id" := by
  unfold server.checkReqID
  cases reqID with
  | nil => simp
  | cons b bs =>
    cases h1 : lib.parseFloatOk (b :: bs) <;> cases h2 : lib.unmarshalStringOk (b :: bs) <;> simp

/-- C12 at the id 1e999, a well-formed JSON number: `strconv.ParseFloat` reports a range
error and `json.Unmarshal` into a string fails, so checkReqID returns the error "invalid
request id" and parseRequest rejects the request test_ping that carries this id. -/
theorem checkReqID_rejects_large_number :
    demo.clibMore.parseFloatOk (demo.bytes "1e999") = false ∧
    demo.clibMore.unmarshalStringOk (demo.bytes "1e999") = false ∧
    server.checkReqID demo.clibMore (demo.bytes "1e999") = some "invalid request id" ∧
    server.parseRequest demo.clibMore demo.msgBigId 1 =
      ([], false, some (.InvalidMessageError "invalid request id")) := by
  decide

/-- C13, amended: a single request that has no id field is rejected by the codec, also
when its method string is well formed: parseRequest returns no request, the batch flag
false and the invalid-message error (code -32700) with the message "missing request
id". -/
theorem server.parseRequest_missing_id (lib : server.CodecLib) (msg : RawMessage)
    (options : Nat) (jr : server.JSONRequest)
    (hjr : lib.unmarshalRequest msg = .ok jr) (hid : jr.ID = []) :
    server.parseRequest lib msg options =
        ([], false, some (.InvalidMessageError "missing request id")) ∧
      (RPCError.InvalidMessageError "missing request id").Code = -32700 := by
  refine ⟨?_, rfl⟩
  simp [server.parseRequest, hjr, server.checkReqID, hid]

/-- The witness of `parseRequest_missing_id`: tx_sendRawTransaction without id. -/
theorem parseRequest_missing_id_witness :
    server.parseRequest demo.clibMore demo.msgNoId 1 =
        ([], false, some (.InvalidMessageError "missing request id")) ∧
      (RPCError.InvalidMessageError "missing request id").Code = -32700 :=
  server.parseRequest_missing_id demo.clibMore demo.msgNoId 1
    { Method := "tx_sendRawTransaction", Version := "", ID := [], Payload := [] } rfl rfl

/-- C13 fails: the message that holds only the well-formed method string
tx_sendRawTransaction and no id gets no request and an error from parseRequest. -/
theorem parseRequest_missing_id_rejected :
    demo.clibMore.unmarshalRequest demo.msgNoId =
      .ok { Method := "tx_sendRawTransaction", Version := "", ID := [], Payload := [] } ∧
    server.Split "tx_sendRawTransaction" errors.ServiceMethodSeparator =
      ["tx", "sendRawTransaction"] ∧
    (server.parseRequest demo.clibMore demo.msgNoId 1).1 = [] ∧
    (server.parseRequest demo.clibMore demo.msgNoId 1).2.2 =
      some (.InvalidMessageError "missing request id") := by
  refine ⟨rfl, by decide, by decide, by decide⟩

/-! ## Batch detection -/

/-- C14: for every byte sequence msg, isBatch(msg) is true if and only if msg consists of
bytes 0x20, 0x09, 0x0a, 0x0d followed by the byte 0x5b, the opening bracket, and then any
bytes; and isBatch is false for the empty message and for a message of whitespace only. -/
theorem server.isBatch_iff (msg : RawMessage) :
    (server.isBatch msg = true ↔
      ∃ pre post, msg = pre ++ 0x5b :: post ∧
        ∀ b ∈ pre, b = 0x20 ∨ b = 0x09 ∨ b = 0x0a ∨ b = 0x0d) ∧
    server.isBatch [] = false ∧
    ((∀ b ∈ msg, b = 0x20 ∨ b = 0x09 ∨ b = 0x0a ∨ b = 0x0d) → server.isBatch msg = false) := by
  refine ⟨?_, rfl, ?_⟩
  · induction msg with
    | nil => simp [server.isBatch]
    | cons c rest ih =>
      by_cases hws : c = 0x20 ∨ c = 0x09 ∨ c = 0x0a ∨ c = 0x0d
      · simp only [server.isBatch, hws, if_true, ih]
        constructor
        · rintro ⟨pre, post, rfl, hpre⟩
          refine ⟨c :: pre, post, rfl, ?_⟩
          intro b hb
          rcases List.mem_cons.mp hb with rfl | hb
          · exact hws
          · exact hpre b hb
        · rintro ⟨pre, post, heq, hpre⟩
          cases pre with
          | nil =>
            simp only [List.nil_append, List.cons.injEq] at heq
            omega
          | cons p pre =>
            simp only [List.cons_append, List.cons.injEq] at heq
            exact ⟨pre, post, heq.2, fun b hb => hpre b (List.mem_cons_of_mem _ hb)⟩
      · simp only [server.isBatch, hws, if_false, beq_iff_eq]
        constructor
        · intro hc
          exact ⟨[], rest, by simp [hc], by simp⟩
        · rintro ⟨pre, post, heq, hpre⟩
          cases pre with
          | nil =>
            simp only [List.nil_append, List.cons.injEq] at heq
            exact heq.1
          | cons p pre =>
            simp only [List.cons_append, List.cons.injEq] at heq
            exact absurd (heq.1 ▸ hpre p (List.mem_cons_self _ _)) hws
  · intro hall
    induction msg with
    | nil => rfl
    | cons c rest ih =>
      have hws := hall c (List.mem_cons_self _ _)
      simp only [server.isBatch, hws, if_true]
      exact ih (fun b hb => hall b (List.mem_cons_of_mem _ hb))

/-! ## Reading a batch -/

/-- A list that splits into two segments is the first segment, the separator and the
second segment. -/
theorem splitOn_eq_pair {α : Type} [DecidableEq α] (c : α) (l a b : List α)
    (h : l.splitOn c = [a, b]) : l = a ++ c :: b := by
  have hspec := List.splitOnP_spec (· == c) l
  have hlen := length_splitOnP_filter (· == c) l
  rw [List.splitOn] at h
  rw [h] at hspec hlen
  simp only [List.length_cons, List.length_nil, Nat.zero_add, Nat.reduceAdd,
    Nat.add_right_cancel_iff] at hlen
  obtain ⟨x, hx⟩ : ∃ x, l.filter (· == c) = [x] := by
    rcases hf : l.filter (· == c) with _ | ⟨x, _ | ⟨y, t⟩⟩
    · rw [hf] at hlen; simp at hlen
    · exact ⟨x, rfl⟩
    · rw [hf] at hlen; simp at hlen
  have hxc : x = c := by
    have hmem : x ∈ l.filter (· == c) := by rw [hx]; simp
    simpa using (List.mem_filter.mp hmem).2
  rw [hx, hxc] at hspec
  simpa using hspec.symm

/-- A method string with exactly one separator is service ++ "_" ++ method for the two
segments that `strings.Split` returns. -/
theorem server.Split_one_separator (x : String) (h : x.data.count '_' = 1) :
    ∃ s m, server.Split x errors.ServiceMethodSeparator = [s, m] ∧ x = s ++ "_" ++ m := by
  have hlen : (x.data.splitOn '_').length = 2 := by
    have := server.Split_length x '_'
    simp only [server.Split, List.length_map] at this
    omega
  rcases hl : x.data.splitOn '_' with _ | ⟨a, _ | ⟨b, _ | ⟨c, l⟩⟩⟩
  · rw [hl] at hlen; simp at hlen
  · rw [hl] at hlen; simp at hlen
  · refine ⟨String.mk a, String.mk b, ?_, ?_⟩
    · simp [server.Split, errors.ServiceMethodSeparator, hl]
    · apply String.ext
      simp [String.data_append, splitOn_eq_pair '_' x.data a b hl]
  · rw [hl] at hlen; simp at hlen

/-- C15: for every batch of N items each of which has a valid id and a method string
with exactly one separator "_", parseBatchRequest returns no error, the batch flag true
and exactly N requests, the i-th having the two segments of the method string of the
i-th item as service and method, the pointer to its raw id as ID, and its raw params as
Params (nil when the item has none). -/
theorem server.parseBatchRequest_all_valid (lib : server.CodecLib) (msg : RawMessage)
    (items : List server.JSONRequest)
    (hjr : lib.unmarshalBatch msg = .ok items)
    (hvalid : ∀ r ∈ items, server.checkReqID lib r.ID = none ∧ r.Method.data.count '_' = 1) :
    ∃ reqs, server.parseBatchRequest lib msg = (reqs, true, none) ∧
      reqs.length = items.length ∧
      ∀ (i : Nat) (r : server.JSONRequest), items[i]? = some r →
        ∃ s m, r.Method = s ++ "_" ++ m ∧
          reqs[i]? = some { Service := s, Method := m, ID := .ptr (.rawMessage r.ID),
                            IsPubSub := false,
                            Params := if r.Payload.length = 0 then Value.nil
                              else .rawMessage r.Payload,
                            Ctx := Value.nil } := by
  have hitems : ∃ reqs, server.parseBatchItems lib items = .ok reqs ∧
      reqs.length = items.length ∧
      ∀ (i : Nat) (r : server.JSONRequest), items[i]? = some r →
        ∃ s m, r.Method = s ++ "_" ++ m ∧
          reqs[i]? = some { Service := s, Method := m, ID := .ptr (.rawMessage r.ID),
                            IsPubSub := false,
                            Params := if r.Payload.length = 0 then Value.nil
                              else .rawMessage r.Payload,
                            Ctx := Value.nil } := by
    clear hjr
    induction items with
    | nil => exact ⟨[], rfl, rfl, by simp⟩
    | cons r rest ih =>
      obtain ⟨hid, hcount⟩ := hvalid r (List.mem_cons_self _ _)
      obtain ⟨s, m, hsplit, hmeth⟩ := server.Split_one_separator r.Method hcount
      obtain ⟨reqs, hreqs, hlen, hall⟩ :=
        ih (fun r2 h2 => hvalid r2 (List.mem_cons_of_mem _ h2))
      refine ⟨server.toRPCRequest r s m :: reqs, ?_, by simp [hlen], ?_⟩
      · simp only [server.parseBatchItems, hid, hsplit, hreqs]
      · intro i r2 hi
        cases i with
        | zero =>
          simp only [List.getElem?_cons_zero, Option.some.injEq] at hi
          subst hi
          refine ⟨s, m, hmeth, ?_⟩
          simp only [List.getElem?_cons_zero, server.toRPCRequest]
          split <;> rfl
        | succ j =>
          simp only [List.getElem?_cons_succ] at hi ⊢
          exact hall j r2 hi
  obtain ⟨reqs, hreqs, hlen, hall⟩ := hitems
  exact ⟨reqs, by simp only [server.parseBatchRequest, hjr, hreqs], hlen, hall⟩

/-- The witness of `parseBatchRequest_all_valid`: the batch of test_ping and
tx_sendRawTransaction. -/
theorem parseBatchRequest_all_valid_witness :
    ∃ reqs, server.parseBatchRequest demo.clibMore demo.msgBatch = (reqs, true, none) ∧
      reqs.length = [demo.itemPing, demo.itemSend].length ∧
      ∀ (i : Nat) (r : server.JSONRequest), [demo.itemPing, demo.itemSend][i]? = some r →
        ∃ s m, r.Method = s ++ "_" ++ m ∧
          reqs[i]? = some { Service := s, Method := m, ID := .ptr (.rawMessage r.ID),
                            IsPubSub := false,
                            Params := if r.Payload.length = 0 then Value.nil
                              else .rawMessage r.Payload,
                            Ctx := Value.nil } :=
  server.parseBatchRequest_all_valid demo.clibMore demo.msgBatch
    [demo.itemPing, demo.itemSend] rfl (by decide)

/-- The loop of `parseBatchRequest` passes the items that are well formed and reports
the error of the items that follow them. -/
theorem server.parseBatchItems_prefix (lib : server.CodecLib)
    (pre rest : List server.JSONRequest) (e : Bool × RPCError)
    (hpre : ∀ r ∈ pre, server.checkReqID lib r.ID = none ∧ r.Method.data.count '_' = 1)
    (hrest : server.parseBatchItems lib rest = .error e) :
    server.parseBatchItems lib (pre ++ rest) = .error e := by
  induction pre with
  | nil => simpa using hrest
  | cons r pre ih =>
    obtain ⟨hid, hcount⟩ := hpre r (List.mem_cons_self _ _)
    obtain ⟨s, m, hsplit, _⟩ := server.Split_one_separator r.Method hcount
    have := ih (fun r2 h2 => hpre r2 (List.mem_cons_of_mem _ h2))
    simp only [List.cons_append, server.parseBatchItems, hid, hsplit, List.append_eq, this]

/-- C16, amended: for every batch in which one item has an id that is present but is
neither a number nor a string, while the items before it are well formed, the codec
rejects the whole batch: parseBatchRequest returns no request at all, the batch flag
false and the invalid-message error (code -32700) with the message "invalid request
id". -/
theorem server.parseBatchRequest_invalid_id (lib : server.CodecLib) (msg : RawMessage)
    (pre post : List server.JSONRequest) (bad : server.JSONRequest)
    (hjr : lib.unmarshalBatch msg = .ok (pre ++ bad :: post))
    (hpre : ∀ r ∈ pre, server.checkReqID lib r.ID = none ∧ r.Method.data.count '_' = 1)
    (hpresent : bad.ID ≠ [])
    (hnum : lib.parseFloatOk bad.ID = false) (hstr : lib.unmarshalStringOk bad.ID = false) :
    server.parseBatchRequest lib msg =
        ([], false, some (.InvalidMessageError "invalid request id")) ∧
      (RPCError.InvalidMessageError "invalid request id").Code = -32700 := by
  refine ⟨?_, rfl⟩
  have hbad : server.checkReqID lib bad.ID = some "invalid request id" := by
    rw [server.checkReqID_eq]
    simp [hpresent, hnum, hstr]
  have hitems := server.parseBatchItems_prefix lib pre (bad :: post)
    (false, .InvalidMessageError "invalid request id") hpre
    (by simp only [server.parseBatchItems, hbad])
  simp only [server.parseBatchRequest, hjr, hitems]

/-- The witness of `parseBatchRequest_invalid_id`: the batch whose second item has an
object as id. -/
theorem parseBatchRequest_invalid_id_witness :
    server.parseBatchRequest demo.clibMore demo.msgBatchObjectId =
        ([], false, some (.InvalidMessageError "invalid request id")) ∧
      (RPCError.InvalidMessageError "invalid request id").Code = -32700 :=
  server.parseBatchRequest_invalid_id demo.clibMore demo.msgBatchObjectId
    [demo.itemPing] [] demo.itemObjectId rfl (by decide) (by decide) (by decide) (by decide)

/-- C16 fails: in the batch of test_ping with id 1 and test_ping with an object as id,
the first item is well formed, and parseBatchRequest returns no request. -/
theorem parseBatchRequest_invalid_id_drops_all :
    demo.clibMore.unmarshalBatch demo.msgBatchObjectId =
      .ok [demo.itemPing, demo.itemObjectId] ∧
    server.checkReqID demo.clibMore demo.itemPing.ID = none ∧
    server.Split demo.itemPing.Method errors.ServiceMethodSeparator = ["test", "ping"] ∧
    (server.parseBatchRequest demo.clibMore demo.msgBatchObjectId).1 = [] ∧
    (server.parseBatchRequest demo.clibMore demo.msgBatchObjectId).2.2 =
      some (.InvalidMessageError "invalid request id") := by
  refine ⟨rfl, by decide, by decide, by decide, by decide⟩

/-- C17: for every batch whose items all have valid ids and in which some item has a
method string that does not hold exactly one separator "_", parseBatchRequest returns no
request at all, the batch flag true, and the method-not-found error (code -32601) whose
Service field is the method string of the first such item; the well-formed items are
discarded. -/
theorem server.parseBatchRequest_malformed_method (lib : server.CodecLib) (msg : RawMessage)
    (pre post : List server.JSONRequest) (bad : server.JSONRequest)
    (hjr : lib.unmarshalBatch msg = .ok (pre ++ bad :: post))
    (hids : ∀ r ∈ pre ++ bad :: post, server.checkReqID lib r.ID = none)
    (hpre : ∀ r ∈ pre, r.Method.data.count '_' = 1)
    (hbad : bad.Method.data.count '_' ≠ 1) :
    server.parseBatchRequest lib msg =
        ([], true, some (.MethodNotFoundError bad.Method "")) ∧
      (RPCError.MethodNotFoundError bad.Method "").Code = -32601 := by
  refine ⟨?_, rfl⟩
  have hlen : (server.Split bad.Method errors.ServiceMethodSeparator).length ≠ 2 := by
    rw [server.Split_length]
    simp only [errors.ServiceMethodSeparator]
    omega
  have hbadItems : server.parseBatchItems lib (bad :: post) =
      .error (true, .MethodNotFoundError bad.Method "") := by
    have hid := hids bad (by simp)
    simp only [server.parseBatchItems, hid]
    generalize server.Split bad.Method errors.ServiceMethodSeparator = l at hlen
    rcases l with _ | ⟨a, _ | ⟨b, _ | ⟨c, l⟩⟩⟩
    · rfl
    · rfl
    · exact absurd rfl hlen
    · rfl
  have hitems := server.parseBatchItems_prefix lib pre (bad :: post)
    (true, .MethodNotFoundError bad.Method "")
    (fun r hr => ⟨hids r (by simp [hr]), hpre r hr⟩) hbadItems
  simp only [server.parseBatchRequest, hjr, hitems]

/-- The witness of `parseBatchRequest_malformed_method`: the batch of test_ping and the
method string foo. -/
theorem parseBatchRequest_malformed_method_witness :
    server.parseBatchRequest demo.clibMore demo.msgBatchBadMethod =
        ([], true, some (.MethodNotFoundError demo.itemBadMethod.Method "")) ∧
      (RPCError.MethodNotFoundError demo.itemBadMethod.Method "").Code = -32601 :=
  server.parseBatchRequest_malformed_method demo.clibMore demo.msgBatchBadMethod
    [demo.itemPing] [] demo.itemBadMethod rfl (by decide) (by decide) (by decide)

/-! ## One envelope or an array -/

/-- When every request of a batch is answered, that is, its handling does not panic,
handleReqs writes exactly one value to the codec. For a batch that holds exactly one
request the value is the envelope of that request itself, not an array; for a batch of
two or more requests it is one array, with one envelope for each request. -/
theorem server.handleReqs_one_or_many {W : Type} (hex : server.HexFmt) (lib : JsonLib)
    (s : server.HttpHandler W) (ctx : Value) (codec : server.jsonCodecImpl)
    (reqs : List RPCRequest) (w : W) (hN : 1 ≤ reqs.length)
    (hret : ∀ i req, reqs[i]? = some req →
      ∃ env, (server.handleChannelReq hex lib s { req with Ctx := ctx }
        (server.handleLoop hex lib s ctx (reqs.take i) w).world).outcome = .returned env) :
    ∃ c res, (server.handleReqs hex lib s ctx codec reqs w).outcome = .returned c ∧
      c.written = codec.written ++ [res] ∧
      (reqs.length = 1 → ∃ req env, reqs = [req] ∧ res = .one env ∧
        (server.handleChannelReq hex lib s { req with Ctx := ctx } w).outcome = .returned env) ∧
      (2 ≤ reqs.length → ∃ envs, res = .many envs ∧ envs.length = reqs.length) := by
  obtain ⟨envs, he, hl, hall⟩ := server.handleLoop_envelopes hex lib s ctx reqs w hret
  by_cases h1 : reqs.length = 1
  · obtain ⟨req, rfl⟩ : ∃ req, reqs = [req] := by
      rcases reqs with _ | ⟨r, _ | ⟨r2, l⟩⟩
      · simp at h1
      · exact ⟨r, rfl⟩
      · simp at h1
    obtain ⟨env, henv, hout⟩ := hall 0 req (by simp)
    obtain ⟨e0, rfl⟩ : ∃ e0, envs = [e0] := by
      rcases envs with _ | ⟨e, _ | ⟨e2, l⟩⟩
      · simp at hl
      · exact ⟨e, rfl⟩
      · simp at hl
    simp only [List.getElem?_cons_zero, Option.some.injEq] at henv
    subst henv
    simp only [List.take_zero, server.handleLoop] at hout
    refine ⟨server.writeOrClose codec (.one e0), .one e0, ?_,
      server.writeOrClose_written _ _, ?_, ?_⟩
    · simp only [server.handleReqs, he, List.length_singleton, if_true]
    · intro _; exact ⟨req, e0, rfl, rfl, hout⟩
    · intro h2; simp at h2
  · refine ⟨server.writeOrClose codec (.many envs), .many envs, ?_,
      server.writeOrClose_written _ _, ?_, ?_⟩
    · simp only [server.handleReqs, he, h1, if_false]
    · intro h; exact absurd h h1
    · intro _; exact ⟨envs, rfl, hl⟩

/-- The witness of `handleReqs_one_or_many`: the batch that holds only unknownsvc_foo. -/
theorem handleReqs_one_or_many_witness :
    ∃ c res, (server.handleReqs demo.hex demo.lib demo.handler (.context 0) demo.codec
        [demo.reqUnknown] []).outcome = .returned c ∧
      c.written = demo.codec.written ++ [res] ∧
      ([demo.reqUnknown].length = 1 → ∃ req env, [demo.reqUnknown] = [req] ∧ res = .one env ∧
        (server.handleChannelReq demo.hex demo.lib demo.handler
          { req with Ctx := Value.context 0 } []).outcome = .returned env) ∧
      (2 ≤ [demo.reqUnknown].length →
        ∃ envs, res = .many envs ∧ envs.length = [demo.reqUnknown].length) :=
  server.handleReqs_one_or_many demo.hex demo.lib demo.handler (.context 0) demo.codec
    [demo.reqUnknown] [] (by decide) (by
      intro i req hi
      rcases i with _ | i
      · simp only [List.getElem?_cons_zero, Option.some.injEq] at hi
        subst hi
        exact ⟨_, rfl⟩
      · simp at hi)

/-- C18 (failing input): the batch that holds exactly one request, tx_sendRawTransaction
with the params ["0x00"]. The handling of the request panics on the plain error that
the method returns, handleReqs panics with it and writes nothing to the codec, neither
an envelope nor an array; ServeSingleRequest on the stream of that one message recovers
the panic, returns nil, and its codec has written nothing. -/
theorem handleReqs_single_request_unwritten :
    [demo.reqSend].length = 1 ∧
    (server.handleChannelReq demo.hex demo.lib demo.handler
        { demo.reqSend with Ctx := Value.context 0 } []).outcome =
      .panicked "interface conversion: the error is not a code.RPCError" ∧
    (server.handleReqs demo.hex demo.lib demo.handler (.context 0) demo.codec
        [demo.reqSend] []).outcome =
      .panicked "interface conversion: the error is not a code.RPCError" ∧
    (server.ServeSingleRequest demo.hex demo.lib demo.clib demo.handler [] (.context 0) 7
        demo.codec 1 [{ stop := false, next := .ok demo.msgSend }] []).result =
      .returned none ∧
    (server.ServeSingleRequest demo.hex demo.lib demo.clib demo.handler [] (.context 0) 7
        demo.codec 1 [{ stop := false, next := .ok demo.msgSend }] []).codec.written = [] :=
  ⟨rfl, rfl, rfl, rfl, rfl⟩

/-! ## Requests of one batch do not disturb each other -/

/-- A request that fails resolution is answered in every world with an error envelope;
no method is called and the world stays as it is. -/
theorem server.handleChannelReq_resolutionFails {W : Type} (hex : server.HexFmt)
    (lib : JsonLib) (s : server.HttpHandler W) (req : RPCRequest) (ctx : Value) (w : W)
    (hf : processor.resolutionFails lib s.processor req = true) :
    ∃ env, server.handleChannelReq hex lib s { req with Ctx := ctx } w =
      ⟨.returned env, w, []⟩ := by
  have hsr : processor.checkRequestParams lib s.processor { req with Ctx := ctx } =
      processor.checkRequestParams lib s.processor req := rfl
  have hproc : ∃ resp e, processor.ProcessRequest lib s.processor { req with Ctx := ctx } w =
      ⟨.returned resp, w, []⟩ ∧ resp.Error = some e := by
    simp only [processor.ProcessRequest, processor.exec, hsr]
    simp only [processor.resolutionFails, Bool.or_eq_true] at hf
    unfold processor.handle
    cases herr : (processor.checkRequestParams lib s.processor req).err with
    | some e => exact ⟨_, e, rfl, rfl⟩
    | none =>
      simp only [herr, Option.isSome_none, Bool.false_eq_true, false_or] at hf
      cases hcb : (processor.checkRequestParams lib s.processor req).callb with
      | none => simp [hcb] at hf
      | some callb =>
        simp only [hcb, bne_iff_ne, ne_eq] at hf
        simp only [ne_eq, hf, not_false_eq_true, if_true]
        exact ⟨_, _, rfl, rfl⟩
  obtain ⟨resp, e, hp, he⟩ := hproc
  simp only [server.handleChannelReq, hp, he]
  split
  · exact ⟨_, rfl⟩
  · exact ⟨_, rfl⟩

/-- A batch of requests that all fail resolution leaves the world as it is. -/
theorem server.handleLoop_resolutionFails_world {W : Type} (hex : server.HexFmt)
    (lib : JsonLib) (s : server.HttpHandler W) (ctx : Value) (l : List RPCRequest) (w : W)
    (hf : ∀ r ∈ l, processor.resolutionFails lib s.processor r = true) :
    (server.handleLoop hex lib s ctx l w).world = w := by
  induction l generalizing w with
  | nil => rfl
  | cons r l ih =>
    obtain ⟨env, henv⟩ := server.handleChannelReq_resolutionFails hex lib s r ctx w
      (hf r (List.mem_cons_self _ _))
    rw [server.handleLoop_cons_world hex lib s ctx r l w env (by rw [henv]), henv]
    exact ih w (fun r2 h2 => hf r2 (List.mem_cons_of_mem _ h2))

/-- In a batch whose requests other than the one at index i fail resolution, all
requests are answered and the envelope at index i is the one that the request gets when
it is handled alone. -/
theorem server.handleLoop_sibling_failures {W : Type} (hex : server.HexFmt) (lib : JsonLib)
    (s : server.HttpHandler W) (ctx : Value) (reqs : List RPCRequest) (w : W) (i : Nat)
    (req : RPCRequest) (env : server.JSONResponse)
    (hi : reqs[i]? = some req)
    (hf : ∀ (j : Nat) (r : RPCRequest), j ≠ i → reqs[j]? = some r →
      processor.resolutionFails lib s.processor r = true)
    (henv : (server.handleChannelReq hex lib s { req with Ctx := ctx } w).outcome =
      .returned env) :
    ∃ envs, (server.handleLoop hex lib s ctx reqs w).outcome = .returned envs ∧
      envs.length = reqs.length ∧ envs[i]? = some env := by
  have hworld : (server.handleLoop hex lib s ctx (reqs.take i) w).world = w := by
    apply server.handleLoop_resolutionFails_world
    intro r hr
    rw [List.mem_iff_getElem?] at hr
    obtain ⟨j, hj⟩ := hr
    have hjlt : j < i := by
      by_contra hge
      rw [List.getElem?_take_eq_none (by omega)] at hj
      cases hj
    rw [List.getElem?_take_of_lt hjlt] at hj
    exact hf j r (by omega) hj
  have hret : ∀ j r, reqs[j]? = some r →
      ∃ env2, (server.handleChannelReq hex lib s { r with Ctx := ctx }
        (server.handleLoop hex lib s ctx (reqs.take j) w).world).outcome = .returned env2 := by
    intro j r hj
    by_cases hji : j = i
    · subst hji
      rw [hi] at hj
      cases hj
      rw [hworld]
      exact ⟨env, henv⟩
    · obtain ⟨env2, h2⟩ := server.handleChannelReq_resolutionFails hex lib s r ctx
        (server.handleLoop hex lib s ctx (reqs.take j) w).world (hf j r hji hj)
      exact ⟨env2, by rw [h2]⟩
  obtain ⟨envs, he, hl, hall⟩ := server.handleLoop_envelopes hex lib s ctx reqs w hret
  obtain ⟨env2, h2, hout⟩ := hall i req hi
  rw [hworld, henv] at hout
  cases hout
  exact ⟨envs, he, hl, h2⟩

/-- C19, amended: for every service table and every two batches of the same length
N >= 2 that have the same request at index i, when every request at another index of
either batch fails resolution (unknown service or method, wrong argument count, malformed
parameters) and request i is answered, handleReqs writes for each batch an array of all N
envelopes, and the i-th envelope is the same for both batches: the envelope that request
i gets when it is handled alone. -/
theorem server.handleReqs_isolates_failures {W : Type} (hex : server.HexFmt) (lib : JsonLib)
    (s : server.HttpHandler W) (ctx : Value) (codec1 codec2 : server.jsonCodecImpl)
    (reqs1 reqs2 : List RPCRequest) (w : W) (i : Nat) (req : RPCRequest)
    (env : server.JSONResponse)
    (hlen : reqs1.length = reqs2.length) (hN : 2 ≤ reqs1.length)
    (h1 : reqs1[i]? = some req) (h2 : reqs2[i]? = some req)
    (hf1 : ∀ (j : Nat) (r : RPCRequest), j ≠ i → reqs1[j]? = some r →
      processor.resolutionFails lib s.processor r = true)
    (hf2 : ∀ (j : Nat) (r : RPCRequest), j ≠ i → reqs2[j]? = some r →
      processor.resolutionFails lib s.processor r = true)
    (henv : (server.handleChannelReq hex lib s { req with Ctx := ctx } w).outcome =
      .returned env) :
    ∃ c1 c2 envs1 envs2,
      (server.handleReqs hex lib s ctx codec1 reqs1 w).outcome = .returned c1 ∧
      c1.written = codec1.written ++ [.many envs1] ∧ envs1.length = reqs1.length ∧
      (server.handleReqs hex lib s ctx codec2 reqs2 w).outcome = .returned c2 ∧
      c2.written = codec2.written ++ [.many envs2] ∧ envs2.length = reqs2.length ∧
      envs1[i]? = some env ∧ envs2[i]? = some env := by
  obtain ⟨envs1, he1, hl1, hi1⟩ :=
    server.handleLoop_sibling_failures hex lib s ctx reqs1 w i req env h1 hf1 henv
  obtain ⟨envs2, he2, hl2, hi2⟩ :=
    server.handleLoop_sibling_failures hex lib s ctx reqs2 w i req env h2 hf2 henv
  have hn1 : ¬ reqs1.length = 1 := by omega
  have hn2 : ¬ reqs2.length = 1 := by omega
  refine ⟨server.writeOrClose codec1 (.many envs1), server.writeOrClose codec2 (.many envs2),
    envs1, envs2, ?_, server.writeOrClose_written _ _, hl1, ?_,
    server.writeOrClose_written _ _, hl2, hi1, hi2⟩
  · simp only [server.handleReqs, he1, hn1, if_false]
  · simp only [server.handleReqs, he2, hn2, if_false]

/-- The witness of `handleReqs_isolates_failures`: the request pool_size at index 1,
after unknownsvc_foo in one batch and after test_ping, which the pool handler does not
know, in the other. -/
theorem handleReqs_isolates_failures_witness :
    ∃ c1 c2 envs1 envs2,
      (server.handleReqs demo.hex demo.lib demo.poolHandler (.context 0) demo.codec
        [demo.reqUnknown, demo.reqSize] []).outcome = .returned c1 ∧
      c1.written = demo.codec.written ++ [.many envs1] ∧
      envs1.length = [demo.reqUnknown, demo.reqSize].length ∧
      (server.handleReqs demo.hex demo.lib demo.poolHandler (.context 0) demo.codec
        [demo.reqPing, demo.reqSize] []).outcome = .returned c2 ∧
      c2.written = demo.codec.written ++ [.many envs2] ∧
      envs2.length = [demo.reqPing, demo.reqSize].length ∧
      envs1[1]? = some (server.CreateResponse demo.hex demo.reqSize.ID (.int 0)) ∧
      envs2[1]? = some (server.CreateResponse demo.hex demo.reqSize.ID (.int 0)) :=
  server.handleReqs_isolates_failures demo.hex demo.lib demo.poolHandler (.context 0)
    demo.codec demo.codec [demo.reqUnknown, demo.reqSize] [demo.reqPing, demo.reqSize] [] 1
    demo.reqSize (server.CreateResponse demo.hex demo.reqSize.ID (.int 0))
    rfl (by decide) rfl rfl
    (by
      intro j r hj hr
      rcases j with _ | _ | j
      · simp only [List.getElem?_cons_zero, Option.some.injEq] at hr
        subst hr
        rfl
      · exact absurd rfl hj
      · simp at hr)
    (by
      intro j r hj hr
      rcases j with _ | _ | j
      · simp only [List.getElem?_cons_zero, Option.some.injEq] at hr
        subst hr
        rfl
      · exact absurd rfl hj
      · simp at hr)
    rfl

/-- C19 fails: the methods Push and Size of the service pool are functions of the pool
and of their arguments, the batches [pool_push, pool_size] and [unknownsvc_foo,
pool_size] have the same request at index 1, and the envelope at index 1 carries the
result 1 in the first batch and the result 0 in the second. -/
theorem handleReqs_sibling_changes_envelope :
    [demo.reqPush, demo.reqSize][1]? = [demo.reqUnknown, demo.reqSize][1]? ∧
    ∃ c1 c2 e1 x1 e2 x2,
      (server.handleReqs demo.hex demo.lib demo.poolHandler (.context 0) demo.codec
        [demo.reqPush, demo.reqSize] []).outcome = .returned c1 ∧
      c1.written = [.many [e1, x1]] ∧
      (server.handleReqs demo.hex demo.lib demo.poolHandler (.context 0) demo.codec
        [demo.reqUnknown, demo.reqSize] []).outcome = .returned c2 ∧
      c2.written = [.many [e2, x2]] ∧
      x1.Result = Value.int 1 ∧ x2.Result = Value.int 0 ∧ x1 ≠ x2 :=
  ⟨rfl, _, _, _, _, _, _, rfl, rfl, rfl, rfl, rfl, rfl, by decide⟩

/-! ## Registration errors -/

/-- The result of `registerAPIService`, by the tests it makes in turn. -/
theorem processor.registerAPIService_error {W : Type} (u : Unicode)
    (jrpi : processor.JsonRpcProcessorImpl W) (svcname : String) (rcvr : processor.Receiver W) :
    (processor.registerAPIService u jrpi svcname rcvr).1 =
      if svcname = "" then .returned (some scommon.ErrNoServiceName)
      else if processor.indirectInvalid rcvr.val = true then
        .panicked "reflect: call of reflect.Value.Type on zero Value"
      else if processor.isExported u (processor.indirectType rcvr.typ).Name = false then
        .returned (some scommon.ErrNotExported)
      else if (processor.suitableCallbacks u rcvr.val rcvr.methods).1.length = 0 ∧
          (processor.suitableCallbacks u rcvr.val rcvr.methods).2.length = 0 then
        .returned (some scommon.ErrNoSuitable)
      else .returned none := by
  unfold processor.registerAPIService
  by_cases h1 : svcname = ""
  · simp [h1]
  · cases h0 : processor.indirectInvalid rcvr.val
    · cases h2 : processor.isExported u (processor.indirectType rcvr.typ).Name
      · simp [h1]
      · by_cases h3 : (processor.suitableCallbacks u rcvr.val rcvr.methods).1.length = 0 ∧
            (processor.suitableCallbacks u rcvr.val rcvr.methods).2.length = 0
        · simp [h1, h3]
        · simp only [h1, if_false, Bool.not_true, Bool.false_eq_true, h3, Bool.true_eq_false]
          split <;> rfl
    · simp [h1]

/-- C20 (amended): registerAllAPIService returns ErrNoApis when the api set is nil or
empty. registerAPIService returns ErrNoServiceName when the service name is the empty
string. For another name and a receiver that is not nil it returns ErrNotExported when
the name of the receiver's underlying type does not start with an upper-case letter,
else ErrNoSuitable when the receiver yields zero callbacks and zero subscriptions, else
no error. registerAllAPIService returns no error for a non-empty api set all of whose
apis are registered without error. -/
theorem processor.register_errors {W : Type} (u : Unicode)
    (jrpi : processor.JsonRpcProcessorImpl W) (svcname : String) (rcvr : processor.Receiver W)
    (apis : GoMap (Option (processor.API W))) :
    processor.registerAllAPIService u [] jrpi =
      (.returned (some scommon.ErrNoApis), jrpi) ∧
    (svcname = "" →
      processor.registerAPIService u jrpi svcname rcvr =
        (.returned (some scommon.ErrNoServiceName), jrpi)) ∧
    (svcname ≠ "" → processor.indirectInvalid rcvr.val = false →
      processor.isExported u (processor.indirectType rcvr.typ).Name = false →
      processor.registerAPIService u jrpi svcname rcvr =
        (.returned (some scommon.ErrNotExported), jrpi)) ∧
    (svcname ≠ "" → processor.indirectInvalid rcvr.val = false →
      processor.isExported u (processor.indirectType rcvr.typ).Name = true →
      (processor.suitableCallbacks u rcvr.val rcvr.methods).1 = [] →
      (processor.suitableCallbacks u rcvr.val rcvr.methods).2 = [] →
      processor.registerAPIService u jrpi svcname rcvr =
        (.returned (some scommon.ErrNoSuitable), jrpi)) ∧
    (svcname ≠ "" → processor.indirectInvalid rcvr.val = false →
      processor.isExported u (processor.indirectType rcvr.typ).Name = true →
      ¬ ((processor.suitableCallbacks u rcvr.val rcvr.methods).1 = [] ∧
        (processor.suitableCallbacks u rcvr.val rcvr.methods).2 = []) →
      (processor.registerAPIService u jrpi svcname rcvr).1 = .returned none) ∧
    (apis ≠ [] →
      (∀ a ∈ apis, ∃ api : processor.API W, a.2 = some api ∧ api.Svcname ≠ "" ∧
        processor.indirectInvalid api.Service.val = false ∧
        processor.isExported u (processor.indirectType api.Service.typ).Name = true ∧
        ¬ ((processor.suitableCallbacks u api.Service.val api.Service.methods).1 = [] ∧
          (processor.suitableCallbacks u api.Service.val api.Service.methods).2 = [])) →
      (processor.registerAllAPIService u apis jrpi).1 = .returned none) := by
  refine ⟨rfl, ?_, ?_, ?_, ?_, ?_⟩
  · intro h
    simp [processor.registerAPIService, h]
  · intro h1 h0 h2
    simp [processor.registerAPIService, h1, h0, h2]
  · intro h1 h0 h2 h3 h4
    simp [processor.registerAPIService, h1, h0, h2, h3, h4]
  · intro h1 h0 h2 h3
    rw [processor.registerAPIService_error]
    simp only [List.length_eq_zero, h1, h0, h2, h3, if_false, Bool.true_eq_false,
      Bool.false_eq_true]
  · intro hne hall
    have hloop : ∀ (l : List (String × Option (processor.API W)))
        (j : processor.JsonRpcProcessorImpl W),
        (∀ a ∈ l, ∃ api : processor.API W, a.2 = some api ∧ api.Svcname ≠ "" ∧
          processor.indirectInvalid api.Service.val = false ∧
          processor.isExported u (processor.indirectType api.Service.typ).Name = true ∧
          ¬ ((processor.suitableCallbacks u api.Service.val api.Service.methods).1 = [] ∧
            (processor.suitableCallbacks u api.Service.val api.Service.methods).2 = [])) →
        (processor.registerLoop u l j).1 = .returned none := by
      intro l
      induction l with
      | nil => intro j _; rfl
      | cons a l ih =>
        intro j hl
        obtain ⟨api, ha, h1, h0, h2, h3⟩ := hl a (List.mem_cons_self _ _)
        have herr : (processor.registerAPIService u j api.Svcname api.Service).1 =
            .returned none := by
          rw [processor.registerAPIService_error]
          simp only [List.length_eq_zero, h1, h0, h2, h3, if_false, Bool.true_eq_false,
            Bool.false_eq_true]
        obtain ⟨k, oapi⟩ := a
        simp only at ha
        subst ha
        simp only [processor.registerLoop]
        rcases hreg : processor.registerAPIService u j api.Svcname api.Service with ⟨e, j2⟩
        rw [hreg] at herr
        simp only at herr
        subst herr
        exact ih j2 (fun a2 h2 => hl a2 (List.mem_cons_of_mem _ h2))
    have hlen : ¬ apis.length = 0 := by
      intro h0; exact hne (List.length_eq_zero.mp h0)
    simp only [processor.registerAllAPIService, hlen, if_false]
    exact hloop apis jrpi hall

/-- C20 (counterexample): the receiver of the unexported type `counter`, which has no
method, gets ErrNoServiceName under the empty name, though its type name is not
exported, and ErrNotExported under the name c, though it yields neither a callback nor
a subscription; and for the nil pointer of type `*api.Transaction` under the name tx
none of the three conditions holds, yet the registration ends in a panic. -/
theorem registerAPIService_first_test_wins :
    processor.isExported demo.ascii
      (processor.indirectType demo.hiddenReceiver.typ).Name = false ∧
    (processor.suitableCallbacks demo.ascii demo.hiddenReceiver.val
      demo.hiddenReceiver.methods).1.length = 0 ∧
    (processor.suitableCallbacks demo.ascii demo.hiddenReceiver.val
      demo.hiddenReceiver.methods).2.length = 0 ∧
    (processor.registerAPIService demo.ascii demo.emptyJrpi "" demo.hiddenReceiver).1 =
      .returned (some scommon.ErrNoServiceName) ∧
    (processor.registerAPIService demo.ascii demo.emptyJrpi "c" demo.hiddenReceiver).1 =
      .returned (some scommon.ErrNotExported) ∧
    processor.isExported demo.ascii
      (processor.indirectType demo.nilTxReceiver.typ).Name = true ∧
    (processor.suitableCallbacks demo.ascii demo.nilTxReceiver.val
      demo.nilTxReceiver.methods).1.length = 2 ∧
    (processor.registerAPIService demo.ascii demo.emptyJrpi "tx" demo.nilTxReceiver).1 =
      .panicked "reflect: call of reflect.Value.Type on zero Value" :=
  ⟨rfl, rfl, rfl, rfl, rfl, rfl, rfl, rfl⟩

/-- The registration of the api tx of the repository succeeds and stores the callbacks
sendRawTransaction and newBlock; the callback for sendRawTransaction takes one argument
and has its error at position 1. -/
theorem registerAllAPIService_tx :
    (processor.registerAllAPIService demo.ascii [("tx", some demo.txApi)]
      demo.emptyJrpi).1 = .returned none ∧
    ∃ svc cb, (processor.registerAllAPIService demo.ascii [("tx", some demo.txApi)]
        demo.emptyJrpi).2.services.get "tx" = some svc ∧
      svc.callbacks.map (fun c => c.1) = ["sendRawTransaction", "newBlock"] ∧
      svc.subscriptions.map (fun c => c.1) = [] ∧
      svc.callbacks.get "sendRawTransaction" = some cb ∧
      cb.argTypes = [demo.bytesT] ∧ cb.errPos = 1 ∧ cb.hasCtx = false ∧
      cb.method.Name = "SendRawTransaction" :=
  ⟨rfl, _, _, rfl, rfl, rfl, rfl, rfl, rfl, rfl, rfl⟩

/-- The three errors of `registerAPIService` on receivers of the examples, and the
panic of `registerAllAPIService` on a map that holds a nil pointer. -/
theorem registerAPIService_examples :
    (processor.registerAPIService demo.ascii demo.emptyJrpi "" demo.txReceiver).1 =
      .returned (some scommon.ErrNoServiceName) ∧
    (processor.registerAPIService demo.ascii demo.emptyJrpi "c" demo.hiddenReceiver).1 =
      .returned (some scommon.ErrNotExported) ∧
    (processor.registerAPIService demo.ascii demo.emptyJrpi "e" demo.emptyReceiver).1 =
      .returned (some scommon.ErrNoSuitable) ∧
    (processor.registerAllAPIService demo.ascii [("x", none)] demo.emptyJrpi).1 =
      .panicked "invalid memory address or nil pointer dereference" :=
  ⟨rfl, rfl, rfl, rfl⟩

/-! ## Empty values, error codes and envelopes -/

theorem toDigitsCore_length_ge (fuel : Nat) : ∀ (n : Nat) (ds : List Char), 1 ≤ fuel →
    ds.length + 1 ≤ (Nat.toDigitsCore 10 fuel n ds).length := by
  induction fuel with
  | zero => intro n ds h; omega
  | succ f ih =>
    intro n ds _
    simp only [Nat.toDigitsCore]
    split
    · simp
    · rename_i hne
      cases f with
      | zero => simp [Nat.toDigitsCore]
      | succ g =>
        have := ih (n / 10) (Nat.digitChar (n % 10) :: ds) (by omega)
        simp only [List.length_cons] at this
        omega

theorem Nat_repr_eq_zero (n : Nat) : Nat.repr n = "0" ↔ n = 0 := by
  constructor
  · intro h
    by_contra hn
    have hd : Nat.toDigits 10 n = ['0'] := by
      have := congrArg String.data h
      simpa [Nat.repr, List.asString] using this
    by_cases hlt : n < 10
    · interval_cases n <;> simp_all [Nat.toDigits, Nat.toDigitsCore, Nat.digitChar]
    · have h10 : n / 10 ≠ 0 := by omega
      have hlen := congrArg List.length hd
      simp only [Nat.toDigits, Nat.toDigitsCore, h10, if_false] at hlen
      have := toDigitsCore_length_ge n (n / 10) [Nat.digitChar (n % 10)] (by omega)
      simp at hlen this
      omega
  · rintro rfl; rfl

theorem processor.FormatUint_eq_zero (n : Nat) : processor.FormatUint n = "0" ↔ n = 0 := by
  simpa [processor.FormatUint, toString] using Nat_repr_eq_zero n

theorem processor.FormatInt_eq_zero (i : Int) : processor.FormatInt i = "0" ↔ i = 0 := by
  cases i with
  | ofNat m =>
    have := Nat_repr_eq_zero m
    simpa [processor.FormatInt, toString, Int.repr] using this
  | negSucc m =>
    simp only [processor.FormatInt, toString, Int.repr]
    constructor
    · intro h
      have := congrArg String.data h
      simp [String.data_append] at this
    · intro h; cases h

theorem lookup_filter_ne {κ α : Type} [BEq κ] [LawfulBEq κ] (l : List (κ × α)) (k k' : κ)
    (h : k' ≠ k) : (l.filter (fun p => p.1 != k)).lookup k' = l.lookup k' := by
  induction l with
  | nil => rfl
  | cons p l ih =>
    obtain ⟨a, b⟩ := p
    by_cases hak : a = k
    · subst hak
      have h1 : (k' == a) = false := by simpa using h
      simp [List.filter_cons, List.lookup_cons, h1, ih]
    · have h2 : (a != k) = true := by simpa using hak
      simp only [List.filter_cons, h2, if_true, List.lookup_cons, ih]

theorem lookup_filter_self {κ α : Type} [BEq κ] [LawfulBEq κ] (l : List (κ × α)) (k : κ) :
    (l.filter (fun p => p.1 != k)).lookup k = none := by
  induction l with
  | nil => rfl
  | cons p l ih =>
    obtain ⟨a, b⟩ := p
    by_cases hak : a = k
    · subst hak
      simp [List.filter_cons, ih]
    · have h2 : (a != k) = true := by simpa using hak
      have h3 : (k == a) = false := by simpa using (Ne.symm hak)
      simp only [List.filter_cons, h2, if_true, List.lookup_cons, h3, ih]

theorem errorcode.Codes.get_after_set (codes : errorcode.Codes) (c : Int) (m : String) :
    (codes.set c m).get c = some m := by
  simp [errorcode.Codes.get, errorcode.Codes.set, List.lookup_cons]

theorem errorcode.Codes.get_other_after_set (codes : errorcode.Codes) (c c' : Int) (m : String)
    (h : c' ≠ c) : (codes.set c m).get c' = codes.get c' := by
  have h1 : (c' == c) = false := by simpa using h
  simp only [errorcode.Codes.get, errorcode.Codes.set, List.lookup_cons, h1]
  exact lookup_filter_ne codes c c' h

/-- The test that the default branch of `isEmpty` makes for an `Address` or a `Hash`,
`len(String()) == 0`, never holds, because `String()` begins with "0x". -/
theorem processor.isEmpty_address_hash (body : String) :
    processor.isEmpty (.address body) = false ∧ processor.isEmpty (.hash body) = false := by
  have hhex : ((processor.hexString body).length == 0) = false := by
    have h2 : "0x".length = 2 := rfl
    simp [processor.hexString, String.length_append, h2]
  constructor
  · simp only [processor.isEmpty, Value.Kind, Value.Interface]
    exact hhex
  · simp only [processor.isEmpty, Value.Kind, Value.Interface]
    exact hhex

/-- C25 (amended): `isEmpty` is true for the empty string, for the nil interface and
the nil value of a pointer, channel, function, map, interface or slice type, for the
integer zero, signed or unsigned, and for false; it is false for a non-empty string,
for a non-nil pointer, channel, function, map, interface or slice, for a non-zero
integer and for true. It is true for every value of another kind, whether a struct, an
array, a float or a complex number, that is neither an `Address` nor a `Hash`. -/
theorem processor.isEmpty_by_kind :
    (∀ s : String, processor.isEmpty (.str s) = decide (s = "")) ∧
    (∀ s : String, processor.isEmpty (.subID s) = decide (s = "")) ∧
    processor.isEmpty .nil = true ∧
    (∀ t : GoType,
      t.Kind ∈ [reflect.Kind.Ptr, reflect.Kind.Chan, reflect.Kind.Func, reflect.Kind.Map,
        reflect.Kind.Interface, reflect.Kind.Slice] →
      processor.isEmpty (.nilRef t) = true) ∧
    (∀ v : Value, processor.isEmpty (.ptr v) = false) ∧
    (∀ (k : RefKind) (tag : String), processor.isEmpty (.ref k tag) = false) ∧
    (∀ m : RawMessage, processor.isEmpty (.rawMessage m) = false) ∧
    (∀ d : Value, processor.isEmpty (.iface d) = false) ∧
    (∀ e : GoErr, processor.isEmpty (.err e) = false) ∧
    (∀ n : Nat, processor.isEmpty (.context n) = false) ∧
    (∀ i : Int, processor.isEmpty (.int i) = decide (i = 0)) ∧
    (∀ n : Nat, processor.isEmpty (.uint n) = decide (n = 0)) ∧
    (∀ b : Bool, processor.isEmpty (.bool b) = !b) ∧
    (∀ (k : PlainKind) (typeName repr : String),
      processor.isEmpty (.other k typeName repr) = true) := by
  refine ⟨?_, ?_, rfl, ?_, ?_, ?_, ?_, ?_, ?_, ?_, ?_, ?_, ?_, ?_⟩
  · intro s
    simp only [processor.isEmpty, Value.Kind, Value.getString]
    by_cases h : s = "" <;> simp [h]
  · intro s
    simp only [processor.isEmpty, Value.Kind, Value.getString]
    by_cases h : s = "" <;> simp [h]
  · intro t ht
    simp only [List.mem_cons, List.mem_singleton, List.not_mem_nil, or_false] at ht
    rcases ht with h | h | h | h | h | h <;>
      simp [processor.isEmpty, Value.Kind, h, Value.IsNil]
  · intro v; rfl
  · intro k tag; cases k <;> rfl
  · intro m; rfl
  · intro d; rfl
  · intro e; rfl
  · intro n; rfl
  · intro i
    have := processor.FormatInt_eq_zero i
    simp only [processor.isEmpty, Value.Kind, Value.getInt]
    by_cases hi : i = 0
    · subst hi; rfl
    · simp [hi, this]
  · intro n
    have := processor.FormatUint_eq_zero n
    simp only [processor.isEmpty, Value.Kind, Value.getUint]
    by_cases hn : n = 0
    · subst hn; rfl
    · simp [hn, this]
  · intro b; cases b <;> rfl
  · intro k typeName repr
    cases k <;> rfl

/-- C25 (counterexample): a value of the struct type `api.Transaction`, which is neither
an `Address` nor a `Hash`, is empty for `isEmpty`. -/
theorem isEmpty_struct_is_empty :
    processor.isEmpty demo.transactionValue = true := by
  rfl

/-- C26: on a table without the code `c`, `New` returns `c` and the table afterwards
maps `c` to the message and every other code as before; on a table that has `c`, `New`
panics with "error code: c already exist" and the table stays as it was. -/
theorem errorcode.New_registers_once (codes : errorcode.Codes) (c : Int) (message : String) :
    (codes.get c = none →
      (∃ codes2 : errorcode.Codes,
        errorcode.New codes c message = (Outcome.returned c, codes2) ∧
        codes2.get c = some message ∧
        ∀ c2 : Int, c2 ≠ c → codes2.get c2 = codes.get c2)) ∧
    (∀ old : String, codes.get c = some old →
      errorcode.New codes c message =
        (Outcome.panicked ("error code: " ++ toString c ++ " already exist"), codes)) := by
  constructor
  · intro h
    refine ⟨codes.set c message, ?_, errorcode.Codes.get_after_set codes c message, ?_⟩
    · simp only [errorcode.New, h]
    · intro c2 hc2
      exact errorcode.Codes.get_other_after_set codes c c2 message hc2
  · intro old h
    simp only [errorcode.New, h]

/-- C27 (amended): two distinct error types of `errors.go` other than the pair
`CallbackError` and `ShutdownError` return different codes. -/
theorem errors.Code_distinct (k1 k2 : errors.ErrorKind) (hne : k1 ≠ k2)
    (hpair : ¬ ((k1 = .CallbackError ∧ k2 = .ShutdownError) ∨
      (k1 = .ShutdownError ∧ k2 = .CallbackError))) :
    k1.Code ≠ k2.Code := by
  revert k1 k2
  decide

/-- The witness of `Code_distinct`: `DBNotFoundError` and `CertError`. -/
theorem Code_distinct_witness :
    errors.ErrorKind.DBNotFoundError ≠ errors.ErrorKind.CertError ∧
    errors.ErrorKind.DBNotFoundError.Code ≠ errors.ErrorKind.CertError.Code :=
  ⟨by decide, errors.Code_distinct .DBNotFoundError .CertError (by decide) (by decide)⟩

/-- C27 (counterexample): `CallbackError` and `ShutdownError` are distinct error types
and both return the code -32000. -/
theorem Code_shared_by_callback_and_shutdown :
    errors.ErrorKind.CallbackError ≠ errors.ErrorKind.ShutdownError ∧
    errors.ErrorKind.CallbackError.Code = -32000 ∧
    errors.ErrorKind.ShutdownError.Code = -32000 ∧
    (RPCError.CallbackError "boom").Code = RPCError.ShutdownError.Code := by
  decide

/-- C28: the codes of the five core error types: InvalidMessageError -32700,
InvalidRequestError -32600, MethodNotFoundError -32601, InvalidParamsError -32602,
CallbackError -32000, whatever the fields of the error hold. -/
theorem RPCError.Code_core (msg service method : String) :
    (RPCError.InvalidMessageError msg).Code = -32700 ∧
    (RPCError.InvalidRequestError msg).Code = -32600 ∧
    (RPCError.MethodNotFoundError service method).Code = -32601 ∧
    (RPCError.InvalidParamsError msg).Code = -32602 ∧
    (RPCError.CallbackError msg).Code = -32000 ∧
    errors.ErrorKind.InvalidMessageError.Code = -32700 ∧
    errors.ErrorKind.InvalidRequestError.Code = -32600 ∧
    errors.ErrorKind.MethodNotFoundError.Code = -32601 ∧
    errors.ErrorKind.InvalidParamsError.Code = -32602 ∧
    errors.ErrorKind.CallbackError.Code = -32000 := by
  refine ⟨?_, ?_, ?_, ?_, ?_, ?_, ?_, ?_, ?_, ?_⟩ <;> rfl

/-- C29: for a code registered with a non-empty message `m`, `NewError` with the empty
format has that code and the message `m`, and with a non-empty format it has that code
and the message `m`, a colon and a blank, and the formatted detail; for a code that is
not registered the message is the formatted detail alone, the empty string when the
format is empty. -/
theorem errorcode.NewError_message (sprintf : String → List Value → String)
    (codes : errorcode.Codes) (c : Int) (m : String) (hreg : codes.get c = some m)
    (hm : m ≠ "") :
    (∀ v : List Value,
      (errorcode.NewError sprintf codes c "" v).Code = c ∧
      (errorcode.NewError sprintf codes c "" v).Error = m) ∧
    (∀ (f : String) (v : List Value), f ≠ "" →
      (errorcode.NewError sprintf codes c f v).Code = c ∧
      (errorcode.NewError sprintf codes c f v).Error = m ++ ": " ++ sprintf f v) ∧
    (∀ (c2 : Int) (f : String) (v : List Value), codes.get c2 = none →
      (errorcode.NewError sprintf codes c2 f v).Code = c2 ∧
      (errorcode.NewError sprintf codes c2 f v).Error = if f = "" then "" else sprintf f v) := by
  refine ⟨?_, ?_, ?_⟩
  · intro v
    simp [errorcode.NewError, hreg, errorcode.customError.Code, errorcode.customError.Error]
  · intro f v hf
    simp [errorcode.NewError, hreg, hf, hm, errorcode.customError.Code,
      errorcode.customError.Error, String.append_assoc]
  · intro c2 f v hnone
    by_cases hf : f = ""
    · simp [errorcode.NewError, hnone, hf, errorcode.customError.Code,
        errorcode.customError.Error]
    · simp [errorcode.NewError, hnone, hf, errorcode.customError.Code,
        errorcode.customError.Error]

/-- The witness of `NewError_message`: the code -32001 registered with "DB not found",
and the code -32013, which the table does not hold. -/
theorem NewError_message_witness :
    (errorcode.NewError demo.sprintf demo.codes (-32001) "" []).Error = "DB not found" ∧
    (errorcode.NewError demo.sprintf demo.codes (-32001) "not found transaction %s"
      [.str "0xab"]).Error = "DB not found: not found transaction 0xab" ∧
    (errorcode.NewError demo.sprintf demo.codes (-32013) "not found transaction %s"
      [.str "0xab"]).Error = "not found transaction 0xab" :=
  have h := errorcode.NewError_message demo.sprintf demo.codes (-32001) "DB not found"
    (by decide) (by decide)
  ⟨(h.1 []).2, (h.2.1 "not found transaction %s" [.str "0xab"] (by decide)).2,
    (h.2.2 (-32013) "not found transaction %s" [.str "0xab"] (by decide)).2⟩

/-- C30: the codec's `CreateResponse` gives the version "2.0", the given id, the code 0,
the message "SUCCESS" and no info, and its result is the reply itself when the reply is
not of a hex-number type; `CreateErrorResponse` gives the version "2.0", the given id,
the code and message of the error, and neither result nor info;
`CreateErrorResponseWithInfo` gives the same envelope with the info set. -/
theorem server.codec_envelopes (hex : server.HexFmt) (id reply info : Value) (err : RPCError) :
    (server.CreateResponse hex id reply).Version = "2.0" ∧
    (server.CreateResponse hex id reply).ID = id ∧
    (server.CreateResponse hex id reply).Code = 0 ∧
    (server.CreateResponse hex id reply).Message = "SUCCESS" ∧
    (server.CreateResponse hex id reply).Info = Value.nil ∧
    (hex.isHexNum reply = false → (server.CreateResponse hex id reply).Result = reply) ∧
    server.CreateErrorResponse id err =
      { Version := "2.0", ID := id, Code := err.Code, Message := err.Error,
        Result := Value.nil, Info := Value.nil } ∧
    server.CreateErrorResponseWithInfo id err info =
      { Version := "2.0", ID := id, Code := err.Code, Message := err.Error,
        Result := Value.nil, Info := info } := by
  refine ⟨?_, ?_, ?_, ?_, ?_, ?_, rfl, rfl⟩
  all_goals
    simp only [server.CreateResponse]
    split <;> simp_all [server.JSONRPCVersion]

/-! ## The methods of a receiver and the merge of a service -/

theorem GoMap.get_set_self {α : Type} (m : GoMap α) (k : String) (v : α) :
    (m.set k v).get k = some v := by
  simp [GoMap.get, GoMap.set, List.lookup_cons]

theorem GoMap.get_set_ne {α : Type} (m : GoMap α) (k k2 : String) (v : α) (h : k2 ≠ k) :
    (m.set k v).get k2 = m.get k2 := by
  have h1 : (k2 == k) = false := by simpa using h
  simp only [GoMap.get, GoMap.set, List.lookup_cons, h1]
  exact lookup_filter_ne m k k2 h

theorem GoMap.mem_set {α : Type} (m : GoMap α) (k : String) (v : α) (p : String × α)
    (hp : p ∈ m.set k v) : p = (k, v) ∨ p ∈ m := by
  simp only [GoMap.set, List.mem_cons, List.mem_filter] at hp
  rcases hp with h | h
  · exact Or.inl h
  · exact Or.inr h.1

theorem GoMap.nodup_set {α : Type} (m : GoMap α) (k : String) (v : α)
    (h : (m.map Prod.fst).Nodup) : ((m.set k v).map Prod.fst).Nodup := by
  simp only [GoMap.set, List.map_cons, List.nodup_cons]
  constructor
  · intro hk
    obtain ⟨p, hp, hpk⟩ := List.mem_map.mp hk
    have := (List.mem_filter.mp hp).2
    simp [hpk] at this
  · exact h.sublist ((List.filter_sublist m).map Prod.fst)

theorem GoMap.get_eq_none {α : Type} (m : GoMap α) (k : String)
    (h : k ∉ m.map Prod.fst) : m.get k = none := by
  induction m with
  | nil => rfl
  | cons p m ih =>
    obtain ⟨a, b⟩ := p
    simp only [List.map_cons, List.mem_cons, not_or] at h
    have h1 : (k == a) = false := by simpa using h.1
    simp only [GoMap.get, List.lookup_cons, h1]
    exact ih h.2

theorem GoMap.get_foldl_set {α : Type} (key : String × α → String) :
    ∀ (l base : GoMap α), (∀ p ∈ l, key p = p.1) → (l.map Prod.fst).Nodup →
      ∀ name : String,
        (l.foldl (fun acc p => acc.set (key p) p.2) base).get name =
          (l.get name).or (base.get name) := by
  intro l
  induction l with
  | nil => intro base _ _ name; rfl
  | cons p l ih =>
    intro base hkey hnd name
    obtain ⟨a, b⟩ := p
    have hka : key (a, b) = a := hkey (a, b) (List.mem_cons_self _ _)
    simp only [List.map_cons, List.nodup_cons] at hnd
    simp only [List.foldl_cons, hka]
    rw [ih (base.set a b) (fun q hq => hkey q (List.mem_cons_of_mem _ hq)) hnd.2 name]
    by_cases hn : name = a
    · subst hn
      have h1 : GoMap.get l name = none := GoMap.get_eq_none l name hnd.1
      have h2 : GoMap.get ((name, b) :: l) name = some b := by
        simp [GoMap.get, List.lookup_cons]
      rw [h1, h2, GoMap.get_set_self]; rfl
    · have h1 : (name == a) = false := by simpa using hn
      have h2 : GoMap.get ((a, b) :: l) name = GoMap.get l name := by
        simp only [GoMap.get, List.lookup_cons, h1]
      rw [h2, GoMap.get_set_ne base a name b hn]

theorem processor.classify_cases {W : Type} (u : Unicode) (rcvr : Value)
    (m : processor.RMethod W) :
    processor.classify u rcvr m = .skipped ∨
    processor.classify u rcvr m =
      .subscription (processor.formatName u m.Name) (processor.subscriptionDescriptor rcvr m) ∨
    processor.classify u rcvr m =
      .plain (processor.formatName u m.Name) (processor.plainDescriptor rcvr m) := by
  simp only [processor.classify, processor.plainDescriptor, processor.subscriptionDescriptor,
    processor.domainArgs, processor.leadingContext]
  split_ifs <;> first
    | exact Or.inl rfl
    | exact Or.inr (Or.inl rfl)
    | exact Or.inr (Or.inr rfl)
    | (split <;> first
        | exact Or.inl rfl
        | exact Or.inr (Or.inr rfl))

theorem processor.classify_subscription {W : Type} (u : Unicode) (rcvr : Value)
    (m : processor.RMethod W) (hexp : m.PkgPath = "") (hps : processor.isPubSub m.mtype = true) :
    processor.classify u rcvr m =
      if (processor.domainArgs m.mtype).all (processor.isExportedOrBuiltinType u) then
        .subscription (processor.formatName u m.Name) (processor.subscriptionDescriptor rcvr m)
      else .skipped := by
  simp only [processor.classify, processor.subscriptionDescriptor,
    processor.domainArgs, processor.leadingContext, hexp, hps]
  split_ifs <;> simp_all

theorem processor.classify_plain {W : Type} (u : Unicode) (rcvr : Value)
    (m : processor.RMethod W) (hexp : m.PkgPath = "")
    (hps : processor.isPubSub m.mtype = false) :
    processor.classify u rcvr m =
      if (processor.domainArgs m.mtype).all (processor.isExportedOrBuiltinType u) = true ∧
          m.mtype.Out.all (processor.isExportedOrBuiltinType u) = true ∧
          ¬ (processor.errorPos m.mtype.Out 0 ≥ 0 ∧
              processor.errorPos m.mtype.Out 0 ≠ (m.mtype.Out.length : Int) - 1) ∧
          (m.mtype.Out.length = 0 ∨ m.mtype.Out.length = 1 ∨
            (m.mtype.Out.length = 2 ∧ processor.errorPos m.mtype.Out 0 ≠ -1)) then
        .plain (processor.formatName u m.Name) (processor.plainDescriptor rcvr m)
      else .skipped := by
  simp only [processor.classify, processor.plainDescriptor,
    processor.domainArgs, processor.leadingContext, hexp, hps]
  generalize (List.drop (if (decide (m.mtype.In.length ≥ 2) &&
      m.mtype.In[1]? == some processor.contextType) = true then 2 else 1) m.mtype.In).all
      (processor.isExportedOrBuiltinType u) = A
  generalize m.mtype.Out.all (processor.isExportedOrBuiltinType u) = B
  cases A
  · simp
  · cases B
    · simp
    · by_cases h3 : (processor.errorPos m.mtype.Out 0 ≥ 0 ∧
              processor.errorPos m.mtype.Out 0 ≠ (m.mtype.Out.length : Int) - 1)
      · simp [h3]
      · simp only [h3, ne_eq, not_true_eq_false, if_false, Bool.not_true,
          Bool.false_eq_true, not_false_eq_true, true_and]
        split <;> simp_all

theorem processor.errorPos_last (out : List GoType) :
    (¬ (processor.errorPos out 0 ≥ 0 ∧ processor.errorPos out 0 ≠ (out.length : Int) - 1) ∧
      (out.length = 0 ∨ out.length = 1 ∨
        (out.length = 2 ∧ processor.errorPos out 0 ≠ -1))) ↔
    (out.length ≤ 2 ∧
      (out.length = 2 → ∃ t : GoType, out[1]? = some t ∧ processor.isErrorType t = true) ∧
      (∀ (i : Nat) (t : GoType), out[i]? = some t → processor.isErrorType t = true →
        i + 1 = out.length)) := by
  rcases out with _ | ⟨a, _ | ⟨b, _ | ⟨c, rest⟩⟩⟩
  · simp [processor.errorPos]
  · cases ha : processor.isErrorType a
    · simp [processor.errorPos, ha]
      intro i t hi ht
      cases i with
      | zero => simp at hi; subst hi; simp [ha] at ht
      | succ j => simp at hi
    · simp [processor.errorPos, ha]
      intro i t hi _
      cases i with
      | zero => rfl
      | succ j => simp at hi
  · cases ha : processor.isErrorType a <;> cases hb : processor.isErrorType b
    · simp [processor.errorPos, ha, hb]
    · simp [processor.errorPos, ha, hb]
      intro i t hi ht
      rcases i with _ | _ | j
      · simp at hi; subst hi; simp [ha] at ht
      · rfl
      · simp at hi
    · simp [processor.errorPos, ha, hb]
    · simp [processor.errorPos, ha, hb]
      exact ⟨0, a, by simp, ha, by omega⟩
  · simp [processor.errorPos]

theorem processor.suitableCallbacks_get {W : Type} (u : Unicode) (rcvr : Value)
    (m : processor.RMethod W) :
    ∀ (methods : List (processor.RMethod W)) (acc : GoMap (processor.callback W) ×
        GoMap (processor.callback W)),
      (∀ m2 ∈ methods, processor.formatName u m2.Name = processor.formatName u m.Name →
        m2 = m) →
      ((m ∈ methods →
        ((methods.foldl
          (fun acc method =>
            match processor.classify u rcvr method with
            | .skipped => acc
            | .subscription mname h => (acc.1, acc.2.set mname h)
            | .plain mname h => (acc.1.set mname h, acc.2)) acc).1.get
            (processor.formatName u m.Name) =
          match processor.classify u rcvr m with
          | .plain _ h => some h
          | _ => acc.1.get (processor.formatName u m.Name)) ∧
        ((methods.foldl
          (fun acc method =>
            match processor.classify u rcvr method with
            | .skipped => acc
            | .subscription mname h => (acc.1, acc.2.set mname h)
            | .plain mname h => (acc.1.set mname h, acc.2)) acc).2.get
            (processor.formatName u m.Name) =
          match processor.classify u rcvr m with
          | .subscription _ h => some h
          | _ => acc.2.get (processor.formatName u m.Name))) ∧
      (m ∉ methods →
        (methods.foldl
          (fun acc method =>
            match processor.classify u rcvr method with
            | .skipped => acc
            | .subscription mname h => (acc.1, acc.2.set mname h)
            | .plain mname h => (acc.1.set mname h, acc.2)) acc).1.get
            (processor.formatName u m.Name) = acc.1.get (processor.formatName u m.Name) ∧
        (methods.foldl
          (fun acc method =>
            match processor.classify u rcvr method with
            | .skipped => acc
            | .subscription mname h => (acc.1, acc.2.set mname h)
            | .plain mname h => (acc.1.set mname h, acc.2)) acc).2.get
            (processor.formatName u m.Name) = acc.2.get (processor.formatName u m.Name))) := by
  intro methods
  induction methods with
  | nil =>
    intro acc _
    exact ⟨fun h => absurd h (List.not_mem_nil m), fun _ => ⟨rfl, rfl⟩⟩
  | cons m0 rest ih =>
    intro acc hkey
    have hrest : ∀ m2 ∈ rest,
        processor.formatName u m2.Name = processor.formatName u m.Name → m2 = m :=
      fun m2 h2 => hkey m2 (List.mem_cons_of_mem _ h2)
    simp only [List.foldl_cons]
    by_cases hk : processor.formatName u m0.Name = processor.formatName u m.Name
    · have h0 : m0 = m := hkey m0 (List.mem_cons_self _ _) hk
      subst h0
      refine ⟨fun _ => ?_, fun hn => absurd (List.mem_cons_self _ _) hn⟩
      by_cases hin : m0 ∈ rest
      · have := (ih (match processor.classify u rcvr m0 with
            | .skipped => acc
            | .subscription mname h => (acc.1, acc.2.set mname h)
            | .plain mname h => (acc.1.set mname h, acc.2)) hrest).1 hin
        rw [this.1, this.2]
        rcases processor.classify_cases u rcvr m0 with hc | hc | hc <;> simp [hc]
      · have := (ih (match processor.classify u rcvr m0 with
            | .skipped => acc
            | .subscription mname h => (acc.1, acc.2.set mname h)
            | .plain mname h => (acc.1.set mname h, acc.2)) hrest).2 hin
        rw [this.1, this.2]
        rcases processor.classify_cases u rcvr m0 with hc | hc | hc <;>
          simp [hc, GoMap.get_set_self]
    · have hne : m0 ≠ m := fun h => hk (by rw [h])
      have hne2 : processor.formatName u m.Name ≠ processor.formatName u m0.Name :=
        fun h => hk h.symm
      have hstep :
          (match processor.classify u rcvr m0 with
            | .skipped => acc
            | .subscription mname h => (acc.1, acc.2.set mname h)
            | .plain mname h => (acc.1.set mname h, acc.2)).1.get
              (processor.formatName u m.Name) = acc.1.get (processor.formatName u m.Name) ∧
          (match processor.classify u rcvr m0 with
            | .skipped => acc
            | .subscription mname h => (acc.1, acc.2.set mname h)
            | .plain mname h => (acc.1.set mname h, acc.2)).2.get
              (processor.formatName u m.Name) = acc.2.get (processor.formatName u m.Name) := by
        rcases processor.classify_cases u rcvr m0 with hc | hc | hc <;>
          simp [hc, GoMap.get_set_ne _ _ _ _ hne2]
      have := ih (match processor.classify u rcvr m0 with
            | .skipped => acc
            | .subscription mname h => (acc.1, acc.2.set mname h)
            | .plain mname h => (acc.1.set mname h, acc.2)) hrest
      rw [hstep.1, hstep.2] at this
      refine ⟨fun hin => ?_, fun hn => ?_⟩
      · have hin2 : m ∈ rest := by
          rcases List.mem_cons.mp hin with h | h
          · exact absurd h.symm hne
          · exact h
        exact this.1 hin2
      · exact this.2 (fun h => hn (List.mem_cons_of_mem _ h))

theorem processor.suitableCallbacks_entry {W : Type} (u : Unicode) (rcvr : Value)
    (methods : List (processor.RMethod W)) (m : processor.RMethod W) (hm : m ∈ methods)
    (hkey : ∀ m2 ∈ methods,
      processor.formatName u m2.Name = processor.formatName u m.Name → m2 = m) :
    (processor.suitableCallbacks u rcvr methods).1.get (processor.formatName u m.Name) =
      (match processor.classify u rcvr m with
        | .plain _ h => some h
        | _ => none) ∧
    (processor.suitableCallbacks u rcvr methods).2.get (processor.formatName u m.Name) =
      (match processor.classify u rcvr m with
        | .subscription _ h => some h
        | _ => none) := by
  have := (processor.suitableCallbacks_get u rcvr m methods ([], []) hkey).1 hm
  simpa [processor.suitableCallbacks, GoMap.get] using this

theorem processor.isPubSub_iff (mt : processor.FuncType) :
    processor.isPubSub mt = true ↔
      ∃ (rcv in1 : GoType) (rest : List GoType) (out0 out1 : GoType),
        mt.In = rcv :: in1 :: rest ∧ mt.Out = [out0, out1] ∧
        processor.isContextType in1 = true ∧ processor.isIDType out0 = true ∧
        processor.isErrorType out1 = true := by
  obtain ⟨ins, outs⟩ := mt
  simp only [processor.isPubSub]
  rcases ins with _ | ⟨rcv, _ | ⟨in1, rest⟩⟩
  · simp
  · simp
  · rcases outs with _ | ⟨o0, _ | ⟨o1, _ | ⟨o2, more⟩⟩⟩
    · simp
    · simp
    · simp [Bool.and_eq_true, and_assoc]
    · simp

theorem processor.suitableCallbacks_keys {W : Type} (u : Unicode) (rcvr : Value) :
    ∀ (methods : List (processor.RMethod W)) (acc : GoMap (processor.callback W) ×
        GoMap (processor.callback W)),
      ((∀ p ∈ acc.1, processor.formatName u p.2.method.Name = p.1) ∧
        (acc.1.map Prod.fst).Nodup ∧
        (∀ p ∈ acc.2, processor.formatName u p.2.method.Name = p.1) ∧
        (acc.2.map Prod.fst).Nodup) →
      ((∀ p ∈ (methods.foldl
          (fun acc method =>
            match processor.classify u rcvr method with
            | .skipped => acc
            | .subscription mname h => (acc.1, acc.2.set mname h)
            | .plain mname h => (acc.1.set mname h, acc.2)) acc).1,
          processor.formatName u p.2.method.Name = p.1) ∧
        ((methods.foldl
          (fun acc method =>
            match processor.classify u rcvr method with
            | .skipped => acc
            | .subscription mname h => (acc.1, acc.2.set mname h)
            | .plain mname h => (acc.1.set mname h, acc.2)) acc).1.map Prod.fst).Nodup ∧
        (∀ p ∈ (methods.foldl
          (fun acc method =>
            match processor.classify u rcvr method with
            | .skipped => acc
            | .subscription mname h => (acc.1, acc.2.set mname h)
            | .plain mname h => (acc.1.set mname h, acc.2)) acc).2,
          processor.formatName u p.2.method.Name = p.1) ∧
        ((methods.foldl
          (fun acc method =>
            match processor.classify u rcvr method with
            | .skipped => acc
            | .subscription mname h => (acc.1, acc.2.set mname h)
            | .plain mname h => (acc.1.set mname h, acc.2)) acc).2.map Prod.fst).Nodup) := by
  intro methods
  induction methods with
  | nil => intro acc h; exact h
  | cons m0 rest ih =>
    intro acc h
    simp only [List.foldl_cons]
    apply ih
    obtain ⟨h1, h2, h3, h4⟩ := h
    rcases processor.classify_cases u rcvr m0 with hc | hc | hc
    · simp only [hc]; exact ⟨h1, h2, h3, h4⟩
    · simp only [hc]
      refine ⟨h1, h2, ?_, GoMap.nodup_set _ _ _ h4⟩
      intro p hp
      rcases GoMap.mem_set _ _ _ _ hp with h | h
      · subst h; rfl
      · exact h3 p h
    · simp only [hc]
      refine ⟨?_, GoMap.nodup_set _ _ _ h2, h3, h4⟩
      intro p hp
      rcases GoMap.mem_set _ _ _ _ hp with h | h
      · subst h; rfl
      · exact h1 p h

/-- C21 (amended): when the table holds a service under the non-empty name `s`, and a
receiver that is not nil and whose type is exported yields callbacks or subscriptions,
not both empty, then registering it under `s` returns no error; afterwards the service
under `s` has every callback name of the old service or of the receiver, a name of the
receiver with the receiver's descriptor, and likewise for the subscriptions; every other
service is unchanged. -/
theorem processor.registerAPIService_merges {W : Type} (u : Unicode)
    (jrpi : processor.JsonRpcProcessorImpl W) (s : String) (rcvr : processor.Receiver W)
    (regsvc : processor.service W)
    (hs : s ≠ "") (hval : processor.indirectInvalid rcvr.val = false)
    (hexp : processor.isExported u (processor.indirectType rcvr.typ).Name = true)
    (hreg : jrpi.services.get s = some regsvc)
    (hsome : ¬ ((processor.suitableCallbacks u rcvr.val rcvr.methods).1.length = 0 ∧
      (processor.suitableCallbacks u rcvr.val rcvr.methods).2.length = 0)) :
    (processor.registerAPIService u jrpi s rcvr).1 = .returned none ∧
    (∃ svc : processor.service W,
      (processor.registerAPIService u jrpi s rcvr).2.services.get s = some svc ∧
      svc.name = regsvc.name ∧ svc.typ = regsvc.typ ∧
      (∀ name : String, svc.callbacks.get name =
        ((processor.suitableCallbacks u rcvr.val rcvr.methods).1.get name).or
          (regsvc.callbacks.get name)) ∧
      (∀ name : String, svc.subscriptions.get name =
        ((processor.suitableCallbacks u rcvr.val rcvr.methods).2.get name).or
          (regsvc.subscriptions.get name))) ∧
    (∀ s2 : String, s2 ≠ s →
      (processor.registerAPIService u jrpi s rcvr).2.services.get s2 =
        jrpi.services.get s2) := by
  have hinv := processor.suitableCallbacks_keys u rcvr.val rcvr.methods ([], [])
    ⟨by simp, by simp, by simp, by simp⟩
  have hexp2 : (!processor.isExported u (processor.indirectType rcvr.typ).Name) = false := by
    simp [hexp]
  simp only [processor.registerAPIService, hs, if_false, hval, hexp2, Bool.false_eq_true,
    hsome, hreg]
  refine ⟨trivial, ⟨_, GoMap.get_set_self _ _ _, rfl, rfl, ?_, ?_⟩, ?_⟩
  · intro name
    exact GoMap.get_foldl_set
      (fun p : String × processor.callback W => processor.formatName u p.2.method.Name)
      (processor.suitableCallbacks u rcvr.val rcvr.methods).1 regsvc.callbacks
      hinv.1 hinv.2.1 name
  · intro name
    exact GoMap.get_foldl_set
      (fun p : String × processor.callback W => processor.formatName u p.2.method.Name)
      (processor.suitableCallbacks u rcvr.val rcvr.methods).2 regsvc.subscriptions
      hinv.2.2.1 hinv.2.2.2 name
  · intro s2 hs2
    exact GoMap.get_set_ne _ _ _ _ hs2

/-- The witness of `registerAPIService_merges`: the receiver of `api.Transaction`
registered under `tx` on a table that holds `tx` and `test`. -/
theorem registerAPIService_merges_witness :
    (processor.registerAPIService demo.ascii demo.jrpi "tx" demo.txReceiver).1 =
      .returned none ∧
    (∀ s2 : String, s2 ≠ "tx" →
      (processor.registerAPIService demo.ascii demo.jrpi "tx" demo.txReceiver).2.services.get s2
        = demo.jrpi.services.get s2) :=
  have h := processor.registerAPIService_merges demo.ascii demo.jrpi "tx" demo.txReceiver
    { name := "tx", typ := .ptr (.base "Transaction" "api" .Struct false),
      callbacks := [("sendRawTransaction", demo.sendRawTransaction)], subscriptions := [] }
    (by decide) rfl rfl rfl (fun h => absurd h.1 (by decide))
  ⟨h.1, h.2.2⟩

/-- C21 (counterexample): the table holds the service `tx`, and the receiver of the
type `*counter` yields one callback, yet registering it under `tx` returns
`ErrNotExported`, because the name of its type is not exported; and the nil pointer of
type `*api.Transaction`, whose type is exported and yields two callbacks, makes the
registration under `tx` end in a panic. -/
theorem registerAPIService_merge_refused :
    (demo.jrpi.services.get "tx").isSome = true ∧
    (processor.suitableCallbacks demo.ascii demo.counterReceiver.val
      demo.counterReceiver.methods).1.length = 1 ∧
    (processor.registerAPIService demo.ascii demo.jrpi "tx" demo.counterReceiver).1 =
      .returned (some scommon.ErrNotExported) ∧
    (processor.suitableCallbacks demo.ascii demo.nilTxReceiver.val
      demo.nilTxReceiver.methods).1.length = 2 ∧
    (processor.registerAPIService demo.ascii demo.jrpi "tx" demo.nilTxReceiver).1 =
      .panicked "reflect: call of reflect.Value.Type on zero Value" :=
  ⟨rfl, rfl, rfl, rfl, rfl⟩

/-- C22 (amended): for an exported method of the receiver that is not shaped like a
subscription and whose key `formatName(name)` no other method of the receiver has,
the callbacks map of `suitableCallbacks` holds the method's descriptor under that key
exactly when every parameter type after the receiver and a leading `context.Context`
and every result type is exported or builtin, there are at most two results, with two
results the second is of an error type, and a result of an error type is the last one;
otherwise the key is absent. The key is the method name with its first character
lower-cased and the other characters unchanged. -/
theorem processor.suitableCallbacks_plain {W : Type} (u : Unicode) (rcvr : Value)
    (methods : List (processor.RMethod W)) (m : processor.RMethod W) (hm : m ∈ methods)
    (hkey : ∀ m2 ∈ methods,
      processor.formatName u m2.Name = processor.formatName u m.Name → m2 = m)
    (hexp : m.PkgPath = "") (hps : processor.isPubSub m.mtype = false) :
    ((processor.suitableCallbacks u rcvr methods).1.get (processor.formatName u m.Name) =
        some (processor.plainDescriptor rcvr m) ↔
      ((processor.domainArgs m.mtype).all (processor.isExportedOrBuiltinType u) = true ∧
        m.mtype.Out.all (processor.isExportedOrBuiltinType u) = true ∧
        m.mtype.Out.length ≤ 2 ∧
        (m.mtype.Out.length = 2 →
          ∃ t : GoType, m.mtype.Out[1]? = some t ∧ processor.isErrorType t = true) ∧
        (∀ (i : Nat) (t : GoType), m.mtype.Out[i]? = some t →
          processor.isErrorType t = true → i + 1 = m.mtype.Out.length))) ∧
    ((processor.suitableCallbacks u rcvr methods).1.get (processor.formatName u m.Name) =
        some (processor.plainDescriptor rcvr m) ∨
      (processor.suitableCallbacks u rcvr methods).1.get (processor.formatName u m.Name) =
        none) ∧
    (∀ (c : Char) (cs : List Char), m.Name.data = c :: cs →
      processor.formatName u m.Name = String.mk (u.ToLower c :: cs)) := by
  have hget := (processor.suitableCallbacks_entry u rcvr methods m hm hkey).1
  have hcl := processor.classify_plain u rcvr m hexp hps
  have hrule := processor.errorPos_last m.mtype.Out
  refine ⟨?_, ?_, ?_⟩
  · rw [hget, hcl]
    constructor
    · intro h
      split_ifs at h with hc
      exact ⟨hc.1, hc.2.1, hrule.mp hc.2.2⟩
    · intro h
      have hc := hrule.mpr h.2.2
      rw [if_pos ⟨h.1, h.2.1, hc⟩]
  · rw [hget, hcl]
    split_ifs
    · exact Or.inl rfl
    · exact Or.inr rfl
  · intro c cs hdata
    simp only [processor.formatName, hdata]

/-- The witness of `suitableCallbacks_plain`: the method `SendRawTransaction` of
`api.Transaction`. -/
theorem suitableCallbacks_plain_witness :
    (processor.suitableCallbacks demo.ascii demo.txReceiver.val demo.txReceiver.methods).1.get
        "sendRawTransaction" =
      some (processor.plainDescriptor demo.txReceiver.val demo.SendRawTransactionDecl) :=
  (processor.suitableCallbacks_plain demo.ascii demo.txReceiver.val demo.txReceiver.methods
    demo.SendRawTransactionDecl (by simp [demo.txReceiver])
    (by
      intro m2 h2 hk
      simp only [demo.txReceiver, List.mem_cons, List.mem_singleton, List.not_mem_nil,
        or_false] at h2
      rcases h2 with h | h
      · subst h
        exact absurd hk (by decide)
      · exact h)
    rfl rfl).1.mpr
    ⟨by decide, by decide, by decide, fun _ => ⟨demo.errorT, rfl, rfl⟩, by
      intro i t hi ht
      rcases i with _ | _ | j
      · simp [demo.SendRawTransactionDecl] at hi
        subst hi
        exact absurd ht (by decide)
      · rfl
      · simp [demo.SendRawTransactionDecl] at hi⟩

/-- C22 (counterexample): the type `*Ball` has the exported methods `Kick` and a second
one whose name starts with the Kelvin sign; both satisfy the rule of a callback and both
have the key `kick`. The callbacks map holds under `kick` the descriptor of the second
method, with one argument type, so the method `Kick` is not in the map. -/
theorem suitableCallbacks_key_shared :
    processor.formatName demo.letters demo.Kick.Name = "kick" ∧
    processor.formatName demo.letters demo.KelvinKick.Name = "kick" ∧
    processor.classify demo.letters demo.ballValue demo.Kick =
      .plain "kick" (processor.plainDescriptor demo.ballValue demo.Kick) ∧
    (processor.plainDescriptor demo.ballValue demo.Kick).argTypes = [] ∧
    (∃ h : processor.callback demo.World,
      (processor.suitableCallbacks demo.letters demo.ballValue demo.ballMethods).1.get "kick" =
        some h ∧
      h.argTypes = [demo.stringT] ∧
      (processor.suitableCallbacks demo.letters demo.ballValue demo.ballMethods).1.length = 1) :=
  ⟨by decide, by decide, rfl, rfl, _, rfl, rfl, rfl⟩

/-- C23 (amended): for an exported method of the receiver whose key `formatName(name)`
no other method of the receiver has, the subscriptions map of `suitableCallbacks` holds
the method's descriptor under that key exactly when the first parameter after the
receiver is of a context type, the results are exactly two, of the ID type and of an
error type in this order, and every parameter type after the receiver and a leading
`context.Context` is exported or builtin; otherwise the key is absent. When the key is
in the subscriptions map it is not in the callbacks map. -/
theorem processor.suitableCallbacks_subscription {W : Type} (u : Unicode) (rcvr : Value)
    (methods : List (processor.RMethod W)) (m : processor.RMethod W) (hm : m ∈ methods)
    (hkey : ∀ m2 ∈ methods,
      processor.formatName u m2.Name = processor.formatName u m.Name → m2 = m)
    (hexp : m.PkgPath = "") :
    ((processor.suitableCallbacks u rcvr methods).2.get (processor.formatName u m.Name) =
        some (processor.subscriptionDescriptor rcvr m) ↔
      ((∃ (rcv in1 : GoType) (rest : List GoType) (out0 out1 : GoType),
          m.mtype.In = rcv :: in1 :: rest ∧ m.mtype.Out = [out0, out1] ∧
          processor.isContextType in1 = true ∧ processor.isIDType out0 = true ∧
          processor.isErrorType out1 = true) ∧
        (processor.domainArgs m.mtype).all (processor.isExportedOrBuiltinType u) = true)) ∧
    ((processor.suitableCallbacks u rcvr methods).2.get (processor.formatName u m.Name) =
        some (processor.subscriptionDescriptor rcvr m) ∨
      (processor.suitableCallbacks u rcvr methods).2.get (processor.formatName u m.Name) =
        none) ∧
    ((processor.suitableCallbacks u rcvr methods).2.get (processor.formatName u m.Name) ≠
        none →
      (processor.suitableCallbacks u rcvr methods).1.get (processor.formatName u m.Name) =
        none) := by
  have hget := processor.suitableCallbacks_entry u rcvr methods m hm hkey
  rw [hget.1, hget.2, ← processor.isPubSub_iff]
  cases hps : processor.isPubSub m.mtype
  · rw [processor.classify_plain u rcvr m hexp hps]
    refine ⟨?_, ?_, ?_⟩
    · split_ifs <;> simp
    · split_ifs <;> simp
    · split_ifs <;> simp
  · rw [processor.classify_subscription u rcvr m hexp hps]
    refine ⟨?_, ?_, ?_⟩
    · split_ifs with hc
      · simp [hc]
      · simp [hc]
    · split_ifs <;> simp
    · split_ifs <;> simp

/-- The witness of `suitableCallbacks_subscription`: the method `Subscribe` of `*Feed`. -/
theorem suitableCallbacks_subscription_witness :
    (processor.suitableCallbacks demo.ascii demo.feedValue demo.feedMethods).2.get
        "subscribe" =
      some (processor.subscriptionDescriptor demo.feedValue demo.Subscribe) :=
  (processor.suitableCallbacks_subscription demo.ascii demo.feedValue demo.feedMethods
    demo.Subscribe (by simp [demo.feedMethods])
    (by
      intro m2 h2 hk
      simp only [demo.feedMethods, List.mem_cons, List.mem_singleton, List.not_mem_nil,
        or_false] at h2
      rcases h2 with h | h | h
      · subst h
        exact absurd hk (by decide)
      · exact h
      · subst h
        exact absurd hk (by decide))
    rfl).1.mpr
    ⟨⟨_, _, _, _, _, rfl, rfl, by decide, by decide, by decide⟩, by decide⟩

/-- C23 (counterexample): the exported method `Watch` of `*Feed` takes a
`context.Context` first and returns `(ID, error)`, and no other method has its key, yet
it is in neither map, because its parameter type `filter` is not exported; and of two
subscription methods of `*Ball` that share the key `keep`, the map holds the second
one only. -/
theorem suitableCallbacks_subscription_skipped :
    demo.Watch ∈ demo.feedMethods ∧
    demo.Watch.PkgPath = "" ∧
    demo.Watch.mtype.In[1]? = some processor.contextType ∧
    demo.Watch.mtype.Out = [IDType, demo.errorT] ∧
    (processor.suitableCallbacks demo.ascii demo.feedValue demo.feedMethods).2.get "watch" =
      none ∧
    (processor.suitableCallbacks demo.ascii demo.feedValue demo.feedMethods).1.get "watch" =
      none ∧
    processor.classify demo.letters demo.ballValue demo.Keep =
      .subscription "keep" (processor.subscriptionDescriptor demo.ballValue demo.Keep) ∧
    (processor.subscriptionDescriptor demo.ballValue demo.Keep).argTypes = [] ∧
    (∃ h : processor.callback demo.World,
      (processor.suitableCallbacks demo.letters demo.ballValue
        [demo.Keep, demo.KelvinKeep]).2.get "keep" = some h ∧
      h.argTypes = [demo.stringT]) :=
  ⟨by simp [demo.feedMethods], rfl, rfl, rfl, rfl, rfl, rfl, rfl, _, rfl, rfl⟩

/-- C24 (failing input): the method `Follow(ctx *context.Context) (ID, error)` of
`*Feed` is stored among the subscriptions with `isSubscribe` true, but with `hasCtx`
false and with the pointer type of its context parameter as its only argument type. -/
theorem suitableCallbacks_pointer_context :
    processor.isContextType (.ptr processor.contextType) = true ∧
    (∃ h : processor.callback demo.World,
      (processor.suitableCallbacks demo.ascii demo.feedValue demo.feedMethods).2.get
        "follow" = some h ∧
      h.isSubscribe = true ∧ h.hasCtx = false ∧
      h.argTypes = [.ptr processor.contextType]) :=
  ⟨rfl, _, rfl, rfl, rfl, rfl⟩

/-- The codes of the six core error values are the codes of their types. -/
theorem RPCError.Code_kind (e : RPCError) (k : errors.ErrorKind) (h : e.kind = some k) :
    e.Code = k.Code := by
  cases e <;> simp only [RPCError.kind, Option.some.injEq, reduceCtorEq] at h <;> subst h <;> rfl

/-- A subscription method whose first parameter after the receiver is `context.Context`
itself gets a descriptor with `hasCtx` and `isSubscribe` true and with the parameter
types after the context as `argTypes`. -/
theorem processor.subscriptionDescriptor_context {W : Type} (rcvr : Value)
    (m : processor.RMethod W) (rcv : GoType) (rest : List GoType)
    (h : m.mtype.In = rcv :: processor.contextType :: rest) :
    (processor.subscriptionDescriptor rcvr m).hasCtx = true ∧
    (processor.subscriptionDescriptor rcvr m).isSubscribe = true ∧
    (processor.subscriptionDescriptor rcvr m).argTypes = rest := by
  simp [processor.subscriptionDescriptor, processor.leadingContext, processor.domainArgs, h]

/-! ## The info of an error envelope -/

/-- The envelope of `CreateErrorResponseWithInfo` holds the empty string as its info,
and so differs from the envelope of `CreateErrorResponse`, whose info is nil. -/
theorem server.CreateErrorResponseWithInfo_empty (id : Value) (err : RPCError) :
    (server.CreateErrorResponseWithInfo id err (.str "")).Info = Value.str "" ∧
    (server.CreateErrorResponse id err).Info = Value.nil ∧
    server.CreateErrorResponseWithInfo id err (.str "") ≠ server.CreateErrorResponse id err := by
  refine ⟨rfl, rfl, ?_⟩
  intro h
  have := congrArg server.JSONResponse.Info h
  simp [server.CreateErrorResponseWithInfo, server.CreateErrorResponse] at this

/-- C31 (failing input): for the id 1 and a `CallbackError`, the envelope that
`CreateErrorResponseWithInfo` returns for the empty string has the empty string as its
info, the envelope of `CreateErrorResponse` has none, and the two envelopes differ. -/
theorem CreateErrorResponseWithInfo_keeps_empty_string :
    (server.CreateErrorResponseWithInfo (.int 1) (.CallbackError "boom") (.str "")).Info =
      Value.str "" ∧
    (server.CreateErrorResponse (.int 1) (.CallbackError "boom")).Info = Value.nil ∧
    server.CreateErrorResponseWithInfo (.int 1) (.CallbackError "boom") (.str "") ≠
      server.CreateErrorResponse (.int 1) (.CallbackError "boom") := by
  decide

/-! ## The transaction pool -/

/-- C34: for a pool that holds `xs` and `n >= 0`, `Pop(n)` returns the first
`min(n, length xs)` items of `xs` in their order and leaves the rest in their order, the
returned items followed by the remaining ones being `xs`; `Push(b)` leaves `xs` followed
by `b`. So the items pushed on a new pool are in the pool in the order of the pushes, and
two calls of `Pop` return consecutive segments of the pool. -/
theorem api.TxPool_fifo (xs : List (List Nat)) (n : Int) (hn : 0 ≤ n) :
    (api.TxPool.Pop { txs := xs } n).1 = Outcome.returned (xs.take (min n.toNat xs.length)) ∧
    (xs.take (min n.toNat xs.length)).length = min n.toNat xs.length ∧
    (api.TxPool.Pop { txs := xs } n).2 = { txs := xs.drop (min n.toNat xs.length) } ∧
    xs.take (min n.toNat xs.length) ++ xs.drop (min n.toNat xs.length) = xs ∧
    (∀ b : List Nat, (api.TxPool.Push { txs := xs } b).txs = xs ++ [b]) ∧
    (∀ bs : List (List Nat), (bs.foldl api.TxPool.Push { txs := xs }).txs = xs ++ bs) ∧
    (∀ m : Int, 0 ≤ m →
      (api.TxPool.Pop (api.TxPool.Pop { txs := xs } n).2 m).1 =
        Outcome.returned ((xs.drop (min n.toNat xs.length)).take
          (min m.toNat (xs.length - min n.toNat xs.length)))) := by
  have hpop : ∀ (ys : List (List Nat)) (k : Int), 0 ≤ k →
      api.TxPool.Pop { txs := ys } k =
        (Outcome.returned (ys.take (min k.toNat ys.length)),
          { txs := ys.drop (min k.toNat ys.length) }) := by
    intro ys k hk
    simp only [api.TxPool.Pop]
    by_cases hgt : k > (ys.length : Int)
    · have hmin : min k.toNat ys.length = ys.length := by omega
      simp only [hgt, if_true, hmin, Int.toNat_ofNat]
      rw [if_neg (by omega)]
    · have hmin : min k.toNat ys.length = k.toNat := by omega
      simp only [hgt, if_false, hmin]
      rw [if_neg (by omega)]
  refine ⟨?_, ?_, ?_, List.take_append_drop _ _, ?_, ?_, ?_⟩
  · rw [hpop xs n hn]
  · simp [List.length_take]
  · rw [hpop xs n hn]
  · intro b; rfl
  · intro bs
    induction bs generalizing xs with
    | nil => simp
    | cons b bs ih =>
      simp only [List.foldl_cons, api.TxPool.Push]
      rw [ih (xs ++ [b])]
      simp
  · intro m hm
    rw [hpop xs n hn]
    simp only
    rw [hpop _ m hm]
    simp [List.length_drop]

/-- The witness of `TxPool_fifo`: three items and `Pop(2)`. -/
theorem TxPool_fifo_witness :
    (api.TxPool.Pop { txs := [[1], [2], [3]] } 2).1 = Outcome.returned [[1], [2]] ∧
    (api.TxPool.Pop { txs := [[1], [2], [3]] } 2).2 = { txs := [[3]] } :=
  have h := api.TxPool_fifo [[1], [2], [3]] 2 (by decide)
  ⟨h.1, h.2.2.1⟩

/-! ## The error codes registered at initialization -/

theorem errorcode.Codes.filter_absent (codes : errorcode.Codes) (c : Int)
    (h : codes.get c = none) : codes.filter (fun p => p.1 != c) = codes := by
  induction codes with
  | nil => rfl
  | cons p l ih =>
    obtain ⟨a, b⟩ := p
    simp only [errorcode.Codes.get, List.lookup_cons] at h
    by_cases hca : c = a
    · subst hca
      simp at h
    · have h1 : (c == a) = false := by simpa using hca
      rw [h1] at h
      have h2 : (a != c) = true := by simpa using (Ne.symm hca)
      simp only [List.filter_cons, h2, if_true]
      rw [ih h]

/-- A sequence of calls of `New` with pairwise distinct codes, none of which is in the
table, ends without a panic; the table has one more entry for each call, maps each code
to its message and every other code as before. -/
theorem errorcode.registerAll_distinct :
    ∀ (l : List (Int × String)) (codes : errorcode.Codes),
      (l.map Prod.fst).Nodup → (∀ p ∈ l, codes.get p.1 = none) →
      ∃ codes2 : errorcode.Codes,
        errorcode.registerAll codes l = (Outcome.returned (), codes2) ∧
        codes2.length = codes.length + l.length ∧
        (∀ p ∈ l, codes2.get p.1 = some p.2) ∧
        (∀ c : Int, c ∉ l.map Prod.fst → codes2.get c = codes.get c) := by
  intro l
  induction l with
  | nil =>
    intro codes _ _
    exact ⟨codes, rfl, rfl, by simp, fun _ _ => rfl⟩
  | cons p rest ih =>
    intro codes hnd hnone
    obtain ⟨c, m⟩ := p
    simp only [List.map_cons, List.nodup_cons] at hnd
    have hc : codes.get c = none := hnone (c, m) (List.mem_cons_self _ _)
    have hrest : ∀ q ∈ rest, (codes.set c m).get q.1 = none := by
      intro q hq
      have hne : q.1 ≠ c := by
        intro h
        exact hnd.1 (h ▸ List.mem_map_of_mem Prod.fst hq)
      rw [errorcode.Codes.get_other_after_set codes c q.1 m hne]
      exact hnone q (List.mem_cons_of_mem _ hq)
    obtain ⟨codes2, h1, h2, h3, h4⟩ := ih (codes.set c m) hnd.2 hrest
    refine ⟨codes2, ?_, ?_, ?_, ?_⟩
    · simp only [errorcode.registerAll, errorcode.New, hc]
      exact h1
    · rw [h2]
      simp only [errorcode.Codes.set, List.length_cons, errorcode.Codes.filter_absent codes c hc]
      omega
    · intro q hq
      rcases List.mem_cons.mp hq with h | h
      · subst h
        rw [h4 c hnd.1]
        exact errorcode.Codes.get_after_set codes c m
      · exact h3 q h
    · intro c2 hc2
      simp only [List.map_cons, List.mem_cons, not_or] at hc2
      rw [h4 c2 hc2.2]
      exact errorcode.Codes.get_other_after_set codes c c2 m hc2.1

/-- C37: the 30 codes that `common_code.go` and `custom_code.go` register are pairwise
distinct; from the empty table the calls of `New`, in whatever order, end without a
panic and leave a table of 30 entries that maps each code to its message. -/
theorem errorcode.registerAll_initial (l : List (Int × String))
    (hl : l.Perm (errorcode.commonCodes ++ errorcode.customCodes)) :
    ((errorcode.commonCodes ++ errorcode.customCodes).map Prod.fst).Nodup ∧
    ∃ codes : errorcode.Codes,
      errorcode.registerAll [] l = (Outcome.returned (), codes) ∧
      codes.length = 30 ∧
      (∀ p ∈ errorcode.commonCodes ++ errorcode.customCodes, codes.get p.1 = some p.2) ∧
      (∀ c : Int, c ∉ (errorcode.commonCodes ++ errorcode.customCodes).map Prod.fst →
        codes.get c = none) := by
  have hnd : ((errorcode.commonCodes ++ errorcode.customCodes).map Prod.fst).Nodup := by
    decide
  have hnd2 : (l.map Prod.fst).Nodup := (hl.map Prod.fst).nodup_iff.mpr hnd
  obtain ⟨codes, h1, h2, h3, h4⟩ := errorcode.registerAll_distinct l [] hnd2 (fun _ _ => rfl)
  refine ⟨hnd, codes, h1, ?_, ?_, ?_⟩
  · rw [h2, hl.length_eq]
    rfl
  · intro p hp
    exact h3 p (hl.mem_iff.mpr hp)
  · intro c hc
    rw [h4 c (fun h => hc ((hl.map Prod.fst).mem_iff.mp h))]
    rfl

/-- The witness of `registerAll_initial`: the order of the files, and the reverse order. -/
theorem registerAll_initial_witness :
    (∃ codes : errorcode.Codes,
      errorcode.registerAll [] (errorcode.commonCodes ++ errorcode.customCodes) =
        (Outcome.returned (), codes) ∧ codes.length = 30) ∧
    (∃ codes : errorcode.Codes,
      errorcode.registerAll [] (errorcode.commonCodes ++ errorcode.customCodes).reverse =
        (Outcome.returned (), codes) ∧ codes.length = 30) :=
  have h1 := (errorcode.registerAll_initial _ (List.Perm.refl _)).2
  have h2 := (errorcode.registerAll_initial _
    (List.reverse_perm (errorcode.commonCodes ++ errorcode.customCodes))).2
  ⟨⟨h1.choose, h1.choose_spec.1, h1.choose_spec.2.1⟩,
    ⟨h2.choose, h2.choose_spec.1, h2.choose_spec.2.1⟩⟩

/-! ## Serving a connection while the handler stops -/

/-- A read that succeeds without the batch flag gives one request, and a read that
succeeds gives at least one. -/
theorem server.readRequest_ok (clib : server.CodecLib) (next : Except String RawMessage)
    (options : Nat) (reqs : List RPCRequest) (batch : Bool)
    (h : server.readRequest clib next options = (reqs, batch, none)) :
    reqs ≠ [] ∧ (batch = false → ∃ r, reqs = [r]) := by
  simp only [server.readRequest] at h
  split at h
  · simp at h
  · rename_i reqs0 batch0 hraw
    split at h
    · simp at h
    · rename_i hlen
      simp only [Prod.mk.injEq, and_true] at h
      obtain ⟨h1, h2⟩ := h
      subst h1 h2
      refine ⟨fun h0 => hlen (by simp [h0]), ?_⟩
      intro hb
      subst hb
      simp only [server.ReadRawRequest] at hraw
      split at hraw
      · simp at hraw
      · split at hraw
        · simp only [server.parseBatchRequest] at hraw
          split at hraw
          · simp at hraw
          · split at hraw
            · simp at hraw
            · simp at hraw
        · simp only [server.parseRequest] at hraw
          split at hraw
          · simp at hraw
          · split at hraw
            · simp at hraw
            · split at hraw
              · split at hraw
                · simp only [Prod.mk.injEq, and_true] at hraw
                  exact ⟨_, hraw.symm⟩
                · simp only [Prod.mk.injEq, and_true] at hraw
                  exact ⟨_, hraw.symm⟩
              · simp at hraw

/-- The run flag after the loop of `serveRequest` is the flag before it, or 0 after 1;
the loop does not touch the processor. -/
theorem server.serveLoop_run {W : Type} (hex : server.HexFmt) (lib : JsonLib)
    (clib : server.CodecLib) (ctx : Value) (singleShot : Bool) (options : Nat) :
    ∀ (events : List server.ReadEvent) (s : server.HttpHandler W)
      (codec : server.jsonCodecImpl) (w : W),
      (server.serveLoop hex lib clib ctx singleShot options events s codec w).handler.run =
          s.run ∨
        (s.run = 1 ∧
          (server.serveLoop hex lib clib ctx singleShot options events s codec w).handler.run
            = 0) := by
  intro events
  induction events with
  | nil => intro s codec w; exact Or.inl rfl
  | cons ev rest ih =>
    intro s codec w
    simp only [server.serveLoop]
    split
    · exact Or.inl rfl
    · rename_i hrun
      have hrun1 : s.run = 1 := by simpa using hrun
      have hs : (if ev.stop = true then (server.Stop s).1 else s).run = s.run ∨
          (if ev.stop = true then (server.Stop s).1 else s).run = 0 := by
        split
        · simp [server.Stop, hrun1]
        · exact Or.inl rfl
      generalize (if ev.stop = true then (server.Stop s).1 else s) = s2 at hs ⊢
      have key : ∀ x : Int, (x = s2.run ∨ (s2.run = 1 ∧ x = 0)) → (x = s.run ∨ (s.run = 1 ∧ x = 0)) := by
        intro x hx
        rcases hx with hx | ⟨_, hx⟩
        · rcases hs with h | h
          · exact Or.inl (hx.trans h)
          · exact Or.inr ⟨hrun1, hx.trans h⟩
        · exact Or.inr ⟨hrun1, hx⟩
      split
      · split <;> exact key _ (Or.inl rfl)
      · split
        · split <;> exact key _ (Or.inl rfl)
        · split
          · split <;> exact key _ (Or.inl rfl)
          · split
            · exact key _ (Or.inl rfl)
            · exact key _ (ih s2 _ _)

/-- C32: when the handler runs, another goroutine stops it during a read, and the read
succeeds with the requests `reqs`, the round of `serveRequest` calls no method and
leaves the world as it was; it hands one value to `Write`, the slice of the error
envelopes of all requests in their order when the batch flag is set, the envelope of
the only request otherwise; each envelope has the id of its request, the code -32000
and the message "Server is shutting down"; and `serveRequest` returns what `Write`
returned, without reading again. -/
theorem server.serveRequest_shutdown {W : Type} (hex : server.HexFmt) (lib : JsonLib)
    (clib : server.CodecLib) (s : server.HttpHandler W) (codecs : List server.SetCall)
    (ctx : Value) (name : Nat) (codec : server.jsonCodecImpl) (singleShot : Bool)
    (options : Nat) (ev : server.ReadEvent) (rest : List server.ReadEvent) (w : W)
    (reqs : List RPCRequest) (batch : Bool)
    (hrun : s.run = 1) (hstop : ev.stop = true)
    (hread : server.readRequest clib ev.next options = (reqs, batch, none)) :
    ∃ res : server.Written,
      (batch = true →
        res = .many (reqs.map (fun r => server.CreateErrorResponse r.ID .ShutdownError))) ∧
      (batch = false →
        ∃ r, reqs = [r] ∧ res = .one (server.CreateErrorResponse r.ID .ShutdownError)) ∧
      server.serveLoop hex lib clib ctx singleShot options (ev :: rest) s codec w =
        ⟨.returned (if codec.refuses res then some .WriteError else none),
          { s with run := 0 }, { codec with written := codec.written ++ [res] }, rest, w, []⟩ ∧
      server.serveRequest hex lib clib s codecs ctx name codec singleShot options
          (ev :: rest) w =
        ⟨.returned (if codec.refuses res then some .WriteError else none),
          { s with run := 0 }, codecs ++ [.Add name, .Remove name],
          { codec with written := codec.written ++ [res] }, rest, w, []⟩ ∧
      (∀ r ∈ reqs,
        (server.CreateErrorResponse r.ID .ShutdownError).ID = r.ID ∧
        (server.CreateErrorResponse r.ID .ShutdownError).Code = -32000 ∧
        (server.CreateErrorResponse r.ID .ShutdownError).Message = "Server is shutting down" ∧
        (server.CreateErrorResponse r.ID .ShutdownError).Version = "2.0" ∧
        (server.CreateErrorResponse r.ID .ShutdownError).Result = Value.nil ∧
        (server.CreateErrorResponse r.ID .ShutdownError).Info = Value.nil) := by
  have hok := server.readRequest_ok clib ev.next options reqs batch hread
  have hne : s.run ≠ 1 ↔ False := by simp [hrun]
  have hstopped : ((server.Stop s).1).run ≠ 1 := by simp [server.Stop, hrun]
  have hstop2 : (server.Stop s).1 = { s with run := 0 } := by simp [server.Stop, hrun]
  cases batch with
  | true =>
    have hloop : server.serveLoop hex lib clib ctx singleShot options (ev :: rest) s codec w =
        ⟨.returned (if codec.refuses (.many (reqs.map
            (fun r => server.CreateErrorResponse r.ID .ShutdownError))) then
            some .WriteError else none),
          { s with run := 0 },
          { codec with written := codec.written ++ [.many (reqs.map
            (fun r => server.CreateErrorResponse r.ID .ShutdownError))] }, rest, w, []⟩ := by
      simp only [server.serveLoop, hrun, ne_eq, not_true_eq_false, if_false, hstop, if_true,
        hread, hstopped, not_false_eq_true, server.shutdownReply, server.jsonCodecImpl.Write,
        hstop2]
      rw [if_pos (by decide)]
    refine ⟨.many (reqs.map (fun r => server.CreateErrorResponse r.ID .ShutdownError)),
      fun _ => rfl, (fun h => by cases h), hloop, ?_, ?_⟩
    · simp only [server.serveRequest, hrun, ne_eq, not_true_eq_false, if_false, hloop]
    · intro r _
      exact ⟨rfl, rfl, rfl, rfl, rfl, rfl⟩
  | false =>
    obtain ⟨r, hr⟩ := hok.2 rfl
    subst hr
    have hloop : server.serveLoop hex lib clib ctx singleShot options (ev :: rest) s codec w =
        ⟨.returned (if codec.refuses (.one (server.CreateErrorResponse r.ID .ShutdownError)) then
            some .WriteError else none),
          { s with run := 0 },
          { codec with written := codec.written ++
            [.one (server.CreateErrorResponse r.ID .ShutdownError)] }, rest, w, []⟩ := by
      simp only [server.serveLoop, hrun, ne_eq, not_true_eq_false, if_false, hstop, if_true,
        hread, hstopped, not_false_eq_true, server.shutdownReply, server.jsonCodecImpl.Write,
        hstop2, Bool.false_eq_true]
      rw [if_pos (by decide)]
    refine ⟨.one (server.CreateErrorResponse r.ID .ShutdownError),
      (fun h => by cases h), fun _ => ⟨r, rfl, rfl⟩, hloop, ?_, ?_⟩
    · simp only [server.serveRequest, hrun, ne_eq, not_true_eq_false, if_false, hloop]
    · intro r2 _
      exact ⟨rfl, rfl, rfl, rfl, rfl, rfl⟩

/-- The witness of `serveRequest_shutdown`: the batch of test_ping and
tx_sendRawTransaction arrives while the handler is stopped; the codec gets the array of
the two shutdown envelopes and no method is called. -/
theorem serveRequest_shutdown_witness :
    ∃ res : server.Written,
      res = .many
        [server.CreateErrorResponse (.ptr (.rawMessage (demo.bytes "1"))) .ShutdownError,
         server.CreateErrorResponse (.ptr (.rawMessage (demo.bytes "2"))) .ShutdownError] ∧
      (server.serveRequest demo.hex demo.lib demo.clibMore demo.handler [] (.context 0) 7
        demo.codec true 1 demo.stopDuringBatch []).codec.written = [res] ∧
      (server.serveRequest demo.hex demo.lib demo.clibMore demo.handler [] (.context 0) 7
        demo.codec true 1 demo.stopDuringBatch []).calls = [] :=
  match server.serveRequest_shutdown demo.hex demo.lib demo.clibMore demo.handler []
      (.context 0) 7 demo.codec true 1 { stop := true, next := .ok demo.msgBatch } [] []
      [server.toRPCRequest demo.itemPing "test" "ping",
       server.toRPCRequest demo.itemSend "tx" "sendRawTransaction"] true rfl rfl
      (by decide) with
  | ⟨res, hb, _, _, hserve, _⟩ =>
    ⟨res, hb rfl, by rw [demo.stopDuringBatch, hserve]; rfl,
      by rw [demo.stopDuringBatch, hserve]⟩

/-- C33: `Stop` changes the run flag from 1 to 0 and schedules the closing of the
codecs; on a handler that does not run it changes nothing and schedules nothing, so a
second `Stop` is without effect. After `Stop` and after `serveRequest` the flag is what
it was, or 0 where it was 1: nothing sets it back to 1. On a handler whose flag is 0,
`serveRequest` returns a `ShutdownError`; it reads no event of the stream, writes
nothing, calls no method, and the only call on the set of codecs is the `Remove` of the
deferred function. -/
theorem server.run_flag_one_way {W : Type} (hex : server.HexFmt) (lib : JsonLib)
    (clib : server.CodecLib) (s : server.HttpHandler W) (codecs : List server.SetCall)
    (ctx : Value) (name : Nat) (codec : server.jsonCodecImpl) (singleShot : Bool)
    (options : Nat) (events : List server.ReadEvent) (w : W) :
    (s.run = 1 → server.Stop s = ({ s with run := 0 }, true)) ∧
    (s.run ≠ 1 → server.Stop s = (s, false)) ∧
    server.Stop (server.Stop s).1 = ((server.Stop s).1, false) ∧
    ((server.Stop s).1.run = s.run ∨ (s.run = 1 ∧ (server.Stop s).1.run = 0)) ∧
    ((server.serveRequest hex lib clib s codecs ctx name codec singleShot options events
          w).handler.run = s.run ∨
      (s.run = 1 ∧
        (server.serveRequest hex lib clib s codecs ctx name codec singleShot options events
          w).handler.run = 0)) ∧
    (s.run = 0 →
      server.serveRequest hex lib clib s codecs ctx name codec singleShot options events w =
        ⟨.returned (some .ShutdownError), s, codecs ++ [.Remove name], codec, events, w, []⟩) ∧
    (s.run = 0 →
      server.ServeSingleRequest hex lib clib s codecs ctx name codec options events w =
        ⟨.returned (some .ShutdownError), s, codecs ++ [.Remove name], codec, events, w, []⟩) ∧
    (s.run = 0 →
      server.ServeCodec hex lib clib s codecs ctx name codec options events w =
        ⟨.returned (some .ShutdownError), s, codecs ++ [.Remove name], codec.Close, events, w,
          []⟩) := by
  have hstopped : ∀ s2 : server.HttpHandler W, s2.run = 0 →
      ∀ single : Bool,
      server.serveRequest hex lib clib s2 codecs ctx name codec single options events w =
        ⟨.returned (some .ShutdownError), s2, codecs ++ [.Remove name], codec, events, w, []⟩ := by
    intro s2 h0 single
    have : s2.run ≠ 1 := by rw [h0]; decide
    simp only [server.serveRequest, this, ne_eq, not_false_eq_true, if_true]
  refine ⟨?_, ?_, ?_, ?_, ?_, fun h0 => hstopped s h0 singleShot, ?_, ?_⟩
  · intro h; simp [server.Stop, h]
  · intro h; simp [server.Stop, h]
  · by_cases h : s.run = 1
    · simp [server.Stop, h]
    · simp [server.Stop, h]
  · by_cases h : s.run = 1
    · exact Or.inr ⟨h, by simp [server.Stop, h]⟩
    · exact Or.inl (by simp [server.Stop, h])
  · by_cases h : s.run = 1
    · have hl := server.serveLoop_run hex lib clib ctx singleShot options events s codec w
      have hne : ¬ (s.run ≠ 1) := by simp [h]
      unfold server.serveRequest
      rw [if_neg hne]
      simp only []
      split <;> exact hl
    · unfold server.serveRequest
      rw [if_pos h]
      exact Or.inl rfl
  · intro h0
    exact hstopped s h0 true
  · intro h0
    simp only [server.ServeCodec, hstopped s h0 false]

/-- The witness of `run_flag_one_way`: on the stopped handler of the examples,
`serveRequest` returns a `ShutdownError` and leaves the stream, the codec and the world
as they were. -/
theorem run_flag_one_way_witness :
    (server.serveRequest demo.hex demo.lib demo.clibMore demo.stoppedHandler [] (.context 0)
      7 demo.codec true 1 demo.stopDuringBatch []).result =
        .returned (some .ShutdownError) ∧
    (server.serveRequest demo.hex demo.lib demo.clibMore demo.stoppedHandler [] (.context 0)
      7 demo.codec true 1 demo.stopDuringBatch []).pending = demo.stopDuringBatch ∧
    (server.serveRequest demo.hex demo.lib demo.clibMore demo.stoppedHandler [] (.context 0)
      7 demo.codec true 1 demo.stopDuringBatch []).codecs = [.Remove 7] :=
  have h := (server.run_flag_one_way demo.hex demo.lib demo.clibMore demo.stoppedHandler []
    (.context 0) 7 demo.codec true 1 demo.stopDuringBatch []).2.2.2.2.2.1 rfl
  ⟨by rw [h], by rw [h], by rw [h]; rfl⟩

/-! ## The arguments that reach the count check of handle -/

/-- After `json.Unmarshal`, an element of the slice at the position of a declared type
`t` is the nil interface, or the pointer `reflect.New(t)` to the zero value of `t` or to
a value that the decoder stored into a variable of type `t`. -/
theorem fillSlots_typed (lib : JsonLib) (ts : List GoType) (es : List Json) (r : List Slot)
    (h : fillSlots lib (processor.newParams ts) es = some r) (i : Nat) (s : Slot) (t : GoType)
    (hs : r[i]? = some s) (ht : ts[i]? = some t) :
    s = Slot.nil ∨
      ∃ v : Value, s = Slot.new t v ∧
        (v = reflect.Zero t ∨ ∃ e : Json, lib.decode t e = some v) := by
  induction es generalizing ts r i with
  | nil =>
    cases ts <;> simp [processor.newParams, fillSlots] at h <;> subst h <;> simp at hs
  | cons e es ih =>
    cases ts with
    | nil => simp at ht
    | cons t0 ts =>
      simp only [processor.newParams, List.map_cons, fillSlots] at h
      split at h
      · rename_i s0 r2 hs0 hr2
        simp only [Option.some.injEq] at h
        subst h
        cases i with
        | zero =>
          simp only [List.getElem?_cons_zero, Option.some.injEq] at hs ht
          subst hs ht
          cases e with
          | null =>
            simp only [decodeElem, Option.some.injEq] at hs0
            subst hs0
            split
            · exact Or.inr ⟨_, rfl, Or.inl rfl⟩
            · exact Or.inl rfl
          | bool b =>
            simp only [decodeElem, Option.map_eq_some'] at hs0
            obtain ⟨v, hv, hv2⟩ := hs0
            exact Or.inr ⟨v, hv2.symm, Or.inr ⟨_, hv⟩⟩
          | num lit =>
            simp only [decodeElem, Option.map_eq_some'] at hs0
            obtain ⟨v, hv, hv2⟩ := hs0
            exact Or.inr ⟨v, hv2.symm, Or.inr ⟨_, hv⟩⟩
          | str x =>
            simp only [decodeElem, Option.map_eq_some'] at hs0
            obtain ⟨v, hv, hv2⟩ := hs0
            exact Or.inr ⟨v, hv2.symm, Or.inr ⟨_, hv⟩⟩
          | arr x =>
            simp only [decodeElem, Option.map_eq_some'] at hs0
            obtain ⟨v, hv, hv2⟩ := hs0
            exact Or.inr ⟨v, hv2.symm, Or.inr ⟨_, hv⟩⟩
          | obj x =>
            simp only [decodeElem, Option.map_eq_some'] at hs0
            obtain ⟨v, hv, hv2⟩ := hs0
            exact Or.inr ⟨v, hv2.symm, Or.inr ⟨_, hv⟩⟩
        | succ j =>
          simp only [List.getElem?_cons_succ] at hs ht
          exact ih ts r2 hr2 j hs ht
      · simp at h

/-- The final loop of `parsePositionalArguments`, when it succeeds on a slice of the
length of the declared types, returns one value for each type: the zero value of the
type for a nil element and the value pointed to otherwise. -/
theorem processor.argValues_typed (P : GoType → Value → Prop)
    (hzero : ∀ t : GoType, P t (reflect.Zero t)) :
    ∀ (ps : List Slot) (ts : List GoType) (b : Nat) (r : List Value),
      ps.length = ts.length →
      (∀ (i : Nat) (s : Slot) (t : GoType), ps[i]? = some s → ts[i]? = some t →
        s = Slot.nil ∨ ∃ v : Value, s = Slot.new t v ∧ P t v) →
      processor.argValues b ps ts = .ok r →
      r.length = ts.length ∧
        ∀ (i : Nat) (t : GoType) (v : Value), ts[i]? = some t → r[i]? = some v → P t v := by
  intro ps
  induction ps with
  | nil =>
    intro ts b r hlen _ h
    cases ts with
    | nil =>
      simp only [processor.argValues, Except.ok.injEq] at h
      subst h
      exact ⟨rfl, fun i t v ht => by simp at ht⟩
    | cons t ts => simp at hlen
  | cons p ps ih =>
    intro ts b r hlen hsl h
    cases ts with
    | nil => simp at hlen
    | cons t ts =>
      simp only [processor.argValues] at h
      split at h
      · cases h
      · split at h
        · cases h
        · rename_i restv hrest
          have hih := ih ts (b + 1) restv (by simpa using hlen)
            (fun i s t2 hs ht2 => hsl (i + 1) s t2 (by simpa using hs) (by simpa using ht2))
            hrest
          have h0 := hsl 0 p t (by simp) (by simp)
          have hhead : ∃ v0 : Value, r = v0 :: restv ∧ P t v0 := by
            rcases h0 with h0 | ⟨v, h0, hv⟩
            · subst h0
              simp only [Except.ok.injEq] at h
              exact ⟨_, h.symm, hzero t⟩
            · subst h0
              simp only [Except.ok.injEq] at h
              exact ⟨_, h.symm, hv⟩
          obtain ⟨v0, hr, hv0⟩ := hhead
          subst hr
          refine ⟨by simp [hih.1], ?_⟩
          intro i t2 v ht2 hv
          cases i with
          | zero =>
            simp only [List.getElem?_cons_zero, Option.some.injEq] at ht2 hv
            subst ht2 hv
            exact hv0
          | succ j =>
            simp only [List.getElem?_cons_succ] at ht2 hv
            exact hih.2 j t2 v ht2 hv

/-- When `parsePositionalArguments` succeeds it returns one value for each declared
type, the zero value of the type or a value that the decoder stored into a variable of
the type. -/
theorem processor.parsePositionalArguments_typed (lib : JsonLib) (args : RawMessage)
    (ts : List GoType) (r : List Value)
    (h : processor.parsePositionalArguments lib args ts = .ok r) :
    r.length = ts.length ∧
      ∀ (i : Nat) (t : GoType) (v : Value), ts[i]? = some t → r[i]? = some v →
        (v = reflect.Zero t ∨ ∃ e : Json, lib.decode t e = some v) := by
  simp only [processor.parsePositionalArguments] at h
  split at h
  · cases h
  · rename_i params hun
    split at h
    · cases h
    · rename_i hle
      have hle2 : params.length ≤ ts.length := by omega
      have hslots : ∀ (i : Nat) (s : Slot) (t : GoType), params[i]? = some s →
          ts[i]? = some t →
          s = Slot.nil ∨ ∃ v : Value, s = Slot.new t v ∧
            (v = reflect.Zero t ∨ ∃ e : Json, lib.decode t e = some v) := by
        simp only [Unmarshal] at hun
        cases hp : lib.parse args with
        | none => simp [hp] at hun
        | some j =>
          cases j with
          | null =>
            simp only [hp, Except.ok.injEq] at hun
            subst hun
            intro i s t hs _
            simp at hs
          | arr es =>
            simp only [hp] at hun
            cases hfill : fillSlots lib (processor.newParams ts) es with
            | none => simp [hfill] at hun
            | some r2 =>
              simp only [hfill, Except.ok.injEq] at hun
              subst hun
              exact fun i s t hs ht => fillSlots_typed lib ts es r2 hfill i s t hs ht
          | bool b => simp [hp] at hun
          | num lit => simp [hp] at hun
          | str x => simp [hp] at hun
          | obj x => simp [hp] at hun
      apply processor.argValues_typed
        (fun t v => v = reflect.Zero t ∨ ∃ e : Json, lib.decode t e = some v)
        (fun t => Or.inl rfl)
        (params ++ List.replicate (ts.length - params.length) Slot.nil) ts 0 r
        (by simp only [List.length_append, List.length_replicate]; omega) ?_ h
      intro i s t hs ht
      by_cases hi : i < params.length
      · rw [List.getElem?_append_left hi] at hs
        exact hslots i s t hs ht
      · rw [List.getElem?_append_right (by omega)] at hs
        rw [List.getElem?_replicate] at hs
        split at hs
        · simp only [Option.some.injEq] at hs
          exact Or.inl hs.symm
        · cases hs

/-- C35: when `parsePositionalArguments` succeeds for k declared types it returns k
values, the i-th being the zero value of the i-th type or a value that the decoder
stored into a variable of the i-th type. Hence, when `handle` gets a request without
error whose number of arguments differs from the number of declared types, the request
had no params, the method declares at least one parameter, and no argument was parsed. -/
theorem processor.count_check_only_without_params (lib : JsonLib) :
    (∀ (args : RawMessage) (ts : List GoType) (r : List Value),
      processor.parsePositionalArguments lib args ts = .ok r →
      r.length = ts.length ∧
        ∀ (i : Nat) (t : GoType) (v : Value), ts[i]? = some t → r[i]? = some v →
          (v = reflect.Zero t ∨ ∃ e : Json, lib.decode t e = some v)) ∧
    (∀ (W : Type) (jrpi : processor.JsonRpcProcessorImpl W) (req : RPCRequest)
      (callb : processor.callback W),
      (processor.checkRequestParams lib jrpi req).err = none →
      (processor.checkRequestParams lib jrpi req).callb = some callb →
      (processor.checkRequestParams lib jrpi req).args.length ≠ callb.argTypes.length →
      req.Params = Value.nil ∧ 1 ≤ callb.argTypes.length ∧
        (processor.checkRequestParams lib jrpi req).args = []) := by
  refine ⟨fun args ts r h => processor.parsePositionalArguments_typed lib args ts r h, ?_⟩
  intro W jrpi req callb herr hcallb hlen
  cases hs : jrpi.services.get req.Service with
  | none =>
    rw [processor.checkRequestParams_notFound lib jrpi req (Or.inl hs)] at hcallb
    cases hcallb
  | some svc =>
    cases hpub : req.IsPubSub with
    | true =>
      rw [processor.checkRequestParams_notFound lib jrpi req
        (Or.inr ⟨svc, hs, Or.inl hpub⟩)] at hcallb
      cases hcallb
    | false =>
      cases hc : svc.callbacks.get req.Method with
      | none =>
        rw [processor.checkRequestParams_notFound lib jrpi req
          (Or.inr ⟨svc, hs, Or.inr hc⟩)] at hcallb
        cases hcallb
      | some cb =>
        have hsr := processor.checkRequestParams_resolved lib jrpi req svc cb hs hpub hc
        rw [hsr] at herr hcallb hlen ⊢
        by_cases hcond : req.Params ≠ Value.nil ∧ cb.argTypes.length > 0
        · rw [if_pos hcond] at herr hcallb hlen
          cases hparse : processor.parseRequestArguments lib cb.argTypes req.Params with
          | error e =>
            rw [hparse] at herr
            cases herr
          | ok args =>
            rw [hparse] at hcallb hlen
            simp only [Option.some.injEq] at hcallb
            subst hcallb
            exfalso
            apply hlen
            cases hp : req.Params with
            | rawMessage raw =>
              rw [hp] at hparse
              simp only [processor.parseRequestArguments] at hparse
              exact (processor.parsePositionalArguments_typed lib raw cb.argTypes args hparse).1
            | nil => rw [hp] at hparse; cases hparse
            | str x => rw [hp] at hparse; cases hparse
            | subID x => rw [hp] at hparse; cases hparse
            | int x => rw [hp] at hparse; cases hparse
            | uint x => rw [hp] at hparse; cases hparse
            | bool x => rw [hp] at hparse; cases hparse
            | nilRef x => rw [hp] at hparse; cases hparse
            | ptr x => rw [hp] at hparse; cases hparse
            | ref k x => rw [hp] at hparse; cases hparse
            | iface x => rw [hp] at hparse; cases hparse
            | err x => rw [hp] at hparse; cases hparse
            | address x => rw [hp] at hparse; cases hparse
            | hash x => rw [hp] at hparse; cases hparse
            | context x => rw [hp] at hparse; cases hparse
            | other k x y => rw [hp] at hparse; cases hparse
        · rw [if_neg hcond] at hcallb hlen ⊢
          simp only [Option.some.injEq] at hcallb
          subst hcallb
          simp only [List.length_nil] at hlen
          have hk : 1 ≤ cb.argTypes.length := by omega
          refine ⟨?_, hk, rfl⟩
          by_contra hp
          exact hcond ⟨hp, by omega⟩

/-- The witness of `count_check_only_without_params`: the params ["0x00"] bind to the
one parameter of tx_sendRawTransaction, and the request test_greet without params
reaches the count check of `handle` with no argument for one declared parameter. -/
theorem count_check_only_without_params_witness :
    (∃ r : List Value,
      processor.parsePositionalArguments demo.lib (demo.bytes "[\"0x00\"]") [demo.bytesT] =
        .ok r ∧ r.length = 1) ∧
    demo.reqGreet.Params = Value.nil ∧ 1 ≤ demo.greet.argTypes.length :=
  have h := processor.count_check_only_without_params demo.lib
  have h2 := h.2 demo.World demo.jrpi demo.reqGreet demo.greet rfl rfl (by decide)
  ⟨⟨_, rfl, (h.1 (demo.bytes "[\"0x00\"]") [demo.bytesT] _ rfl).1⟩, h2.1, h2.2.1⟩

/-! ## Subscriptions are never invoked -/

/-- C36: `ProcessRequest` calls no method and leaves the world as it was, or it calls
once a method of a descriptor that the callbacks map of the service holds under the
method name of the request. A request whose method is not in the callbacks map of its
service, whatever the subscriptions map holds, and every request with `IsPubSub` true, is
answered with the method-not-found error, code -32601, and no call. -/
theorem processor.ProcessRequest_only_callbacks {W : Type} (lib : JsonLib)
    (jrpi : processor.JsonRpcProcessorImpl W) (req : RPCRequest) (w : W) :
    (((processor.ProcessRequest lib jrpi req w).calls = [] ∧
        (processor.ProcessRequest lib jrpi req w).world = w) ∨
      ∃ (svc : processor.service W) (callb : processor.callback W) (args : List Value),
        jrpi.services.get req.Service = some svc ∧
        svc.callbacks.get req.Method = some callb ∧ req.IsPubSub = false ∧
        (processor.ProcessRequest lib jrpi req w).calls =
          [(callb.method.Name, processor.callArguments req.Ctx callb args)] ∧
        (processor.ProcessRequest lib jrpi req w).world =
          (callb.method.Func w (processor.callArguments req.Ctx callb args)).2) ∧
    (∀ svc : processor.service W, jrpi.services.get req.Service = some svc →
      svc.callbacks.get req.Method = none →
      ∃ (resp : RPCResponse) (e : RPCError),
        (processor.ProcessRequest lib jrpi req w).outcome = .returned resp ∧
        resp.Error = some e ∧ e.Code = -32601 ∧ resp.Reply = Value.nil ∧
        (processor.ProcessRequest lib jrpi req w).calls = [] ∧
        (processor.ProcessRequest lib jrpi req w).world = w) ∧
    (req.IsPubSub = true →
      ∃ (resp : RPCResponse) (e : RPCError),
        (processor.ProcessRequest lib jrpi req w).outcome = .returned resp ∧
        resp.Error = some e ∧ e.Code = -32601 ∧ resp.Reply = Value.nil ∧
        (processor.ProcessRequest lib jrpi req w).calls = [] ∧
        (processor.ProcessRequest lib jrpi req w).world = w) := by
  have hnf : (jrpi.services.get req.Service = none ∨
      ∃ svc, jrpi.services.get req.Service = some svc ∧
        (req.IsPubSub = true ∨ svc.callbacks.get req.Method = none)) →
      ∃ (resp : RPCResponse) (e : RPCError),
        (processor.ProcessRequest lib jrpi req w).outcome = .returned resp ∧
        resp.Error = some e ∧ e.Code = -32601 ∧ resp.Reply = Value.nil ∧
        (processor.ProcessRequest lib jrpi req w).calls = [] ∧
        (processor.ProcessRequest lib jrpi req w).world = w := by
    intro h
    have hc := processor.checkRequestParams_notFound lib jrpi req h
    refine ⟨processor.CreateErrorResponse (.ptr req.ID)
      (.MethodNotFoundError req.Service req.Method),
      .MethodNotFoundError req.Service req.Method, ?_, rfl, rfl, rfl, ?_, ?_⟩
    · simp [processor.ProcessRequest, processor.exec, processor.handle, hc]
    · simp [processor.ProcessRequest, processor.exec, processor.handle, hc]
    · simp [processor.ProcessRequest, processor.exec, processor.handle, hc]
  refine ⟨?_, fun svc hs hc => hnf (Or.inr ⟨svc, hs, Or.inr hc⟩), ?_⟩
  · cases hs : jrpi.services.get req.Service with
    | none =>
      obtain ⟨_, _, _, _, _, _, h5, h6⟩ := hnf (Or.inl hs)
      exact Or.inl ⟨h5, h6⟩
    | some svc =>
      cases hpub : req.IsPubSub with
      | true =>
        obtain ⟨_, _, _, _, _, _, h5, h6⟩ := hnf (Or.inr ⟨svc, hs, Or.inl hpub⟩)
        exact Or.inl ⟨h5, h6⟩
      | false =>
        cases hc : svc.callbacks.get req.Method with
        | none =>
          obtain ⟨_, _, _, _, _, _, h5, h6⟩ := hnf (Or.inr ⟨svc, hs, Or.inr hc⟩)
          exact Or.inl ⟨h5, h6⟩
        | some cb =>
          have hsr := processor.checkRequestParams_resolved lib jrpi req svc cb hs hpub hc
          simp only [processor.ProcessRequest, processor.exec, hsr]
          by_cases hcond : req.Params ≠ Value.nil ∧ cb.argTypes.length > 0
          · rw [if_pos hcond]
            cases hparse : processor.parseRequestArguments lib cb.argTypes req.Params with
            | error e =>
              simp only [processor.handle]
              exact Or.inl ⟨trivial, trivial⟩
            | ok args =>
              simp only [processor.handle]
              by_cases hlen : args.length ≠ cb.argTypes.length
              · rw [if_pos hlen]
                exact Or.inl ⟨rfl, rfl⟩
              · rw [if_neg hlen]
                refine Or.inr ⟨svc, cb, args, ?_, ?_, ?_, ?_, ?_⟩ <;>
                  first | rfl | trivial
          · rw [if_neg hcond]
            simp only [processor.handle]
            by_cases hlen : ([] : List Value).length ≠ cb.argTypes.length
            · rw [if_pos hlen]
              exact Or.inl ⟨rfl, rfl⟩
            · rw [if_neg hlen]
              refine Or.inr ⟨svc, cb, [], ?_, ?_, ?_, ?_, ?_⟩ <;>
                first | rfl | trivial
  · intro hpub
    cases hs : jrpi.services.get req.Service with
    | none => exact hnf (Or.inl hs)
    | some svc => exact hnf (Or.inr ⟨svc, hs, Or.inl hpub⟩)

/-- The witness of `ProcessRequest_only_callbacks`: the service feed has `subscribe`
among its subscriptions only, and the request feed_subscribe gets the method-not-found
error without a call. -/
theorem ProcessRequest_only_callbacks_witness :
    (∃ sub : processor.callback demo.World,
      demo.feedJrpi.services.get "feed" =
        some { name := "feed", typ := .ptr demo.feedT, callbacks := [],
               subscriptions := [("subscribe", sub)] }) ∧
    ∃ (resp : RPCResponse) (e : RPCError),
      (processor.ProcessRequest demo.lib demo.feedJrpi demo.reqSubscribe []).outcome =
        .returned resp ∧
      resp.Error = some e ∧ e.Code = -32601 ∧
      (processor.ProcessRequest demo.lib demo.feedJrpi demo.reqSubscribe []).calls = [] :=
  match (processor.ProcessRequest_only_callbacks demo.lib demo.feedJrpi demo.reqSubscribe
      []).2.1 _ rfl rfl with
  | ⟨resp, e, h1, h2, h3, _, h5, _⟩ => ⟨⟨_, rfl⟩, resp, e, h1, h2, h3, h5⟩
